import Mathlib

/-!
# scuff-em : scattered-field evaluation for periodic geometries

A shallow embedding of `scratch/PBC/GetFields_PBC.cc` and of the set-up routines
of `src/applications/scuff-ldos/CreateSLDData.cc`, and theorems about them.

Numbers.  The C++ code computes in `double` and `cdouble`
(`std::complex<double>`).  The embedding is stated over an arbitrary field `F`
(arithmetic is taken exactly, real quantities are carried in the same field),
and concrete inputs are evaluated over `CRat`, the complex numbers with rational
real and imaginary part, where `cdouble(0,1)` is `⟨0, 1⟩`.
-/

namespace scuff

/-! ## Exact complex numbers with rational parts -/

/-- A complex number `re + i*im` with rational parts. -/
structure CRat where
  re : ℚ
  im : ℚ
  deriving DecidableEq

namespace CRat

instance : Zero CRat := ⟨⟨0, 0⟩⟩
instance : One CRat := ⟨⟨1, 0⟩⟩
instance : Add CRat := ⟨fun z w => ⟨z.re + w.re, z.im + w.im⟩⟩
instance : Neg CRat := ⟨fun z => ⟨-z.re, -z.im⟩⟩
instance : Sub CRat := ⟨fun z w => ⟨z.re - w.re, z.im - w.im⟩⟩
instance : Mul CRat := ⟨fun z w => ⟨z.re * w.re - z.im * w.im, z.re * w.im + z.im * w.re⟩⟩
instance : Inv CRat :=
  ⟨fun z => ⟨z.re / (z.re * z.re + z.im * z.im), -z.im / (z.re * z.re + z.im * z.im)⟩⟩

instance : AddCommGroup CRat where
  add_assoc := by
    rintro ⟨a, b⟩ ⟨c, d⟩ ⟨e, f⟩
    show CRat.mk (a + c + e) (b + d + f) = CRat.mk (a + (c + e)) (b + (d + f))
    rw [add_assoc, add_assoc]
  zero_add := by
    rintro ⟨a, b⟩
    show CRat.mk (0 + a) (0 + b) = CRat.mk a b
    rw [zero_add, zero_add]
  add_zero := by
    rintro ⟨a, b⟩
    show CRat.mk (a + 0) (b + 0) = CRat.mk a b
    rw [add_zero, add_zero]
  add_comm := by
    rintro ⟨a, b⟩ ⟨c, d⟩
    show CRat.mk (a + c) (b + d) = CRat.mk (c + a) (d + b)
    rw [add_comm a c, add_comm b d]
  neg_add_cancel := by
    rintro ⟨a, b⟩
    show CRat.mk (-a + a) (-b + b) = CRat.mk 0 0
    rw [neg_add_cancel, neg_add_cancel]
  sub_eq_add_neg := by
    rintro ⟨a, b⟩ ⟨c, d⟩
    show CRat.mk (a - c) (b - d) = CRat.mk (a + -c) (b + -d)
    rw [sub_eq_add_neg, sub_eq_add_neg]
  nsmul := nsmulRec
  zsmul := zsmulRec

instance : CommRing CRat where
  __ := (inferInstance : AddCommGroup CRat)
  mul_assoc := by
    rintro ⟨a, b⟩ ⟨c, d⟩ ⟨e, f⟩
    show CRat.mk ((a * c - b * d) * e - (a * d + b * c) * f)
        ((a * c - b * d) * f + (a * d + b * c) * e)
      = CRat.mk (a * (c * e - d * f) - b * (c * f + d * e))
        (a * (c * f + d * e) + b * (c * e - d * f))
    congr 1 <;> ring
  one_mul := by
    rintro ⟨a, b⟩
    show CRat.mk (1 * a - 0 * b) (1 * b + 0 * a) = CRat.mk a b
    congr 1 <;> ring
  mul_one := by
    rintro ⟨a, b⟩
    show CRat.mk (a * 1 - b * 0) (a * 0 + b * 1) = CRat.mk a b
    congr 1 <;> ring
  mul_comm := by
    rintro ⟨a, b⟩ ⟨c, d⟩
    show CRat.mk (a * c - b * d) (a * d + b * c) = CRat.mk (c * a - d * b) (c * b + d * a)
    congr 1 <;> ring
  left_distrib := by
    rintro ⟨a, b⟩ ⟨c, d⟩ ⟨e, f⟩
    show CRat.mk (a * (c + e) - b * (d + f)) (a * (d + f) + b * (c + e))
      = CRat.mk (a * c - b * d + (a * e - b * f)) (a * d + b * c + (a * f + b * e))
    congr 1 <;> ring
  right_distrib := by
    rintro ⟨a, b⟩ ⟨c, d⟩ ⟨e, f⟩
    show CRat.mk ((a + c) * e - (b + d) * f) ((a + c) * f + (b + d) * e)
      = CRat.mk (a * e - b * f + (c * e - d * f)) (a * f + b * e + (c * f + d * e))
    congr 1 <;> ring
  zero_mul := by
    rintro ⟨a, b⟩
    show CRat.mk (0 * a - 0 * b) (0 * b + 0 * a) = CRat.mk 0 0
    congr 1 <;> ring
  mul_zero := by
    rintro ⟨a, b⟩
    show CRat.mk (a * 0 - b * 0) (a * 0 + b * 0) = CRat.mk 0 0
    congr 1 <;> ring

instance : Field CRat where
  exists_pair_ne := ⟨⟨0, 0⟩, ⟨1, 0⟩, fun h => zero_ne_one (congrArg CRat.re h)⟩
  mul_inv_cancel := by
    rintro ⟨a, b⟩ h
    have hn : a * a + b * b ≠ 0 := by
      intro h0
      apply h
      have ha : a * a = 0 := by nlinarith [mul_self_nonneg a, mul_self_nonneg b]
      have hb : b * b = 0 := by nlinarith [mul_self_nonneg a, mul_self_nonneg b]
      show CRat.mk a b = CRat.mk 0 0
      rw [mul_self_eq_zero.mp ha, mul_self_eq_zero.mp hb]
    show CRat.mk (a * (a / (a * a + b * b)) - b * (-b / (a * a + b * b)))
        (a * (-b / (a * a + b * b)) + b * (a / (a * a + b * b))) = CRat.mk 1 0
    congr 1
    · field_simp
    · field_simp
      ring
  inv_zero := by
    show CRat.mk (0 / (0 * 0 + 0 * 0)) (-0 / (0 * 0 + 0 * 0)) = CRat.mk 0 0
    congr 1 <;> simp
  nnqsmul := _
  nnqsmul_def := fun _ _ => rfl
  qsmul := _
  qsmul_def := fun _ _ => rfl

end CRat

/-! ## Data model -/

/-- The file-local constant `MAXFUNC`. -/
def MAXFUNC : Nat := 50

/-- An `HVector` (libhmat): the coefficient vector, a sequence of complex entries. -/
abbrev HVector (F : Type) := List F

/-- The accessor `HVector::GetEntry(n)`: the entry at position `n`.  It does not
check bounds; a read at or past the length is undefined behaviour, here `none`. -/
def HVector.GetEntry {F : Type} (KN : HVector F) (n : Nat) : Option F := KN[n]?

/-- An `HMatrix` (libhmat): `NR` rows, `NC` columns, and its entries by
(row, column). -/
structure HMatrix (F : Type) where
  NR : Nat
  NC : Nat
  entry : Nat → Nat → F

/-- The accessor `HMatrix::GetEntryD(nr, nc)`. -/
def HMatrix.GetEntryD {F : Type} (M : HMatrix F) (nr nc : Nat) : F := M.entry nr nc

/-- The update `HMatrix::SetEntry(nr, nc, Entry)`: overwrites one cell and no other. -/
def HMatrix.SetEntry {F : Type} (M : HMatrix F) (nr nc : Nat) (Entry : F) : HMatrix F :=
  { M with entry := fun r c => if r = nr ∧ c = nc then Entry else M.entry r c }

/-- The allocation `new HMatrix(NR, NC, LHM_COMPLEX)`: a fresh matrix, zero-filled. -/
def HMatrix.new {F : Type} [Zero F] (NR NC : Nat) : HMatrix F := ⟨NR, NC, fun _ _ => 0⟩

/-- A material property `MatProp`: its `Type` tag (`Type_`) and its
`GetEpsMu(Omega, &Eps, &Mu)`. -/
structure MatProp (F : Type) where
  Type_ : Int
  GetEpsMu : F → F × F

/-- An `RWGEdge`: vertex indices, panel indices and length. -/
structure RWGEdge (F : Type) where
  iQP : Nat
  iV1 : Nat
  iV2 : Nat
  iQM : Nat
  iPPanel : Nat
  iMPanel : Nat
  Length : F

/-- An `RWGPanel`, of which the code reads the area. -/
structure RWGPanel (F : Type) where
  Area : F

/-- An `RWGObject` (a surface).  `ContainingObject` is the pointer to the
containing object, of which the code reads only `->Index`; `none` is `NULL`.
`Vertices i` is the coordinate triple at `Vertices + 3*i`. -/
structure RWGObject (F : Type) where
  Index : Int
  ContainingObject : Option Int
  MP : MatProp F
  NumEdges : Nat
  Edges : Nat → RWGEdge F
  Vertices : Nat → Fin 3 → F
  Panels : Nat → RWGPanel F

/-- An `RWGGeometry`: the objects `Objects[0..NumObjects)`, the table
`BFIndexOffset` and the exterior medium. -/
structure RWGGeometry (F : Type) where
  Objects : List (RWGObject F)
  BFIndexOffset : Int → Nat
  ExteriorMP : MatProp F

/-- The object count `G->NumObjects`. -/
def RWGGeometry.NumObjects {F : Type} (G : RWGGeometry F) : Nat := G.Objects.length

/-- A `PBCGeometry`: the underlying geometry and the lattice basis vectors. -/
structure PBCGeometry (F : Type) where
  G : RWGGeometry F
  LBV : List (List F)

/-- An incident-field source: its tagged region index and its `GetFields(X, dEH)`. -/
structure IncField (F : Type) where
  ObjectIndex : Int
  GetFields : (Fin 3 → F) → Fin 6 → F

/-- Modelled from the spec: `ParsedFieldFunc` (declared in `FieldGrid.h`) is not
under `src/`; the spec gives it as a pluggable evaluator
`Eval(point, normal, 6-component field, Eps, Mu) -> complex scalar`, built from a
function name.  A `ParsedFieldFunc` is its `Eval(X, dA, EH, Eps, Mu)`. -/
structure ParsedFieldFunc (F : Type) where
  Eval : (Fin 3 → F) → (Fin 3 → F) → (Fin 6 → F) → F → F → F

/-- Everything `GetFields_PBC.cc` uses and does not define: constants of the
headers (`ZVAC`, `MP_PEC`), `csqrt2`, the Ewald-summed kernel `GBarVDEwald`, the
fixed-order triangle quadrature `TriIntFixed`, `GetNumThreads`, `Tokenize`, the
constructor of `ParsedFieldFunc` (`none`: the name is not recognised, a fatal
error) and `RWGGeometry::UpdateIncFields`.  `II` is `cdouble(0,1)`. -/
structure Env (F : Type) where
  II : F
  ZVAC : F
  MP_PEC : Int
  csqrt2 : F → F
  GBarVDEwald : (Fin 3 → F) → F → List F → List (List F) → F → Int → Fin 8 → F
  TriIntFixed : ((Fin 3 → F) → Fin 9 → F) → Nat → (Fin 3 → F) → (Fin 3 → F) → (Fin 3 → F) →
    Nat → Fin 9 → F
  GetNumThreads : Nat
  Tokenize : String → Nat → String → List String
  newParsedFieldFunc : String → Option (ParsedFieldFunc F)
  UpdateIncFields : List (IncField F) → F → List (IncField F)

/-! ## Reduced potentials -/

/-- The record `GRPIntegrandData`. -/
structure GRPIntegrandData (F : Type) where
  Q : Fin 3 → F
  PreFac : F
  X0 : Fin 3 → F
  K : F
  P : List F
  LBV : List (List F)

/-- The helper `VecSub(v1, v2, v3)`: `v3 = v1 - v2`. -/
def VecSub {F : Type} [Field F] (v1 v2 : Fin 3 → F) : Fin 3 → F := fun i => v1 i - v2 i

/-- The helper `VecScale(v, alpha)`: `v *= alpha`. -/
def VecScale {F : Type} [Field F] (v : Fin 3 → F) (alpha : F) : Fin 3 → F := fun i => v i * alpha

/-- The integrand `GRPIntegrand(X, parms, f)`: the nine complex values `zf[0..8]`. -/
def GRPIntegrand {F : Type} [Field F] (env : Env F) (X : Fin 3 → F) (GRPID : GRPIntegrandData F) :
    Fin 9 → F :=
  let Q := GRPID.Q
  let PreFac := GRPID.PreFac
  let X0 := GRPID.X0
  let K := GRPID.K
  let P := GRPID.P
  let LBV := GRPID.LBV
  let fRWG := VecScale (VecSub X Q) PreFac
  let XmX0 := VecSub X X0
  let GBarVD := env.GBarVDEwald XmX0 K P LBV (-1) 0
  let Phi := GBarVD 0
  let GradPhi : Fin 3 → F := fun i => GBarVD ⟨i.val + 1, by omega⟩
  ![fRWG 0 * Phi,
    fRWG 1 * Phi,
    fRWG 2 * Phi,
    fRWG 1 * GradPhi 2 - fRWG 2 * GradPhi 1,
    fRWG 2 * GradPhi 0 - fRWG 0 * GradPhi 2,
    fRWG 0 * GradPhi 1 - fRWG 1 * GradPhi 0,
    -2 * PreFac * GradPhi 0,
    -2 * PreFac * GradPhi 1,
    -2 * PreFac * GradPhi 2]

/-- The three output vectors `a`, `Curla`, `Gradp` of `GetReducedPotentials`. -/
structure ReducedPotentials (F : Type) where
  a : Fin 3 → F
  Curla : Fin 3 → F
  Gradp : Fin 3 → F

/-- The function `GetReducedPotentials(O, ne, X, K, P, LBV, a, Curla, Gradp)`. -/
def GetReducedPotentials {F : Type} [Field F] (env : Env F) (O : RWGObject F) (ne : Nat)
    (X : Fin 3 → F) (K : F) (P : List F) (LBV : List (List F)) : ReducedPotentials F :=
  let E := O.Edges ne
  let QP := O.Vertices E.iQP
  let V1 := O.Vertices E.iV1
  let V2 := O.Vertices E.iV2
  let QM := O.Vertices E.iQM
  let PArea := (O.Panels E.iPPanel).Area
  let MArea := (O.Panels E.iMPanel).Area
  let GRPIDP : GRPIntegrandData F := ⟨QP, E.Length / (2 * PArea), X, K, P, LBV⟩
  let IP := env.TriIntFixed (fun Y => GRPIntegrand env Y GRPIDP) 18 QP V1 V2 25
  let GRPIDM : GRPIntegrandData F := ⟨QM, E.Length / (2 * MArea), X, K, P, LBV⟩
  let IM := env.TriIntFixed (fun Y => GRPIntegrand env Y GRPIDM) 18 V1 V2 QM 25
  { a := fun mu => IP ⟨mu.val, by omega⟩ - IM ⟨mu.val, by omega⟩
    Curla := fun mu => IP ⟨mu.val + 3, by omega⟩ - IM ⟨mu.val + 3, by omega⟩
    Gradp := fun mu => IP ⟨mu.val + 6, by omega⟩ - IM ⟨mu.val + 6, by omega⟩ }

/-! ## The scattered-field accumulator -/

/-- The locals of `GetScatteredFields` that live across loop iterations: the
output buffer `EHS` and the coefficients `KAlpha`, `NAlpha`. -/
structure GSFState (F : Type) where
  EHS : Fin 6 → F
  KAlpha : F
  NAlpha : F

/-- The loop `for(i=0; i<3; i++)` of `GetScatteredFields`, adding one edge's
contribution to `EHS[i]` and `EHS[i+3]`. -/
def GetScatteredFields.accumulate {F : Type} [Field F] (env : Env F) (iwe iwu KAlpha NAlpha : F)
    (RP : ReducedPotentials F) (EHS : Fin 6 → F) : Fin 6 → F :=
  (List.finRange 3).foldl
    (fun EHS i =>
      let EHS := Function.update EHS ⟨i.val, by omega⟩
        (EHS ⟨i.val, by omega⟩
          + env.ZVAC * (KAlpha * (iwu * RP.a i - RP.Gradp i / iwe) + NAlpha * RP.Curla i))
      Function.update EHS ⟨i.val + 3, by omega⟩
        (EHS ⟨i.val + 3, by omega⟩
          + (-1 * NAlpha * (iwe * RP.a i - RP.Gradp i / iwu) + KAlpha * RP.Curla i)))
    EHS

/-- The coefficient reads at the head of the edge loop: the new values of
`(KAlpha, NAlpha)`.  For a PEC object only `KAlpha` is assigned and `NAlpha`
keeps the value it had. -/
def GetScatteredFields.readCoefficients {F : Type} [Field F] (env : Env F) (Type_ : Int)
    (KN : HVector F) (Sign : F) (Offset ne : Nat) (NAlpha : F) : Option (F × F) :=
  if Type_ = env.MP_PEC then
    match KN.GetEntry (Offset + ne) with
    | some k => some (Sign * k, NAlpha)
    | none => none
  else
    match KN.GetEntry (Offset + 2 * ne + 0), KN.GetEntry (Offset + 2 * ne + 1) with
    | some k, some n => some (Sign * k, Sign * n)
    | _, _ => none

/-- One iteration of the loop `for(ne=0; ne<O->NumEdges; ne++)`. -/
def GetScatteredFields.edgeBody {F : Type} [Field F] (env : Env F) (PG : PBCGeometry F)
    (X : Fin 3 → F) (KN : HVector F) (Omega : F) (P : List F) (Eps Mu : F)
    (O : RWGObject F) (Sign : F) (Offset : Nat) (s : GSFState F) (ne : Nat) :
    Option (GSFState F) :=
  let iwe := env.II * Omega * Eps
  let iwu := env.II * Omega * Mu
  let K := env.csqrt2 (Eps * Mu) * Omega
  match GetScatteredFields.readCoefficients env O.MP.Type_ KN Sign Offset ne s.NAlpha with
  | none => none
  | some (KAlpha, NAlpha) =>
    let RP := GetReducedPotentials env O ne X K P PG.LBV
    some ⟨GetScatteredFields.accumulate env iwe iwu KAlpha NAlpha RP s.EHS, KAlpha, NAlpha⟩

/-- The index compared with the region index in the second test:
`O->ContainingObject->Index`, or `-1` when `O->ContainingObject` is `NULL`. -/
def RWGObject.ContainingObjectIndex {F : Type} (O : RWGObject F) : Int :=
  match O.ContainingObject with
  | none => -1
  | some Index => Index

/-- One iteration of the loop `for(no=0; no<G->NumObjects; no++)`. -/
def GetScatteredFields.objectBody {F : Type} [Field F] (env : Env F) (PG : PBCGeometry F)
    (X : Fin 3 → F) (ObjectIndex : Int) (KN : HVector F) (Omega : F) (P : List F) (Eps Mu : F)
    (s : GSFState F) (O : RWGObject F) : Option (GSFState F) :=
  let Offset := PG.G.BFIndexOffset O.Index
  let ContainingObjectIndex := O.ContainingObjectIndex
  if ObjectIndex = O.Index then
    (List.range O.NumEdges).foldlM
      (GetScatteredFields.edgeBody env PG X KN Omega P Eps Mu O (-1) Offset) s
  else if ObjectIndex = ContainingObjectIndex then
    (List.range O.NumEdges).foldlM
      (GetScatteredFields.edgeBody env PG X KN Omega P Eps Mu O 1 Offset) s
  else
    some s

/-- The function `GetScatteredFields(PG, X, ObjectIndex, KN, Omega, P, Eps, Mu, EHS)`: the six
entries of `EHS` on return, or `none` when a coefficient read is out of range.
`EHS` is zeroed by `memset`; `KAlpha` and `NAlpha` are default-constructed
`cdouble`s, which are zero. -/
def GetScatteredFields {F : Type} [Field F] (env : Env F) (PG : PBCGeometry F)
    (X : Fin 3 → F) (ObjectIndex : Int) (KN : HVector F) (Omega : F) (P : List F) (Eps Mu : F) :
    Option (Fin 6 → F) :=
  match PG.G.Objects.foldlM
      (GetScatteredFields.objectBody env PG X ObjectIndex KN Omega P Eps Mu)
      (⟨fun _ => 0, 0, 0⟩ : GSFState F) with
  | none => none
  | some s => some s.EHS

/-! ## The worker `GetFields_Thread` -/

/-- The record `ThreadData`.  `IF` is the linked list of incident fields (`[]`
is `NULL`), `KN` is `none` when the pointer is `NULL`, `NumFuncs` is the length
of `PFFuncs`.  The shared output matrix `FMatrix` is passed to the worker as
explicit state.  The `int` fields `nt` and `nTask` are natural numbers here: a
worker is only started with `0 <= nt < nTask`. -/
structure ThreadData (F : Type) where
  nt : Nat
  nTask : Nat
  PG : PBCGeometry F
  XMatrix : HMatrix F
  KN : Option (HVector F)
  IF : List (IncField F)
  Omega : F
  P : List F
  PFFuncs : List (ParsedFieldFunc F)

/-- The field `NumFuncs` of `ThreadData`. -/
def ThreadData.NumFuncs {F : Type} (TD : ThreadData F) : Nat := TD.PFFuncs.length

/-- The row loop of `GetFields_Thread` without its body: started with the local
counter `nt` at row `nr` and `count` rows to go, the rows for which
`if (nt!=TD->nt) continue;` is not taken, in order. -/
def GetFields_Thread.rowsFrom (nTask t : Nat) : Nat → Nat → Nat → List Nat
  | _, _, 0 => []
  | nt, nr, count + 1 =>
    let nt := nt + 1
    let nt := if nt = nTask then 0 else nt
    if nt ≠ t then GetFields_Thread.rowsFrom nTask t nt (nr + 1) count
    else nr :: GetFields_Thread.rowsFrom nTask t nt (nr + 1) count

/-- The rows `nr` in `0..NR-1` that the worker `(nt = t, nTask)` processes:
the loop starts with `int nt=0` at `nr=0`. -/
def GetFields_Thread.processedRows (nTask t NR : Nat) : List Nat :=
  GetFields_Thread.rowsFrom nTask t 0 0 NR

/-- The cells `(nr, nf)` the worker `(nt = t, nTask)` passes to
`FMatrix->SetEntry`, in order: for each processed row, `nf = 0..NumFuncs-1`. -/
def GetFields_Thread.writes (nTask t NR NumFuncs : Nat) : List (Nat × Nat) :=
  (GetFields_Thread.processedRows nTask t NR).flatMap
    (fun nr => (List.range NumFuncs).map (fun nf => (nr, nf)))

/-- The region index of a point: the lookup `G->GetObjectIndex(X)` is compiled
out (`#if 0`) and `ObjectIndex = -1` is assigned instead. -/
def GetFields_Thread.ObjectIndex {F : Type} (_X : Fin 3 → F) : Int := -1

/-- Modelled from the spec: `SixVecPlusEquals` (libscuff) is not under `src/`; the
spec has this step add the contribution of an incident-field source to the
field.  The helper `SixVecPlusEquals(V1, Alpha, V2)`: `V1[i] += Alpha*V2[i]`, six
entries. -/
def SixVecPlusEquals {F : Type} [Field F] (V1 : Fin 6 → F) (Alpha : F) (V2 : Fin 6 → F) :
    Fin 6 → F :=
  fun i => V1 i + Alpha * V2 i

/-- The medium lookup of `GetFields_Thread`: the exterior medium for region `-1`,
the medium of `G->Objects[ObjectIndex]` otherwise. -/
def GetFields_Thread.getEpsMu {F : Type} (G : RWGGeometry F) (ObjectIndex : Int) (Omega : F) :
    Option (F × F) :=
  if ObjectIndex = -1 then
    some (G.ExteriorMP.GetEpsMu Omega)
  else
    match G.Objects[ObjectIndex.toNat]? with
    | some O => some (O.MP.GetEpsMu Omega)
    | none => none

/-- The loop over the incident-field list: every source whose `ObjectIndex`
equals the region index adds its field to `EH`. -/
def GetFields_Thread.addIncFields {F : Type} [Field F] (IFList : List (IncField F))
    (ObjectIndex : Int) (X : Fin 3 → F) (EH : Fin 6 → F) : Fin 6 → F :=
  IFList.foldl
    (fun EH IF => if IF.ObjectIndex = ObjectIndex then SixVecPlusEquals EH 1 (IF.GetFields X)
      else EH)
    EH

/-- What `GetFields_Thread` computes for a point `X` before the field functions
are evaluated: the total field `EH` and the medium `(Eps, Mu)`. -/
def GetFields_Thread.fieldAt {F : Type} [Field F] (env : Env F) (PG : PBCGeometry F)
    (KN : Option (HVector F)) (IFList : List (IncField F)) (Omega : F) (P : List F)
    (X : Fin 3 → F) : Option ((Fin 6 → F) × F × F) :=
  let ObjectIndex := GetFields_Thread.ObjectIndex X
  match GetFields_Thread.getEpsMu PG.G ObjectIndex Omega with
  | none => none
  | some (Eps, Mu) =>
    let EHS : Option (Fin 6 → F) :=
      match KN with
      | some KN => GetScatteredFields env PG X ObjectIndex KN Omega P Eps Mu
      | none => some (fun _ => 0)
    match EHS with
    | none => none
    | some EH => some (GetFields_Thread.addIncFields IFList ObjectIndex X EH, Eps, Mu)

/-- The loop `for(int nf=0; nf<NumFuncs; nf++) FMatrix->SetEntry(nr, nf, ...)`,
from column `nf` on; the surface-normal argument `dA` is `{0,0,0}`. -/
def GetFields_Thread.writeRow {F : Type} [Field F] (nr : Nat) (X : Fin 3 → F) (EH : Fin 6 → F)
    (Eps Mu : F) : Nat → List (ParsedFieldFunc F) → HMatrix F → HMatrix F
  | _, [], FMatrix => FMatrix
  | nf, PFFunc :: rest, FMatrix =>
    GetFields_Thread.writeRow nr X EH Eps Mu (nf + 1) rest
      (FMatrix.SetEntry nr nf (PFFunc.Eval X (fun _ => 0) EH Eps Mu))

/-- The point in row `nr` of the point matrix. -/
def GetFields_Thread.point {F : Type} (XMatrix : HMatrix F) (nr : Nat) : Fin 3 → F :=
  ![XMatrix.GetEntryD nr 0, XMatrix.GetEntryD nr 1, XMatrix.GetEntryD nr 2]

/-- The body of the row loop for a row that is not skipped. -/
def GetFields_Thread.rowBody {F : Type} [Field F] (env : Env F) (TD : ThreadData F)
    (FMatrix : HMatrix F) (nr : Nat) : Option (HMatrix F) :=
  let X := GetFields_Thread.point TD.XMatrix nr
  match GetFields_Thread.fieldAt env TD.PG TD.KN TD.IF TD.Omega TD.P X with
  | none => none
  | some (EH, Eps, Mu) => some (GetFields_Thread.writeRow nr X EH Eps Mu 0 TD.PFFuncs FMatrix)

/-- The worker `GetFields_Thread(data)`: the output matrix after it has run, or
`none` when a coefficient read was out of range. -/
def GetFields_Thread {F : Type} [Field F] (env : Env F) (TD : ThreadData F)
    (FMatrix : HMatrix F) : Option (HMatrix F) :=
  (GetFields_Thread.processedRows TD.nTask TD.nt TD.XMatrix.NR).foldlM
    (GetFields_Thread.rowBody env TD) FMatrix

/-! ## The entry point `PBCGeometry::GetFields` -/

/-- The threading back-end selected at compile time: `USE_PTHREAD`, else
`USE_OPENMP`, else neither. -/
inductive Backend where
  | pthread
  | openmp
  | serial
  deriving DecidableEq

/-- The ways a call of `GetFields` ends without returning: `ErrExit` from the
constructor of `ParsedFieldFunc` (name not recognised); `ErrExit` on the shape of
a point matrix that is not null; and an out-of-range coefficient read in a
worker. -/
inductive GetFieldsError where
  | unknownFunction
  | wrongSizeXMatrix
  | outOfRangeRead
  deriving DecidableEq

/-- The matrix a returned `HMatrix *` points to: the one the caller passed in,
or the one allocated by the call. -/
inductive FMatrixRef where
  | supplied
  | allocated
  deriving DecidableEq

/-- Equality of results is decidable. -/
instance instDecidableEqResult : DecidableEq (Except GetFieldsError FMatrixRef)
  | .ok a, .ok b => if h : a = b then isTrue (by rw [h]) else isFalse (fun e => h (Except.ok.inj e))
  | .error a, .error b =>
    if h : a = b then isTrue (by rw [h]) else isFalse (fun e => h (Except.error.inj e))
  | .ok _, .error _ => isFalse (fun e => Except.noConfusion e)
  | .error _, .ok _ => isFalse (fun e => Except.noConfusion e)

/-- The state after a call of `GetFields`: what it returned, the contents of the
caller-supplied output matrix (if one was passed), the output matrix allocated by
the call (if one was), and whether the wrong-size warning was issued. -/
structure GetFieldsOutcome (F : Type) where
  result : Except GetFieldsError FMatrixRef
  supplied : Option (HMatrix F)
  allocated : Option (HMatrix F)
  warned : Bool

/-- The matrix returned by the call, when it returns. -/
def GetFieldsOutcome.returned {F : Type} (o : GetFieldsOutcome F) : Option (HMatrix F) :=
  match o.result with
  | .ok .supplied => o.supplied
  | .ok .allocated => o.allocated
  | .error _ => none

/-- The thread count in effect: `if (nThread <= 0) nThread = GetNumThreads();`. -/
def PBCGeometry.GetFields.nThread {F : Type} (env : Env F) (nThread : Int) : Nat :=
  if nThread ≤ 0 then env.GetNumThreads else nThread.toNat

/-- The value a 32-bit `int` holds when the integer result of an `int`
operation is `z`: `z` itself when it is representable; otherwise (signed
overflow, which C++ leaves undefined) the two's complement result, `z` reduced
modulo `2^32` into `[-2^31, 2^31)`. -/
def wrapInt32 (z : Int) : Int := (z + 2 ^ 31) % 2 ^ 32 - 2 ^ 31

/-- The number of workers each back-end starts, which is the value of
`ReferenceTD.nTask` the workers see.  With `USE_OPENMP` the field is assigned
`nThread*100`, computed in `int`; the loop `for(nt=0; nt<ReferenceTD.nTask; nt++)`
starts no worker when that value is not positive. -/
def PBCGeometry.GetFields.nTask (bk : Backend) (nThread : Nat) : Nat :=
  match bk with
  | .pthread => nThread
  | .openmp => (wrapInt32 ((nThread : Int) * 100)).toNat
  | .serial => 1

/-- The workers `nt` of `order`, each a copy of `ReferenceTD` with its own `nt`,
run to completion one after the other on the shared output matrix. -/
def PBCGeometry.GetFields.runWorkers {F : Type} [Field F] (env : Env F)
    (ReferenceTD : ThreadData F) (order : List Nat) (FMatrix : HMatrix F) : Option (HMatrix F) :=
  order.foldlM (fun FMatrix nt => GetFields_Thread env { ReferenceTD with nt := nt } FMatrix)
    FMatrix

/-- The tokens of the function string: the default is the six cartesian field
components. -/
def PBCGeometry.GetFields.Funcs {F : Type} (env : Env F) (FuncString : Option String) :
    List String :=
  let FCopy := match FuncString with
    | none => "Ex,Ey,Ez,Hx,Hy,Hz"
    | some s => s
  env.Tokenize FCopy MAXFUNC ","

/-- The loop `PFFuncs[nf] = new ParsedFieldFunc(Funcs[nf])`: the evaluators of the
tokens, or `none` when the constructor rejects one of them. -/
def PBCGeometry.GetFields.newPFFuncs {F : Type} (env : Env F) :
    List String → Option (List (ParsedFieldFunc F))
  | [] => some []
  | Func :: Funcs =>
    match env.newParsedFieldFunc Func with
    | none => none
    | some PFFunc =>
      match PBCGeometry.GetFields.newPFFuncs env Funcs with
      | none => none
      | some PFFuncs => some (PFFunc :: PFFuncs)

/-- The choice of the output matrix: a null `FMatrix` is replaced by a new
`NR x NumFuncs` matrix; a caller-supplied one of any other size is replaced by a
new matrix too, with a warning; otherwise the caller's matrix is used.  The
result is the matrix the workers write to, which one it is, and whether the
warning was issued. -/
def PBCGeometry.GetFields.selectFMatrix {F : Type} [Field F] (FMatrix : Option (HMatrix F))
    (NR NumFuncs : Nat) : FMatrixRef × HMatrix F × Bool :=
  match FMatrix with
  | none => (.allocated, HMatrix.new NR NumFuncs, false)
  | some FM =>
    if FM.NR ≠ NR ∨ FM.NC ≠ NumFuncs then (.allocated, HMatrix.new NR NumFuncs, true)
    else (.supplied, FM, false)

/-- The call `G->UpdateIncFields(IF, Omega)`: the incident fields of the list are brought
up to date in place.  The pointer `IF` is passed by value, so a null list is
still null after the call. -/
def RWGGeometry.UpdateIncFields {F : Type} (env : Env F) (IF : List (IncField F)) (Omega : F) :
    List (IncField F) :=
  match IF with
  | [] => []
  | IF => env.UpdateIncFields IF Omega

/-- The record `ReferenceTD` holding the fields common to all workers. -/
def PBCGeometry.GetFields.ReferenceTD {F : Type} (bk : Backend) (nThread : Nat)
    (PG : PBCGeometry F) (XMatrix : HMatrix F) (KN : Option (HVector F))
    (IF : List (IncField F)) (Omega : F) (P : List F) (PFFuncs : List (ParsedFieldFunc F)) :
    ThreadData F :=
  { nt := 0, nTask := PBCGeometry.GetFields.nTask bk nThread, PG := PG, XMatrix := XMatrix,
    KN := KN, IF := IF, Omega := Omega, P := P, PFFuncs := PFFuncs }

/-- The state in which the call ends once the workers are done: `run` is the
matrix they leave (`none`: a worker made an out-of-range read), `out` the choice
of output matrix made before; `return FMatrix` returns the chosen matrix. -/
def PBCGeometry.GetFields.outcome {F : Type} (FMatrix : Option (HMatrix F))
    (out : FMatrixRef × HMatrix F × Bool) (run : Option (HMatrix F)) : GetFieldsOutcome F :=
  match out.1, run with
  | .allocated, none => ⟨.error .outOfRangeRead, FMatrix, some out.2.1, out.2.2⟩
  | .supplied, none => ⟨.error .outOfRangeRead, FMatrix, none, out.2.2⟩
  | .allocated, some FM => ⟨.ok .allocated, FMatrix, some FM, out.2.2⟩
  | .supplied, some FM => ⟨.ok .supplied, some FM, none, out.2.2⟩

/-- The batch form `PBCGeometry::GetFields(IF, KN, Omega, P, XMatrix, FMatrix,
FuncString, nThread)`.  `sched nTask` is the order in which the `nTask` workers
run; `XMatrix` and `FMatrix` are `none` for null pointers.  The result is `none`
when the behaviour of the call is undefined: for a null `XMatrix` the test
`XMatrix==0 || ...` holds and the arguments `XMatrix->NR`, `XMatrix->NC` of the
`ErrExit` call dereference the null pointer before `ErrExit` is entered. -/
def PBCGeometry.GetFields {F : Type} [Field F] (env : Env F) (bk : Backend)
    (sched : Nat → List Nat) (PG : PBCGeometry F) (IF : List (IncField F))
    (KN : Option (HVector F)) (Omega : F) (P : List F) (XMatrix : Option (HMatrix F))
    (FMatrix : Option (HMatrix F)) (FuncString : Option String) (nThread : Int) :
    Option (GetFieldsOutcome F) :=
  let nThread := PBCGeometry.GetFields.nThread env nThread
  match PBCGeometry.GetFields.newPFFuncs env (PBCGeometry.GetFields.Funcs env FuncString) with
  | none => some ⟨.error .unknownFunction, FMatrix, none, false⟩
  | some PFFuncs =>
    let NumFuncs := PFFuncs.length
    match XMatrix with
    | none => none
    | some XMatrix =>
      if XMatrix.NC ≠ 3 ∨ XMatrix.NR = 0 then
        some ⟨.error .wrongSizeXMatrix, FMatrix, none, false⟩
      else
        let out := PBCGeometry.GetFields.selectFMatrix FMatrix XMatrix.NR NumFuncs
        let IF := RWGGeometry.UpdateIncFields env IF Omega
        let ReferenceTD := PBCGeometry.GetFields.ReferenceTD bk nThread PG XMatrix KN IF Omega P
          PFFuncs
        some (PBCGeometry.GetFields.outcome FMatrix out
          (PBCGeometry.GetFields.runWorkers env ReferenceTD (sched ReferenceTD.nTask) out.2.1))

/-- The single-point form `PBCGeometry::GetFields(IF, KN, Omega, P, X, EH,
nThread)`: a `1x3` matrix over `X` and a `1x6` matrix over the buffer `EH` are
passed to the batch form with a null function string. -/
def PBCGeometry.GetFieldsPoint {F : Type} [Field F] (env : Env F) (bk : Backend)
    (sched : Nat → List Nat) (PG : PBCGeometry F) (IF : List (IncField F))
    (KN : Option (HVector F)) (Omega : F) (P : List F) (X : Fin 3 → F) (EH : Fin 6 → F)
    (nThread : Int) : Option (GetFieldsOutcome F) :=
  let XMatrix : HMatrix F := ⟨1, 3, fun _ nc => if h : nc < 3 then X ⟨nc, h⟩ else 0⟩
  let FMatrix : HMatrix F := ⟨1, 6, fun _ nc => if h : nc < 6 then EH ⟨nc, h⟩ else 0⟩
  PBCGeometry.GetFields env bk sched PG IF KN Omega P (some XMatrix) (some FMatrix) none nThread


/-! ## Concrete inputs -/

/-- A concrete environment over `CRat`.  The external numerical routines are
replaced by exact stand-ins: `csqrt2` is the identity (exact at `0` and `1`),
the kernel returns `Phi = 1`, `GradPhi = (0,0,1)` everywhere, the quadrature is
the one-point rule at the first vertex, `Tokenize` splits at the separator
character and the recognised function names are the six cartesian components
and `Eps`. -/
def exampleEnv : Env CRat where
  II := ⟨0, 1⟩
  ZVAC := ⟨377, 0⟩
  MP_PEC := 1
  csqrt2 := fun z => z
  GBarVDEwald := fun _ _ _ _ _ _ => ![1, 0, 0, 1, 0, 0, 0, 0]
  TriIntFixed := fun f _ V1 _ _ _ => f V1
  GetNumThreads := 2
  Tokenize := fun s _ sep => s.splitOn sep
  newParsedFieldFunc := fun name =>
    if name = "Ex" then some ⟨fun _ _ EH _ _ => EH 0⟩
    else if name = "Ey" then some ⟨fun _ _ EH _ _ => EH 1⟩
    else if name = "Ez" then some ⟨fun _ _ EH _ _ => EH 2⟩
    else if name = "Hx" then some ⟨fun _ _ EH _ _ => EH 3⟩
    else if name = "Hy" then some ⟨fun _ _ EH _ _ => EH 4⟩
    else if name = "Hz" then some ⟨fun _ _ EH _ _ => EH 5⟩
    else if name = "Eps" then some ⟨fun _ _ _ Eps _ => Eps⟩
    else none
  UpdateIncFields := fun IF _ => IF

/-- A medium with `Eps = Mu = 1` at every frequency and the given type tag. -/
def exampleMP (Type_ : Int) : MatProp CRat := ⟨Type_, fun _ => (1, 1)⟩

/-- A surface with one edge, placed at `x = dx`: the edge from `V1 = (dx,0,0)` to
`V2 = (dx+1,0,0)` of length `1`, between the triangles with apex `QP = (dx,1,0)`
and `QM = (dx,-1,0)`, each of area `1/2`. -/
def exampleObject (Index : Int) (Type_ : Int) (dx : CRat) : RWGObject CRat where
  Index := Index
  ContainingObject := none
  MP := exampleMP Type_
  NumEdges := 1
  Edges := fun _ => ⟨0, 1, 2, 3, 0, 1, 1⟩
  Vertices := fun i =>
    if i = 0 then ![dx, 1, 0] else if i = 1 then ![dx, 0, 0] else if i = 2 then ![dx + 1, 0, 0]
    else ![dx, -1, 0]
  Panels := fun _ => ⟨⟨1 / 2, 0⟩⟩

/-- A geometry of two surfaces with no containing object: surface `0`,
penetrable (type `2`), at `x = 0` with coefficients at offset `0`, followed by
surface `1`, PEC (type `1`), at `x = 5` with its coefficient at offset `2`. -/
def exampleGeometry : PBCGeometry CRat where
  G := { Objects := [exampleObject 0 2 0, exampleObject 1 1 5]
         BFIndexOffset := fun Index => if Index = 0 then 0 else 2
         ExteriorMP := exampleMP 0 }
  LBV := []

/-- A geometry consisting of the penetrable surface `0` alone. -/
def examplePenetrable : PBCGeometry CRat where
  G := { Objects := [exampleObject 0 2 0]
         BFIndexOffset := fun _ => 0
         ExteriorMP := exampleMP 0 }
  LBV := []

/-- A point matrix with three rows: the points `(0,0,1)`, `(0,0,2)`, `(0,0,3)`. -/
def exampleXMatrix : HMatrix CRat := ⟨3, 3, fun r c => if c = 2 then ((r + 1 : ℕ) : CRat) else 0⟩

/-- A point matrix of the wrong shape: three rows, two columns. -/
def exampleXMatrix2 : HMatrix CRat := ⟨3, 2, fun _ _ => 0⟩

/-- A zero-filled output matrix over `CRat`. -/
def exampleFMatrix (NR NC : Nat) : HMatrix CRat := HMatrix.new NR NC

/-- The six evaluators of the cartesian components. -/
def examplePFFuncs : List (ParsedFieldFunc CRat) :=
  [⟨fun _ _ EH _ _ => EH 0⟩, ⟨fun _ _ EH _ _ => EH 1⟩, ⟨fun _ _ EH _ _ => EH 2⟩,
   ⟨fun _ _ EH _ _ => EH 3⟩, ⟨fun _ _ EH _ _ => EH 4⟩, ⟨fun _ _ EH _ _ => EH 5⟩]

/-- Thread data for `nTask` workers on the example geometry with the
coefficient vector `(0, 1, 0)` and no incident field. -/
def exampleTD (nTask : Nat) : ThreadData CRat where
  nt := 0
  nTask := nTask
  PG := exampleGeometry
  XMatrix := exampleXMatrix
  KN := some [0, 1, 0]
  IF := []
  Omega := 1
  P := []
  PFFuncs := examplePFFuncs

/-! ## Closed forms used in the statements -/

/-- What one edge with coefficients `KAlpha`, `NAlpha` and reduced potentials
`RP` adds to entry `j` of `EHS`: the `E` expression for `j = 0,1,2`, the `H`
expression for `j = 3,4,5`. -/
def edgeTerm {F : Type} [Field F] (env : Env F) (iwe iwu KAlpha NAlpha : F)
    (RP : ReducedPotentials F) (j : Fin 6) : F :=
  if h : j.val < 3 then
    env.ZVAC * (KAlpha * (iwu * RP.a ⟨j.val, h⟩ - RP.Gradp ⟨j.val, h⟩ / iwe)
      + NAlpha * RP.Curla ⟨j.val, h⟩)
  else
    -NAlpha * (iwe * RP.a ⟨j.val - 3, by omega⟩ - RP.Gradp ⟨j.val - 3, by omega⟩ / iwu)
      + KAlpha * RP.Curla ⟨j.val - 3, by omega⟩

/-- The coefficient vector `alpha*c1 + c2`, entry by entry. -/
def HVector.axpy {F : Type} [Field F] (alpha : F) (c1 c2 : HVector F) : HVector F :=
  List.zipWith (fun a b => alpha * a + b) c1 c2

/-- The state `alpha*s1 + s2`, field by field. -/
def GSFState.axpy {F : Type} [Field F] (alpha : F) (s1 s2 : GSFState F) : GSFState F :=
  ⟨fun i => alpha * s1.EHS i + s2.EHS i, alpha * s1.KAlpha + s2.KAlpha,
    alpha * s1.NAlpha + s2.NAlpha⟩

/-- Three runs are in step: all three have failed, or none has and the first
state is `alpha` times the second plus the third. -/
def GSFState.InStep {F : Type} [Field F] (alpha : F) :
    Option (GSFState F) → Option (GSFState F) → Option (GSFState F) → Prop
  | some s, some s1, some s2 => s = GSFState.axpy alpha s1 s2
  | none, none, none => True
  | _, _, _ => False

/-- The sign `s(O)` of a surface for a region index: `-1` if the region index is
`O`'s own index, `+1` if it instead is the index of `O`'s containing object
(`-1` when there is none), and `0` otherwise. -/
def surfaceSign {F : Type} [Field F] (ObjectIndex : Int) (O : RWGObject F) : F :=
  if ObjectIndex = O.Index then -1
  else if ObjectIndex = O.ContainingObjectIndex then 1
  else 0

/-- The arguments of one call of `GBarVDEwald`: displacement, wavenumber, Bloch
vector, lattice basis and the two trailing arguments. -/
structure GBarVDEwaldCall (F : Type) where
  R : Fin 3 → F
  K : F
  P : List F
  LBV : List (List F)
  E : F
  Order : Int

/-- The calls of `GBarVDEwald` made by `GRPIntegrand(X, parms, f)`, in order: the
single call `GBarVDEwald(XmX0, K, P, LBV, -1.0, 0, GBarVD)`. -/
def GRPIntegrand.kernelCalls {F : Type} [Field F] (X : Fin 3 → F) (GRPID : GRPIntegrandData F) :
    List (GBarVDEwaldCall F) :=
  [⟨VecSub X GRPID.X0, GRPID.K, GRPID.P, GRPID.LBV, -1, 0⟩]

/-- The number of coefficients of a surface: `NumEdges` for a PEC surface,
`2*NumEdges` for a penetrable one. -/
def surfaceDoF {F : Type} (env : Env F) (O : RWGObject F) : Nat :=
  if O.MP.Type_ = env.MP_PEC then O.NumEdges else 2 * O.NumEdges

/-- The state `-s`, field by field. -/
def GSFState.neg {F : Type} [Field F] (s : GSFState F) : GSFState F :=
  ⟨fun i => -s.EHS i, -s.KAlpha, -s.NAlpha⟩

/-- A penetrable surface with index `1` nested inside the surface with index
`0`. -/
def exampleNested : RWGObject CRat :=
  { exampleObject 1 2 0 with ContainingObject := some 0 }

/-- One coefficient read of `GetScatteredFields`: the position `no` of the
surface in `G->Objects`, the edge `ne`, the current type (`0` for the read into
`KAlpha`, `1` for the read into `NAlpha`) and the index passed to
`KN->GetEntry`. -/
structure CoefficientRead where
  no : Nat
  ne : Nat
  current : Nat
  index : Nat
  deriving DecidableEq

/-- The reads of one iteration of the edge loop: `Offset + ne` for a PEC
surface, `Offset + 2*ne + 0` and `Offset + 2*ne + 1` otherwise. -/
def GetScatteredFields.edgeReads {F : Type} (env : Env F) (Type_ : Int) (Offset no ne : Nat) :
    List CoefficientRead :=
  if Type_ = env.MP_PEC then [⟨no, ne, 0, Offset + ne⟩]
  else [⟨no, ne, 0, Offset + 2 * ne + 0⟩, ⟨no, ne, 1, Offset + 2 * ne + 1⟩]

/-- The reads of one iteration of the object loop, in order: none for a surface
left by `continue`, those of the edges `0..NumEdges-1` otherwise. -/
def GetScatteredFields.objectReads {F : Type} (env : Env F) (PG : PBCGeometry F)
    (ObjectIndex : Int) (no : Nat) (O : RWGObject F) : List CoefficientRead :=
  let Offset := PG.G.BFIndexOffset O.Index
  let ContainingObjectIndex := O.ContainingObjectIndex
  if ObjectIndex = O.Index then
    (List.range O.NumEdges).flatMap (GetScatteredFields.edgeReads env O.MP.Type_ Offset no)
  else if ObjectIndex = ContainingObjectIndex then
    (List.range O.NumEdges).flatMap (GetScatteredFields.edgeReads env O.MP.Type_ Offset no)
  else
    []

/-- The reads of the object loop from position `no` on, over the remaining
objects. -/
def GetScatteredFields.readsFrom {F : Type} (env : Env F) (PG : PBCGeometry F)
    (ObjectIndex : Int) : Nat → List (RWGObject F) → List CoefficientRead
  | _, [] => []
  | no, O :: rest =>
    GetScatteredFields.objectReads env PG ObjectIndex no O
      ++ GetScatteredFields.readsFrom env PG ObjectIndex (no + 1) rest

/-- The indices `GetScatteredFields` passes to `KN->GetEntry`, in order, when no
read fails. -/
def GetScatteredFields.reads {F : Type} (env : Env F) (PG : PBCGeometry F)
    (ObjectIndex : Int) : List CoefficientRead :=
  GetScatteredFields.readsFrom env PG ObjectIndex 0 PG.G.Objects

/-! ## The set-up routines of `scuff-ldos` (`CreateSLDData.cc`) -/

/-- One call `LBasis->SetEntry(nr, nc, Entry)`. -/
structure SetEntryCall (F : Type) where
  nr : Int
  nc : Int
  Entry : F

/-- The lattice-basis matrix set up by `CreateSLDData`: the row and column
counts given to `new HMatrix(G->LDim,3)` and the calls of `SetEntry` on it, in
order. -/
structure LBasisSetup (F : Type) where
  NR : Int
  NC : Int
  calls : List (SetEntryCall F)

/-- The block `if (G->LDim>0) { ... }` of `CreateSLDData`, as far as
`Data->LBasis` goes: `none` when the block is not entered (`Data->LBasis`
stays `0`), the allocation and the writes otherwise.  `LBasis` is the array
`G->LBasis`. -/
def CreateSLDData.LBasis {F : Type} (LDim : Int) (LBasis : Nat → Nat → F) :
    Option (LBasisSetup F) :=
  if LDim > 0 then
    let calls : List (SetEntryCall F) := [⟨0, 0, LBasis 0 0⟩, ⟨1, 0, LBasis 0 1⟩]
    let calls :=
      if LDim > 1 then calls ++ [⟨0, 1, LBasis 1 0⟩, ⟨1, 1, LBasis 1 1⟩] else calls
    some ⟨LDim, 3, calls⟩
  else
    none

/-- A call of `SetEntry` addresses a cell of an `NR x NC` matrix. -/
def SetEntryCall.inBounds {F : Type} (NR NC : Int) (c : SetEntryCall F) : Prop :=
  0 ≤ c.nr ∧ c.nr < NR ∧ 0 ≤ c.nc ∧ c.nc < NC

/-- One header line of the column legend: the column numbers it prints, in
order, and the text that follows them. -/
structure LegendLine where
  columns : List Int
  text : String

/-- The legend lines `WriteFilePreamble(FileName, FileType, LDim)` appends to the
file after `# columns:`, in order.  `FILETYPE_LDOS` is the constant of
`scuff-ldos.h`; `nc` is the running column counter of the code, and a line
printed with `nc++` carries the value of `nc` before the increment. -/
def WriteFilePreamble (FILETYPE_LDOS FileType LDim : Int) : List LegendLine :=
  let f : List LegendLine := [⟨[1, 2, 3, 4], "x y z Omega"⟩]
  let nc : Int := 4
  if FileType = FILETYPE_LDOS then
    let f := f ++ [⟨[nc + 1, nc + 2], "electric LDOS (integration error)"⟩]
    let nc := nc + 2
    let f := f ++ [⟨[nc + 1, nc + 2], "magnetic LDOS (integration error)"⟩]
    let nc := nc + 2
    let f := f ++ [⟨[nc + 1, nc + 3], "re, im GE_\x7b00\x7d"⟩]
    let nc := nc + 4
    let f := f ++ [⟨[nc + 1, nc + 3], "re, im GE_\x7b01\x7d"⟩]
    let nc := nc + 4
    let f := f ++ [⟨[nc + 1, nc + 3], "re, im GE_\x7b02\x7d"⟩]
    let nc := nc + 4
    let f := f ++ [⟨[nc + 1, nc + 3], "re, im GE_\x7b11\x7d"⟩]
    let nc := nc + 4
    let f := f ++ [⟨[nc + 1, nc + 3], "re, im GE_\x7b12\x7d"⟩]
    let nc := nc + 4
    let f := f ++ [⟨[nc + 1, nc + 3], "re, im GE_\x7b22\x7d"⟩]
    let nc := nc + 4
    let f := f ++ [⟨[nc + 1, nc + 3], "re, im GM_\x7b01\x7d"⟩]
    let nc := nc + 4
    let f := f ++ [⟨[nc + 1, nc + 3], "re, im GM_\x7b02\x7d"⟩]
    let nc := nc + 4
    let f := f ++ [⟨[nc + 1, nc + 3], "re, im GM_\x7b12\x7d"⟩]
    f
  else
    let fnc : List LegendLine × Int :=
      if LDim = 1 then
        (f ++ [⟨[nc], "kx"⟩], nc + 1)
      else
        (f ++ [⟨[nc + 1, nc + 2], "kx ky"⟩], nc + 2)
    let f := fnc.1
    let nc := fnc.2
    let f := f ++ [⟨[nc], "electric LDOS"⟩]
    let nc := nc + 1
    let f := f ++ [⟨[nc], "magnetic LDOS"⟩]
    let nc := nc + 1
    let f := f ++ [⟨[nc + 1, nc + 2], "re, im GE_\x7b00\x7d"⟩]
    let nc := nc + 2
    let f := f ++ [⟨[nc + 1, nc + 2], "re, im GE_\x7b01\x7d"⟩]
    let nc := nc + 2
    let f := f ++ [⟨[nc + 1, nc + 2], "re, im GE_\x7b02\x7d"⟩]
    let nc := nc + 2
    let f := f ++ [⟨[nc + 1, nc + 2], "re, im GE_\x7b11\x7d"⟩]
    let nc := nc + 2
    let f := f ++ [⟨[nc + 1, nc + 2], "re, im GE_\x7b12\x7d"⟩]
    let nc := nc + 2
    let f := f ++ [⟨[nc + 1, nc + 2], "re, im GE_\x7b22\x7d"⟩]
    let nc := nc + 2
    let f := f ++ [⟨[nc + 1, nc + 2], "re, im GM_\x7b00\x7d"⟩]
    let nc := nc + 2
    let f := f ++ [⟨[nc + 1, nc + 2], "re, im GM_\x7b01\x7d"⟩]
    let nc := nc + 2
    let f := f ++ [⟨[nc + 1, nc + 2], "re, im GM_\x7b02\x7d"⟩]
    let nc := nc + 2
    let f := f ++ [⟨[nc + 1, nc + 2], "re, im GM_\x7b11\x7d"⟩]
    let nc := nc + 2
    let f := f ++ [⟨[nc + 1, nc + 2], "re, im GM_\x7b12\x7d"⟩]
    let nc := nc + 2
    let f := f ++ [⟨[nc + 1, nc + 2], "re, im GM_\x7b22\x7d"⟩]
    f

/-- The column numbers announced by the legend, in order. -/
def WriteFilePreamble.columns (FILETYPE_LDOS FileType LDim : Int) : List Int :=
  (WriteFilePreamble FILETYPE_LDOS FileType LDim).flatMap (fun l => l.columns)

/-- The texts of the legend lines that announce column `c`, in order. -/
def WriteFilePreamble.linesOf (FILETYPE_LDOS FileType LDim c : Int) : List String :=
  ((WriteFilePreamble FILETYPE_LDOS FileType LDim).filter
    (fun l => decide (c ∈ l.columns))).map (fun l => l.text)

/-- The iteration of the object loop that C16 describes for the exterior region:
a surface with no containing object runs its edge loop with sign `+1`, a surface
nested inside another one is skipped. -/
def GetScatteredFields.exteriorBody {F : Type} [Field F] (env : Env F) (PG : PBCGeometry F)
    (X : Fin 3 → F) (KN : HVector F) (Omega : F) (P : List F) (Eps Mu : F)
    (s : GSFState F) (O : RWGObject F) : Option (GSFState F) :=
  match O.ContainingObject with
  | none =>
    (List.range O.NumEdges).foldlM
      (GetScatteredFields.edgeBody env PG X KN Omega P Eps Mu O 1 (PG.G.BFIndexOffset O.Index)) s
  | some _ => some s

/-- A geometry of two penetrable surfaces, the second nested inside the first:
surface `0` with coefficients at offset `0` and `exampleNested` with
coefficients at offset `2`. -/
def exampleNestedGeometry : PBCGeometry CRat where
  G := { Objects := [exampleObject 0 2 0, exampleNested]
         BFIndexOffset := fun Index => if Index = 0 then 0 else 2
         ExteriorMP := exampleMP 0 }
  LBV := []

/-- Thread data for one worker on `exampleNestedGeometry` with the coefficient
vector `(0, 1, 0, 1)` and no incident field. -/
def exampleNestedTD : ThreadData CRat where
  nt := 0
  nTask := 1
  PG := exampleNestedGeometry
  XMatrix := exampleXMatrix
  KN := some [0, 1, 0, 1]
  IF := []
  Omega := 1
  P := []
  PFFuncs := examplePFFuncs

/-! ## Work partitioning -/

theorem GetFields_Thread.counter_step (nTask nt : Nat) (h : nt < nTask) :
    (if nt + 1 = nTask then 0 else nt + 1) = (nt + 1) % nTask := by
  split
  · next h1 => rw [h1, Nat.mod_self]
  · next h1 => rw [Nat.mod_eq_of_lt]; omega

theorem GetFields_Thread.rowsFrom_eq_filter (nTask t : Nat) (count : Nat) :
    ∀ nt nr, nt < nTask →
      GetFields_Thread.rowsFrom nTask t nt nr count
        = (List.range' nr count).filter (fun x => (nt + (x - nr) + 1) % nTask = t) := by
  induction count with
  | zero => intro nt nr _; simp [GetFields_Thread.rowsFrom]
  | succ count ih =>
    intro nt nr hnt
    have hpos : 0 < nTask := by omega
    have hlt : (nt + 1) % nTask < nTask := Nat.mod_lt _ hpos
    have htail : (List.range' (nr + 1) count).filter
          (fun x => ((nt + 1) % nTask + (x - (nr + 1)) + 1) % nTask = t)
        = (List.range' (nr + 1) count).filter (fun x => (nt + (x - nr) + 1) % nTask = t) := by
      apply List.filter_congr
      intro x hx
      have hx1 : nr + 1 ≤ x := (List.mem_range'_1.mp hx).1
      have e : (nt + 1) % nTask + (x - (nr + 1)) + 1 ≡ nt + (x - nr) + 1 [MOD nTask] := by
        have e1 : (nt + 1) % nTask ≡ nt + 1 [MOD nTask] := Nat.mod_modEq _ _
        have e2 := (e1.add_right (x - (nr + 1))).add_right 1
        have e3 : nt + 1 + (x - (nr + 1)) + 1 = nt + (x - nr) + 1 := by omega
        rw [e3] at e2
        exact e2
      have e4 : ((nt + 1) % nTask + (x - (nr + 1)) + 1) % nTask = (nt + (x - nr) + 1) % nTask := e
      simp only [e4]
    rw [GetFields_Thread.rowsFrom, List.range'_succ, List.filter_cons]
    simp only [GetFields_Thread.counter_step nTask nt hnt, Nat.sub_self, Nat.add_zero]
    rw [ih _ _ hlt, htail]
    by_cases h : (nt + 1) % nTask = t
    · simp [h]
    · simp [h]

theorem GetFields_Thread.processedRows_eq_filter (nTask t NR : Nat) (h : 1 ≤ nTask) :
    GetFields_Thread.processedRows nTask t NR
      = (List.range NR).filter (fun nr => (nr + 1) % nTask = t) := by
  rw [GetFields_Thread.processedRows, GetFields_Thread.rowsFrom_eq_filter nTask t NR 0 0 (by omega),
    List.range_eq_range']
  apply List.filter_congr
  intro x _
  simp

theorem GetFields_Thread.mem_processedRows (nTask t NR nr : Nat) (h : 1 ≤ nTask) :
    nr ∈ GetFields_Thread.processedRows nTask t NR ↔ nr < NR ∧ (nr + 1) % nTask = t := by
  rw [GetFields_Thread.processedRows_eq_filter nTask t NR h]
  simp [List.mem_filter]

theorem GetFields_Thread.processedRows_nodup (nTask t NR : Nat) (h : 1 ≤ nTask) :
    (GetFields_Thread.processedRows nTask t NR).Nodup := by
  rw [GetFields_Thread.processedRows_eq_filter nTask t NR h]
  exact (List.nodup_range NR).filter _

/-- C1, as stated, fails: with two workers, row `0` is not processed by worker
`0 = 0 mod 2`. -/
theorem C1_counterexample :
    ¬ (0 ∈ GetFields_Thread.processedRows 2 0 1 ↔ 0 = 0 % 2) := by
  decide

/-- C1 (amended): for `nTask ≥ 1`, a worker index `t < nTask` and a row
`nr < NR`, the worker `(nt = t, nTask)` processes row `nr` if and only if
`t = (nr + 1) mod nTask`. -/
theorem C1_round_robin (nTask t NR nr : Nat) (hTask : 1 ≤ nTask) (_ht : t < nTask)
    (hnr : nr < NR) :
    nr ∈ GetFields_Thread.processedRows nTask t NR ↔ t = (nr + 1) % nTask := by
  rw [GetFields_Thread.mem_processedRows nTask t NR nr hTask]
  constructor
  · rintro ⟨_, h⟩; exact h.symm
  · intro h; exact ⟨hnr, h.symm⟩

theorem C1_round_robin_witness :
    1 ≤ 2 ∧ 1 < 2 ∧ 0 < 3 ∧ (0 ∈ GetFields_Thread.processedRows 2 1 3 ↔ 1 = (0 + 1) % 2) :=
  ⟨by decide, by decide, by decide, C1_round_robin 2 1 3 0 (by decide) (by decide) (by decide)⟩

theorem GetFields_Thread.perm_rows (nTask NR : Nat) (order : List Nat) (h : 1 ≤ nTask)
    (hperm : order.Perm (List.range nTask)) :
    (order.flatMap (fun t => GetFields_Thread.processedRows nTask t NR)).Perm (List.range NR) := by
  have hnd : order.Nodup := hperm.nodup_iff.mpr (List.nodup_range nTask)
  rw [List.perm_ext_iff_of_nodup _ (List.nodup_range NR)]
  · intro x
    simp only [List.mem_flatMap, GetFields_Thread.mem_processedRows nTask _ NR x h,
      List.mem_range]
    constructor
    · rintro ⟨_, _, hx, _⟩; exact hx
    · intro hx
      refine ⟨(x + 1) % nTask, ?_, hx, rfl⟩
      rw [hperm.mem_iff, List.mem_range]
      exact Nat.mod_lt _ (by omega)
  · rw [List.nodup_flatMap]
    refine ⟨fun t _ => GetFields_Thread.processedRows_nodup nTask t NR h, ?_⟩
    apply hnd.pairwise_of_forall_ne
    intro a _ b _ hab x hxa hxb
    rw [GetFields_Thread.mem_processedRows nTask _ NR x h] at hxa hxb
    exact hab (hxa.2.symm.trans hxb.2)

theorem GetFields_Thread.writes_nodup (nTask NR NumFuncs : Nat) (h : 1 ≤ nTask) :
    ((List.range nTask).flatMap
      (fun t => GetFields_Thread.writes nTask t NR NumFuncs)).Nodup := by
  have hrows := GetFields_Thread.perm_rows nTask NR (List.range nTask) h (List.Perm.refl _)
  have hnd : ((List.range nTask).flatMap
      (fun t => GetFields_Thread.processedRows nTask t NR)).Nodup :=
    hrows.nodup_iff.mpr (List.nodup_range NR)
  have e : (List.range nTask).flatMap (fun t => GetFields_Thread.writes nTask t NR NumFuncs)
      = ((List.range nTask).flatMap (fun t => GetFields_Thread.processedRows nTask t NR)).flatMap
          (fun nr => (List.range NumFuncs).map (fun nf => (nr, nf))) := by
    simp only [GetFields_Thread.writes, List.flatMap_assoc]
  rw [e, List.nodup_flatMap]
  constructor
  · intro nr _
    exact (List.nodup_range NumFuncs).map (fun a b hab => (Prod.mk.inj hab).2)
  · apply hnd.pairwise_of_forall_ne
    intro a _ b _ hab x hxa hxb
    simp only [List.mem_map] at hxa hxb
    obtain ⟨_, _, rfl⟩ := hxa
    obtain ⟨_, _, hb⟩ := hxb
    exact hab (Prod.mk.inj hb).1.symm

theorem count_eq_one_of_nodup_mem {α : Type} [BEq α] [LawfulBEq α] {a : α} {l : List α}
    (d : l.Nodup) (h : a ∈ l) : l.count a = 1 := by
  induction l with
  | nil => cases h
  | cons b l ih =>
    rw [List.nodup_cons] at d
    rw [List.count_cons]
    by_cases hb : b = a
    · subst hb
      simp [List.count_eq_zero_of_not_mem d.1]
    · have hmem : a ∈ l := by
        rcases List.mem_cons.mp h with h1 | h1
        · exact absurd h1.symm hb
        · exact h1
      simp [ih d.2 hmem, hb]

/-! ## Independence of the worker count -/

theorem HMatrix.ext_fields {F : Type} {A B : HMatrix F} (hNR : A.NR = B.NR) (hNC : A.NC = B.NC)
    (hentry : ∀ r c, A.entry r c = B.entry r c) : A = B := by
  cases A; cases B
  simp only [HMatrix.mk.injEq]
  exact ⟨hNR, hNC, funext fun r => funext fun c => hentry r c⟩

theorem GetFields_Thread.writeRow_NR {F : Type} [Field F] (nr : Nat) (X : Fin 3 → F)
    (EH : Fin 6 → F) (Eps Mu : F) (fs : List (ParsedFieldFunc F)) :
    ∀ (k : Nat) (FM : HMatrix F),
      (GetFields_Thread.writeRow nr X EH Eps Mu k fs FM).NR = FM.NR
        ∧ (GetFields_Thread.writeRow nr X EH Eps Mu k fs FM).NC = FM.NC := by
  induction fs with
  | nil => intro k FM; exact ⟨rfl, rfl⟩
  | cons f fs ih =>
    intro k FM
    rw [GetFields_Thread.writeRow]
    exact ih (k + 1) _

theorem GetFields_Thread.writeRow_entry {F : Type} [Field F] (nr : Nat) (X : Fin 3 → F)
    (EH : Fin 6 → F) (Eps Mu : F) (fs : List (ParsedFieldFunc F)) :
    ∀ (k : Nat) (FM : HMatrix F) (r c : Nat),
      (GetFields_Thread.writeRow nr X EH Eps Mu k fs FM).entry r c
        = if r = nr ∧ k ≤ c then
            (match fs[c - k]? with
              | some f => f.Eval X (fun _ => 0) EH Eps Mu
              | none => FM.entry r c)
          else FM.entry r c := by
  induction fs with
  | nil => intro k FM r c; simp [GetFields_Thread.writeRow]
  | cons f fs ih =>
    intro k FM r c
    rw [GetFields_Thread.writeRow, ih (k + 1)]
    by_cases hr : r = nr
    · by_cases hk : k + 1 ≤ c
      · have hk' : k ≤ c := by omega
        have e : c - k = (c - (k + 1)) + 1 := by omega
        simp only [hr, hk, hk', and_self, if_true, true_and, e, List.getElem?_cons_succ]
        cases fs[c - (k + 1)]? with
        | some g => rfl
        | none =>
          have hne : ¬ c = k := by omega
          simp [HMatrix.SetEntry, hne]
      · by_cases hck : c = k
        · subst hck
          simp [hr, HMatrix.SetEntry]
        · have hk' : ¬ k ≤ c := by omega
          simp [hr, hk, hk', HMatrix.SetEntry, hck]
    · simp [hr, HMatrix.SetEntry]

theorem GetFields_Thread.writeRow_comm {F : Type} [Field F] (x y : Nat) (X Y : Fin 3 → F)
    (EHx EHy : Fin 6 → F) (Ex Mx Ey My : F) (fs : List (ParsedFieldFunc F)) (FM : HMatrix F)
    (hxy : x ≠ y) :
    GetFields_Thread.writeRow y Y EHy Ey My 0 fs (GetFields_Thread.writeRow x X EHx Ex Mx 0 fs FM)
      = GetFields_Thread.writeRow x X EHx Ex Mx 0 fs
          (GetFields_Thread.writeRow y Y EHy Ey My 0 fs FM) := by
  apply HMatrix.ext_fields
  · simp only [(GetFields_Thread.writeRow_NR _ _ _ _ _ fs 0 _).1]
  · simp only [(GetFields_Thread.writeRow_NR _ _ _ _ _ fs 0 _).2]
  · intro r c
    simp only [GetFields_Thread.writeRow_entry, Nat.zero_le, and_true, Nat.sub_zero]
    have hyx : ¬ y = x := fun h => hxy h.symm
    by_cases hrx : r = x
    · subst hrx
      simp [hxy]
    · by_cases hry : r = y
      · subst hry
        simp [hyx]
      · simp [hrx, hry]

theorem GetFields_Thread.rowBody_eq {F : Type} [Field F] (env : Env F) (TD : ThreadData F)
    (FM : HMatrix F) (nr : Nat) :
    GetFields_Thread.rowBody env TD FM nr
      = (GetFields_Thread.fieldAt env TD.PG TD.KN TD.IF TD.Omega TD.P
          (GetFields_Thread.point TD.XMatrix nr)).map
        (fun v => GetFields_Thread.writeRow nr (GetFields_Thread.point TD.XMatrix nr)
          v.1 v.2.1 v.2.2 0 TD.PFFuncs FM) := by
  cases h : GetFields_Thread.fieldAt env TD.PG TD.KN TD.IF TD.Omega TD.P
      (GetFields_Thread.point TD.XMatrix nr) with
  | none => simp [GetFields_Thread.rowBody, h]
  | some v =>
    obtain ⟨EH, Eps, Mu⟩ := v
    simp [GetFields_Thread.rowBody, h]

theorem GetFields_Thread.rowBody_comm {F : Type} [Field F] (env : Env F) (TD : ThreadData F)
    (x y : Nat) (z : Option (HMatrix F)) :
    (z.bind (fun FM => GetFields_Thread.rowBody env TD FM x)).bind
        (fun FM => GetFields_Thread.rowBody env TD FM y)
      = (z.bind (fun FM => GetFields_Thread.rowBody env TD FM y)).bind
        (fun FM => GetFields_Thread.rowBody env TD FM x) := by
  by_cases hxy : x = y
  · subst hxy; rfl
  · simp only [GetFields_Thread.rowBody_eq]
    generalize GetFields_Thread.fieldAt env TD.PG TD.KN TD.IF TD.Omega TD.P
        (GetFields_Thread.point TD.XMatrix x) = ox
    generalize GetFields_Thread.fieldAt env TD.PG TD.KN TD.IF TD.Omega TD.P
        (GetFields_Thread.point TD.XMatrix y) = oy
    cases z with
    | none => simp
    | some FM =>
      cases ox with
      | none => cases oy <;> simp
      | some vx =>
        cases oy with
        | none => simp
        | some vy =>
          simp only [Option.some_bind, Option.map_some']
          rw [GetFields_Thread.writeRow_comm x y _ _ _ _ _ _ _ _ _ _ hxy]

theorem foldlM_option_eq_foldl {α β : Type} (f : β → α → Option β) (l : List α) :
    ∀ b : Option β,
      b.bind (fun b => l.foldlM f b) = l.foldl (fun o a => o.bind (fun b => f b a)) b := by
  induction l with
  | nil => intro b; cases b <;> rfl
  | cons a l ih =>
    intro b
    rw [List.foldl_cons, ← ih]
    cases b with
    | none => rfl
    | some b =>
      simp only [Option.bind, List.foldlM_cons]
      cases f b a <;> rfl

theorem foldlM_option_perm {α β : Type} (f : β → α → Option β) (l₁ l₂ : List α)
    (hperm : l₁.Perm l₂)
    (comm : ∀ x y (z : Option β),
      (z.bind (fun b => f b x)).bind (fun b => f b y)
        = (z.bind (fun b => f b y)).bind (fun b => f b x))
    (b : β) : l₁.foldlM f b = l₂.foldlM f b := by
  have h1 := foldlM_option_eq_foldl f l₁ (some b)
  have h2 := foldlM_option_eq_foldl f l₂ (some b)
  simp only [Option.bind] at h1 h2
  rw [h1, h2]
  exact hperm.foldl_eq' (fun x _ y _ z => comm x y z) _

theorem foldlM_option_flatMap {α β γ : Type} (f : β → α → Option β) (g : γ → List α)
    (l : List γ) :
    ∀ b : β, l.foldlM (fun b t => (g t).foldlM f b) b = (l.flatMap g).foldlM f b := by
  induction l with
  | nil => intro b; rfl
  | cons t l ih =>
    intro b
    rw [List.flatMap_cons, List.foldlM_append, List.foldlM_cons]
    cases (g t).foldlM f b with
    | none => rfl
    | some b1 => exact ih b1

theorem GetFields_Thread.processedRows_one (NR : Nat) :
    GetFields_Thread.processedRows 1 0 NR = List.range NR := by
  rw [GetFields_Thread.processedRows_eq_filter 1 0 NR (Nat.le_refl 1)]
  simp [Nat.mod_one]

theorem PBCGeometry.GetFields.runWorkers_eq_rows {F : Type} [Field F] (env : Env F)
    (TD : ThreadData F) (order : List Nat) (FMatrix : HMatrix F) (hTask : 1 ≤ TD.nTask)
    (hperm : order.Perm (List.range TD.nTask)) :
    PBCGeometry.GetFields.runWorkers env TD order FMatrix
      = (List.range TD.XMatrix.NR).foldlM (GetFields_Thread.rowBody env TD) FMatrix := by
  have h1 : PBCGeometry.GetFields.runWorkers env TD order FMatrix
      = (order.flatMap (fun t => GetFields_Thread.processedRows TD.nTask t TD.XMatrix.NR)).foldlM
          (GetFields_Thread.rowBody env TD) FMatrix :=
    foldlM_option_flatMap (GetFields_Thread.rowBody env TD)
      (fun t => GetFields_Thread.processedRows TD.nTask t TD.XMatrix.NR) order FMatrix
  rw [h1]
  exact foldlM_option_perm _ _ _
    (GetFields_Thread.perm_rows TD.nTask TD.XMatrix.NR order hTask hperm)
    (GetFields_Thread.rowBody_comm env TD) FMatrix

theorem GetFields_Thread.single_eq_rows {F : Type} [Field F] (env : Env F) (TD : ThreadData F)
    (FMatrix : HMatrix F) :
    GetFields_Thread env { TD with nt := 0, nTask := 1 } FMatrix
      = (List.range TD.XMatrix.NR).foldlM (GetFields_Thread.rowBody env TD) FMatrix := by
  have e := GetFields_Thread.processedRows_one TD.XMatrix.NR
  simp only [GetFields_Thread, e]
  rfl

/-- C2: for every `nTask ≥ 1` and every order in which the workers
`nt = 0..nTask-1` run to completion, the output matrix they leave, started from
the matrix `FMatrix`, is the one the single worker `(nt = 0, nTask = 1)` leaves
(and the run fails on an out-of-range read exactly when that one does). -/
theorem C2_partition_count_invariance {F : Type} [Field F] (env : Env F) (TD : ThreadData F)
    (order : List Nat) (FMatrix : HMatrix F) (hTask : 1 ≤ TD.nTask)
    (hperm : order.Perm (List.range TD.nTask)) :
    PBCGeometry.GetFields.runWorkers env TD order FMatrix
      = GetFields_Thread env { TD with nt := 0, nTask := 1 } FMatrix := by
  rw [PBCGeometry.GetFields.runWorkers_eq_rows env TD order FMatrix hTask hperm,
    GetFields_Thread.single_eq_rows]

theorem C2_partition_count_invariance_witness :
    1 ≤ (exampleTD 2).nTask ∧ [1, 0].Perm (List.range (exampleTD 2).nTask) ∧
    PBCGeometry.GetFields.runWorkers exampleEnv (exampleTD 2) [1, 0] (HMatrix.new 3 6)
      = GetFields_Thread exampleEnv { exampleTD 2 with nt := 0, nTask := 1 } (HMatrix.new 3 6) :=
  ⟨by decide, List.Perm.swap 0 1 [],
    C2_partition_count_invariance exampleEnv (exampleTD 2) [1, 0] (HMatrix.new 3 6) (by decide)
      (List.Perm.swap 0 1 [])⟩

/-! ## The accumulator in closed form -/

theorem GetScatteredFields.accumulate_eq {F : Type} [Field F] (env : Env F)
    (iwe iwu KAlpha NAlpha : F) (RP : ReducedPotentials F) (EHS : Fin 6 → F) :
    GetScatteredFields.accumulate env iwe iwu KAlpha NAlpha RP EHS
      = fun j => EHS j + edgeTerm env iwe iwu KAlpha NAlpha RP j := by
  funext j
  fin_cases j <;>
    simp [GetScatteredFields.accumulate, List.finRange, List.ofFn, Fin.foldr, Fin.foldr.loop,
      Function.update, edgeTerm]

/-! ## Linearity in the coefficient vector -/

theorem HVector.GetEntry_axpy {F : Type} [Field F] (alpha : F) (c1 c2 : HVector F)
    (hlen : c1.length = c2.length) (n : Nat) :
    (∃ a b, c1.GetEntry n = some a ∧ c2.GetEntry n = some b
        ∧ (HVector.axpy alpha c1 c2).GetEntry n = some (alpha * a + b))
      ∨ (c1.GetEntry n = none ∧ c2.GetEntry n = none
        ∧ (HVector.axpy alpha c1 c2).GetEntry n = none) := by
  simp only [HVector.GetEntry, HVector.axpy, List.getElem?_zipWith]
  by_cases h : n < c1.length
  · have h2 : n < c2.length := hlen ▸ h
    left
    refine ⟨c1[n], c2[n], ?_, ?_, ?_⟩
    · exact List.getElem?_eq_getElem h
    · exact List.getElem?_eq_getElem h2
    · rw [List.getElem?_eq_getElem h, List.getElem?_eq_getElem h2]
  · have h2 : ¬ n < c2.length := hlen ▸ h
    right
    have e1 : c1[n]? = none := List.getElem?_eq_none (by omega)
    have e2 : c2[n]? = none := List.getElem?_eq_none (by omega)
    refine ⟨e1, e2, ?_⟩
    rw [e1]

theorem edgeTerm_axpy {F : Type} [Field F] (env : Env F) (iwe iwu alpha K1 N1 K2 N2 : F)
    (RP : ReducedPotentials F) (j : Fin 6) :
    edgeTerm env iwe iwu (alpha * K1 + K2) (alpha * N1 + N2) RP j
      = alpha * edgeTerm env iwe iwu K1 N1 RP j + edgeTerm env iwe iwu K2 N2 RP j := by
  unfold edgeTerm
  split <;> ring

theorem GetScatteredFields.edgeBody_inStep {F : Type} [Field F] (env : Env F)
    (PG : PBCGeometry F) (X : Fin 3 → F) (Omega : F) (P : List F) (Eps Mu : F)
    (O : RWGObject F) (Sign : F) (Offset : Nat) (alpha : F) (c1 c2 : HVector F)
    (hlen : c1.length = c2.length) (s1 s2 : GSFState F) (ne : Nat) :
    GSFState.InStep alpha
      (GetScatteredFields.edgeBody env PG X (HVector.axpy alpha c1 c2) Omega P Eps Mu O Sign
        Offset (GSFState.axpy alpha s1 s2) ne)
      (GetScatteredFields.edgeBody env PG X c1 Omega P Eps Mu O Sign Offset s1 ne)
      (GetScatteredFields.edgeBody env PG X c2 Omega P Eps Mu O Sign Offset s2 ne) := by
  unfold GetScatteredFields.edgeBody GetScatteredFields.readCoefficients
  by_cases hT : O.MP.Type_ = env.MP_PEC
  · simp only [hT, if_true]
    rcases HVector.GetEntry_axpy alpha c1 c2 hlen (Offset + ne) with
      ⟨a, b, h1, h2, h3⟩ | ⟨h1, h2, h3⟩
    · simp only [h1, h2, h3, GSFState.InStep, GSFState.axpy,
        GetScatteredFields.accumulate_eq, GSFState.mk.injEq]
      refine ⟨?_, by ring, trivial⟩
      funext j
      rw [show Sign * (alpha * a + b) = alpha * (Sign * a) + Sign * b by ring, edgeTerm_axpy]
      ring
    · simp only [h1, h2, h3, GSFState.InStep]
  · simp only [hT, if_false]
    rcases HVector.GetEntry_axpy alpha c1 c2 hlen (Offset + 2 * ne + 0) with
      ⟨a, b, h1, h2, h3⟩ | ⟨h1, h2, h3⟩
    · rcases HVector.GetEntry_axpy alpha c1 c2 hlen (Offset + 2 * ne + 1) with
        ⟨a', b', h1', h2', h3'⟩ | ⟨h1', h2', h3'⟩
      · simp only [h1, h2, h3, h1', h2', h3', GSFState.InStep, GSFState.axpy,
          GetScatteredFields.accumulate_eq, GSFState.mk.injEq]
        refine ⟨?_, by ring, by ring⟩
        funext j
        rw [show Sign * (alpha * a + b) = alpha * (Sign * a) + Sign * b by ring,
          show Sign * (alpha * a' + b') = alpha * (Sign * a') + Sign * b' by ring, edgeTerm_axpy]
        ring
      · simp only [h1, h2, h3, h1', h2', h3', GSFState.InStep]
    · simp only [h1, h2, h3, GSFState.InStep]

theorem GSFState.inStep_foldlM {F : Type} [Field F] {α : Type} (alpha : F)
    (f f1 f2 : GSFState F → α → Option (GSFState F))
    (hstep : ∀ s1 s2 x, GSFState.InStep alpha (f (GSFState.axpy alpha s1 s2) x) (f1 s1 x) (f2 s2 x))
    (l : List α) :
    ∀ s1 s2, GSFState.InStep alpha (l.foldlM f (GSFState.axpy alpha s1 s2)) (l.foldlM f1 s1)
      (l.foldlM f2 s2) := by
  induction l with
  | nil => intro s1 s2; simp [GSFState.InStep]
  | cons x l ih =>
    intro s1 s2
    have h := hstep s1 s2 x
    simp only [List.foldlM_cons]
    cases hf : f (GSFState.axpy alpha s1 s2) x with
    | none =>
      cases hf1 : f1 s1 x with
      | none =>
        cases hf2 : f2 s2 x with
        | none => simp [GSFState.InStep]
        | some t2 => rw [hf, hf1, hf2] at h; exact absurd h (by simp [GSFState.InStep])
      | some t1 =>
        cases hf2 : f2 s2 x <;> (rw [hf, hf1, hf2] at h; exact absurd h (by simp [GSFState.InStep]))
    | some t =>
      cases hf1 : f1 s1 x with
      | none =>
        cases hf2 : f2 s2 x <;> (rw [hf, hf1, hf2] at h; exact absurd h (by simp [GSFState.InStep]))
      | some t1 =>
        cases hf2 : f2 s2 x with
        | none => rw [hf, hf1, hf2] at h; exact absurd h (by simp [GSFState.InStep])
        | some t2 =>
          rw [hf, hf1, hf2] at h
          simp only [GSFState.InStep] at h
          simp only [Option.some_bind, Option.bind_eq_bind]
          rw [h]
          exact ih t1 t2

theorem GetScatteredFields.objectBody_inStep {F : Type} [Field F] (env : Env F)
    (PG : PBCGeometry F) (X : Fin 3 → F) (ObjectIndex : Int) (Omega : F) (P : List F)
    (Eps Mu : F) (alpha : F) (c1 c2 : HVector F) (hlen : c1.length = c2.length)
    (s1 s2 : GSFState F) (O : RWGObject F) :
    GSFState.InStep alpha
      (GetScatteredFields.objectBody env PG X ObjectIndex (HVector.axpy alpha c1 c2) Omega P
        Eps Mu (GSFState.axpy alpha s1 s2) O)
      (GetScatteredFields.objectBody env PG X ObjectIndex c1 Omega P Eps Mu s1 O)
      (GetScatteredFields.objectBody env PG X ObjectIndex c2 Omega P Eps Mu s2 O) := by
  unfold GetScatteredFields.objectBody
  by_cases h1 : ObjectIndex = O.Index
  · simp only [if_pos h1]
    exact GSFState.inStep_foldlM alpha _ _ _
      (fun s1 s2 ne => GetScatteredFields.edgeBody_inStep env PG X Omega P Eps Mu O _ _ alpha
        c1 c2 hlen s1 s2 ne) _ s1 s2
  · by_cases h2 : ObjectIndex = O.ContainingObjectIndex
    · simp only [if_neg h1, if_pos h2]
      exact GSFState.inStep_foldlM alpha _ _ _
        (fun s1 s2 ne => GetScatteredFields.edgeBody_inStep env PG X Omega P Eps Mu O _ _ alpha
          c1 c2 hlen s1 s2 ne) _ s1 s2
    · simp only [if_neg h1, if_neg h2, GSFState.InStep]

/-- C4: for coefficient vectors `c1`, `c2` of the same length and a scalar
`alpha`, `GetScatteredFields` on `alpha*c1 + c2` returns `alpha` times its
result on `c1` plus its result on `c2`, entry by entry; it fails on an
out-of-range read exactly when the runs on `c1` and `c2` do. -/
theorem C4_linearity {F : Type} [Field F] (env : Env F) (PG : PBCGeometry F) (X : Fin 3 → F)
    (ObjectIndex : Int) (Omega : F) (P : List F) (Eps Mu : F) (alpha : F) (c1 c2 : HVector F)
    (hlen : c1.length = c2.length) :
    GetScatteredFields env PG X ObjectIndex (HVector.axpy alpha c1 c2) Omega P Eps Mu
      = match GetScatteredFields env PG X ObjectIndex c1 Omega P Eps Mu,
          GetScatteredFields env PG X ObjectIndex c2 Omega P Eps Mu with
        | some EHS1, some EHS2 => some (fun i => alpha * EHS1 i + EHS2 i)
        | _, _ => none := by
  have h0 : (⟨fun _ => 0, 0, 0⟩ : GSFState F)
      = GSFState.axpy alpha ⟨fun _ => 0, 0, 0⟩ ⟨fun _ => 0, 0, 0⟩ := by
    simp [GSFState.axpy]
  have h := GSFState.inStep_foldlM alpha _ _ _
    (fun s1 s2 O => GetScatteredFields.objectBody_inStep env PG X ObjectIndex Omega P Eps Mu
      alpha c1 c2 hlen s1 s2 O) PG.G.Objects ⟨fun _ => 0, 0, 0⟩ ⟨fun _ => 0, 0, 0⟩
  rw [← h0] at h
  unfold GetScatteredFields
  generalize List.foldlM (GetScatteredFields.objectBody env PG X ObjectIndex
    (HVector.axpy alpha c1 c2) Omega P Eps Mu) (⟨fun _ => 0, 0, 0⟩ : GSFState F) PG.G.Objects
    = r at h
  generalize List.foldlM (GetScatteredFields.objectBody env PG X ObjectIndex c1 Omega P Eps Mu)
    (⟨fun _ => 0, 0, 0⟩ : GSFState F) PG.G.Objects = r1 at h
  generalize List.foldlM (GetScatteredFields.objectBody env PG X ObjectIndex c2 Omega P Eps Mu)
    (⟨fun _ => 0, 0, 0⟩ : GSFState F) PG.G.Objects = r2 at h
  cases r <;> cases r1 <;> cases r2 <;> simp only [GSFState.InStep] at h <;>
    first
      | rfl
      | (rw [h]; rfl)

theorem C4_linearity_witness :
    ([0, 1, 0] : HVector CRat).length = ([1, 0, 1] : HVector CRat).length ∧
    GetScatteredFields exampleEnv exampleGeometry ![0, 0, 1] (-1)
        (HVector.axpy 2 [0, 1, 0] [1, 0, 1]) 1 [] 1 1
      = match GetScatteredFields exampleEnv exampleGeometry ![0, 0, 1] (-1) [0, 1, 0] 1 [] 1 1,
          GetScatteredFields exampleEnv exampleGeometry ![0, 0, 1] (-1) [1, 0, 1] 1 [] 1 1 with
        | some EHS1, some EHS2 => some (fun i => 2 * EHS1 i + EHS2 i)
        | _, _ => none :=
  ⟨rfl, C4_linearity exampleEnv exampleGeometry ![0, 0, 1] (-1) 1 [] 1 1 2 [0, 1, 0] [1, 0, 1] rfl⟩

/-! ## The accumulation formula for penetrable surfaces -/

theorem edgeTerm_zero {F : Type} [Field F] (env : Env F) (iwe iwu : F)
    (RP : ReducedPotentials F) (j : Fin 6) : edgeTerm env iwe iwu 0 0 RP j = 0 := by
  unfold edgeTerm
  split <;> simp

theorem sum_map_eq_zero {α F : Type} [Field F] (l : List α) (f : α → F)
    (h : ∀ x ∈ l, f x = 0) : (l.map f).sum = 0 := by
  induction l with
  | nil => rfl
  | cons x l ih =>
    rw [List.map_cons, List.sum_cons, h x (List.mem_cons_self x l),
      ih (fun y hy => h y (List.mem_cons_of_mem x hy)), add_zero]

theorem GetScatteredFields.edgeLoop_penetrable {F : Type} [Field F] (env : Env F)
    (PG : PBCGeometry F) (X : Fin 3 → F) (KN : HVector F) (Omega : F) (P : List F) (Eps Mu : F)
    (O : RWGObject F) (Sign : F) (Offset : Nat) (hpen : O.MP.Type_ ≠ env.MP_PEC)
    (l : List Nat) :
    (∀ e ∈ l, Offset + 2 * e + 1 < KN.length) →
    ∀ s : GSFState F, ∃ s', l.foldlM
        (GetScatteredFields.edgeBody env PG X KN Omega P Eps Mu O Sign Offset) s = some s'
      ∧ ∀ j, s'.EHS j = s.EHS j + (l.map (fun e =>
          edgeTerm env (env.II * Omega * Eps) (env.II * Omega * Mu)
            (Sign * KN.getD (Offset + 2 * e) 0) (Sign * KN.getD (Offset + 2 * e + 1) 0)
            (GetReducedPotentials env O e X (env.csqrt2 (Eps * Mu) * Omega) P PG.LBV) j)).sum := by
  induction l with
  | nil => intro _ s; exact ⟨s, rfl, fun j => by simp⟩
  | cons e l ih =>
    intro hb s
    have he : Offset + 2 * e + 1 < KN.length := hb e (List.mem_cons_self e l)
    have hk : KN.GetEntry (Offset + 2 * e + 0) = some (KN.getD (Offset + 2 * e) 0) := by
      simp only [HVector.GetEntry, Nat.add_zero, List.getD_eq_getElem?_getD]
      rw [List.getElem?_eq_getElem (by omega)]
      rfl
    have hn : KN.GetEntry (Offset + 2 * e + 1) = some (KN.getD (Offset + 2 * e + 1) 0) := by
      simp only [HVector.GetEntry, List.getD_eq_getElem?_getD]
      rw [List.getElem?_eq_getElem he]
      rfl
    have hstep : GetScatteredFields.edgeBody env PG X KN Omega P Eps Mu O Sign Offset s e
        = some ⟨fun j => s.EHS j + edgeTerm env (env.II * Omega * Eps) (env.II * Omega * Mu)
            (Sign * KN.getD (Offset + 2 * e) 0) (Sign * KN.getD (Offset + 2 * e + 1) 0)
            (GetReducedPotentials env O e X (env.csqrt2 (Eps * Mu) * Omega) P PG.LBV) j,
          Sign * KN.getD (Offset + 2 * e) 0, Sign * KN.getD (Offset + 2 * e + 1) 0⟩ := by
      simp only [GetScatteredFields.edgeBody, GetScatteredFields.readCoefficients, if_neg hpen,
        hk, hn, GetScatteredFields.accumulate_eq]
    obtain ⟨s', hs', hE⟩ := ih (fun e' he' => hb e' (List.mem_cons_of_mem e he')) _
    refine ⟨s', ?_, ?_⟩
    · rw [List.foldlM_cons, hstep]
      exact hs'
    · intro j
      rw [hE j, List.map_cons, List.sum_cons]
      ring

theorem GetScatteredFields.objectBody_penetrable {F : Type} [Field F] (env : Env F)
    (PG : PBCGeometry F) (X : Fin 3 → F) (ObjectIndex : Int) (KN : HVector F) (Omega : F)
    (P : List F) (Eps Mu : F) (O : RWGObject F) (hpen : O.MP.Type_ ≠ env.MP_PEC)
    (hb : (ObjectIndex = O.Index ∨ ObjectIndex = O.ContainingObjectIndex) →
      PG.G.BFIndexOffset O.Index + 2 * O.NumEdges ≤ KN.length)
    (s : GSFState F) :
    ∃ s', GetScatteredFields.objectBody env PG X ObjectIndex KN Omega P Eps Mu s O = some s'
      ∧ ∀ j, s'.EHS j = s.EHS j + ((List.range O.NumEdges).map (fun e =>
          edgeTerm env (env.II * Omega * Eps) (env.II * Omega * Mu)
            (surfaceSign ObjectIndex O * KN.getD (PG.G.BFIndexOffset O.Index + 2 * e) 0)
            (surfaceSign ObjectIndex O * KN.getD (PG.G.BFIndexOffset O.Index + 2 * e + 1) 0)
            (GetReducedPotentials env O e X (env.csqrt2 (Eps * Mu) * Omega) P PG.LBV) j)).sum := by
  have hrange : (ObjectIndex = O.Index ∨ ObjectIndex = O.ContainingObjectIndex) →
      ∀ e ∈ List.range O.NumEdges, PG.G.BFIndexOffset O.Index + 2 * e + 1 < KN.length := by
    intro h e he
    have := hb h
    have := List.mem_range.mp he
    omega
  unfold GetScatteredFields.objectBody surfaceSign
  by_cases h1 : ObjectIndex = O.Index
  · simp only [if_pos h1]
    exact GetScatteredFields.edgeLoop_penetrable env PG X KN Omega P Eps Mu O (-1) _ hpen _
      (hrange (Or.inl h1)) s
  · by_cases h2 : ObjectIndex = O.ContainingObjectIndex
    · simp only [if_neg h1, if_pos h2]
      exact GetScatteredFields.edgeLoop_penetrable env PG X KN Omega P Eps Mu O 1 _ hpen _
        (hrange (Or.inr h2)) s
    · simp only [if_neg h1, if_neg h2]
      refine ⟨s, rfl, fun j => ?_⟩
      rw [sum_map_eq_zero _ _ (fun e _ => by simp [edgeTerm_zero]), add_zero]

theorem GetScatteredFields.objectLoop_penetrable {F : Type} [Field F] (env : Env F)
    (PG : PBCGeometry F) (X : Fin 3 → F) (ObjectIndex : Int) (KN : HVector F) (Omega : F)
    (P : List F) (Eps Mu : F) (Os : List (RWGObject F)) :
    (∀ O ∈ Os, O.MP.Type_ ≠ env.MP_PEC) →
    (∀ O ∈ Os, (ObjectIndex = O.Index ∨ ObjectIndex = O.ContainingObjectIndex) →
      PG.G.BFIndexOffset O.Index + 2 * O.NumEdges ≤ KN.length) →
    ∀ s : GSFState F, ∃ s', Os.foldlM
        (GetScatteredFields.objectBody env PG X ObjectIndex KN Omega P Eps Mu) s = some s'
      ∧ ∀ j, s'.EHS j = s.EHS j + (Os.map (fun O => ((List.range O.NumEdges).map (fun e =>
          edgeTerm env (env.II * Omega * Eps) (env.II * Omega * Mu)
            (surfaceSign ObjectIndex O * KN.getD (PG.G.BFIndexOffset O.Index + 2 * e) 0)
            (surfaceSign ObjectIndex O * KN.getD (PG.G.BFIndexOffset O.Index + 2 * e + 1) 0)
            (GetReducedPotentials env O e X (env.csqrt2 (Eps * Mu) * Omega) P PG.LBV) j)).sum)).sum := by
  induction Os with
  | nil => intro _ _ s; exact ⟨s, rfl, fun j => by simp⟩
  | cons O Os ih =>
    intro hpen hb s
    obtain ⟨s1, hs1, hE1⟩ := GetScatteredFields.objectBody_penetrable env PG X ObjectIndex KN
      Omega P Eps Mu O (hpen O (List.mem_cons_self O Os)) (hb O (List.mem_cons_self O Os)) s
    obtain ⟨s', hs', hE⟩ := ih (fun O' h => hpen O' (List.mem_cons_of_mem O h))
      (fun O' h => hb O' (List.mem_cons_of_mem O h)) s1
    refine ⟨s', ?_, ?_⟩
    · rw [List.foldlM_cons, hs1]
      exact hs'
    · intro j
      rw [hE j, hE1 j, List.map_cons, List.sum_cons]
      ring
/-- C5: for a geometry all of whose surfaces are penetrable, with the
coefficients of every contributing surface inside the coefficient vector,
`GetScatteredFields` returns and, for `i = 0,1,2`, `E[i]` is the sum over the
surfaces `O` and the edges `e` of `O` of
`s(O)*Z0*(K_e*(i*w*Mu*a_e[i] - Gradp_e[i]/(i*w*Eps)) + N_e*Curla_e[i])` and
`H[i]` is the sum of
`s(O)*(-N_e*(i*w*Eps*a_e[i] - Gradp_e[i]/(i*w*Mu)) + K_e*Curla_e[i])`, with
`K_e = KN[Offset(O)+2e]`, `N_e = KN[Offset(O)+2e+1]` and the reduced potentials
taken at wavenumber `sqrt(Eps*Mu)*w`. -/
theorem C5_accumulation_formula {F : Type} [Field F] (env : Env F) (PG : PBCGeometry F)
    (X : Fin 3 → F) (ObjectIndex : Int) (KN : HVector F) (Omega : F) (P : List F) (Eps Mu : F)
    (hpen : ∀ O ∈ PG.G.Objects, O.MP.Type_ ≠ env.MP_PEC)
    (hlen : ∀ O ∈ PG.G.Objects, (ObjectIndex = O.Index ∨ ObjectIndex = O.ContainingObjectIndex) →
      PG.G.BFIndexOffset O.Index + 2 * O.NumEdges ≤ KN.length) :
    ∃ EHS, GetScatteredFields env PG X ObjectIndex KN Omega P Eps Mu = some EHS
      ∧ (∀ i : Fin 3, EHS ⟨i.val, by omega⟩
          = (PG.G.Objects.map (fun O => ((List.range O.NumEdges).map (fun e =>
              surfaceSign ObjectIndex O * env.ZVAC
                * (KN.getD (PG.G.BFIndexOffset O.Index + 2 * e) 0
                    * (env.II * Omega * Mu
                        * (GetReducedPotentials env O e X (env.csqrt2 (Eps * Mu) * Omega) P
                            PG.LBV).a i
                      - (GetReducedPotentials env O e X (env.csqrt2 (Eps * Mu) * Omega) P
                            PG.LBV).Gradp i / (env.II * Omega * Eps))
                  + KN.getD (PG.G.BFIndexOffset O.Index + 2 * e + 1) 0
                    * (GetReducedPotentials env O e X (env.csqrt2 (Eps * Mu) * Omega) P
                        PG.LBV).Curla i))).sum)).sum)
      ∧ (∀ i : Fin 3, EHS ⟨i.val + 3, by omega⟩
          = (PG.G.Objects.map (fun O => ((List.range O.NumEdges).map (fun e =>
              surfaceSign ObjectIndex O
                * (-KN.getD (PG.G.BFIndexOffset O.Index + 2 * e + 1) 0
                    * (env.II * Omega * Eps
                        * (GetReducedPotentials env O e X (env.csqrt2 (Eps * Mu) * Omega) P
                            PG.LBV).a i
                      - (GetReducedPotentials env O e X (env.csqrt2 (Eps * Mu) * Omega) P
                            PG.LBV).Gradp i / (env.II * Omega * Mu))
                  + KN.getD (PG.G.BFIndexOffset O.Index + 2 * e) 0
                    * (GetReducedPotentials env O e X (env.csqrt2 (Eps * Mu) * Omega) P
                        PG.LBV).Curla i))).sum)).sum) := by
  obtain ⟨s', hs', hE⟩ := GetScatteredFields.objectLoop_penetrable env PG X ObjectIndex KN Omega
    P Eps Mu PG.G.Objects hpen hlen ⟨fun _ => 0, 0, 0⟩
  refine ⟨s'.EHS, ?_, ?_, ?_⟩
  · unfold GetScatteredFields
    rw [hs']
  · intro i
    rw [hE, zero_add]
    refine congrArg List.sum (congrArg (fun f => List.map f PG.G.Objects) (funext fun O => ?_))
    refine congrArg List.sum (congrArg (fun f => List.map f (List.range O.NumEdges))
      (funext fun e => ?_))
    have hi : (⟨i.val, by omega⟩ : Fin 6).val < 3 := i.isLt
    simp only [edgeTerm, dif_pos hi]
    ring
  · intro i
    rw [hE, zero_add]
    refine congrArg List.sum (congrArg (fun f => List.map f PG.G.Objects) (funext fun O => ?_))
    refine congrArg List.sum (congrArg (fun f => List.map f (List.range O.NumEdges))
      (funext fun e => ?_))
    have hi : ¬ (⟨i.val + 3, by omega⟩ : Fin 6).val < 3 := by simp
    simp only [edgeTerm, dif_neg hi, Nat.add_sub_cancel]
    ring

theorem C5_accumulation_formula_witness :
    (∀ O ∈ examplePenetrable.G.Objects, O.MP.Type_ ≠ exampleEnv.MP_PEC) ∧
    (∀ O ∈ examplePenetrable.G.Objects,
      ((-1 : Int) = O.Index ∨ (-1 : Int) = O.ContainingObjectIndex) →
      examplePenetrable.G.BFIndexOffset O.Index + 2 * O.NumEdges ≤ ([0, 1] : HVector CRat).length) ∧
    ∃ EHS, GetScatteredFields exampleEnv examplePenetrable ![0, 0, 1] (-1) [0, 1] 1 [] 1 1
        = some EHS
      ∧ (∀ i : Fin 3, EHS ⟨i.val, by omega⟩
          = (examplePenetrable.G.Objects.map (fun O => ((List.range O.NumEdges).map (fun e =>
              surfaceSign (-1) O * exampleEnv.ZVAC
                * (([0, 1] : HVector CRat).getD (examplePenetrable.G.BFIndexOffset O.Index + 2 * e) 0
                    * (exampleEnv.II * 1 * 1
                        * (GetReducedPotentials exampleEnv O e ![0, 0, 1]
                            (exampleEnv.csqrt2 (1 * 1) * 1) [] examplePenetrable.LBV).a i
                      - (GetReducedPotentials exampleEnv O e ![0, 0, 1]
                            (exampleEnv.csqrt2 (1 * 1) * 1) [] examplePenetrable.LBV).Gradp i
                          / (exampleEnv.II * 1 * 1))
                  + ([0, 1] : HVector CRat).getD
                      (examplePenetrable.G.BFIndexOffset O.Index + 2 * e + 1) 0
                    * (GetReducedPotentials exampleEnv O e ![0, 0, 1]
                        (exampleEnv.csqrt2 (1 * 1) * 1) [] examplePenetrable.LBV).Curla i))).sum)).sum)
      ∧ (∀ i : Fin 3, EHS ⟨i.val + 3, by omega⟩
          = (examplePenetrable.G.Objects.map (fun O => ((List.range O.NumEdges).map (fun e =>
              surfaceSign (-1) O
                * (-([0, 1] : HVector CRat).getD
                      (examplePenetrable.G.BFIndexOffset O.Index + 2 * e + 1) 0
                    * (exampleEnv.II * 1 * 1
                        * (GetReducedPotentials exampleEnv O e ![0, 0, 1]
                            (exampleEnv.csqrt2 (1 * 1) * 1) [] examplePenetrable.LBV).a i
                      - (GetReducedPotentials exampleEnv O e ![0, 0, 1]
                            (exampleEnv.csqrt2 (1 * 1) * 1) [] examplePenetrable.LBV).Gradp i
                          / (exampleEnv.II * 1 * 1))
                  + ([0, 1] : HVector CRat).getD (examplePenetrable.G.BFIndexOffset O.Index + 2 * e) 0
                    * (GetReducedPotentials exampleEnv O e ![0, 0, 1]
                        (exampleEnv.csqrt2 (1 * 1) * 1) [] examplePenetrable.LBV).Curla i))).sum)).sum) :=
  have hpen : ∀ O ∈ examplePenetrable.G.Objects, O.MP.Type_ ≠ exampleEnv.MP_PEC := by
    intro O hO
    simp only [examplePenetrable, List.mem_singleton] at hO
    subst hO
    decide
  have hlen : ∀ O ∈ examplePenetrable.G.Objects,
      ((-1 : Int) = O.Index ∨ (-1 : Int) = O.ContainingObjectIndex) →
      examplePenetrable.G.BFIndexOffset O.Index + 2 * O.NumEdges
        ≤ ([0, 1] : HVector CRat).length := by
    intro O hO _
    simp only [examplePenetrable, List.mem_singleton] at hO
    subst hO
    decide
  ⟨hpen, hlen,
    C5_accumulation_formula exampleEnv examplePenetrable ![0, 0, 1] (-1) [0, 1] 1 [] 1 1 hpen hlen⟩

/-! ## A PEC surface after a penetrable one -/

/-- C6 (code at the failing input): on the penetrable surface `0` followed by the
PEC surface `1`, with coefficients `(K, N) = (0, 1)` for surface `0` and `K = 0`
for surface `1`, the result is `E = (-754, 0, 0)`, `H = (0, 2i, 0)`: twice the
result `E = (-377, 0, 0)`, `H = (0, i, 0)` of surface `0` alone, although the
coefficient of the PEC surface is zero. -/
theorem C6_pec_after_penetrable :
    (GetScatteredFields exampleEnv exampleGeometry ![0, 0, 1] (-1) [0, 1, 0] 1 [] 1 1).map
        List.ofFn = some [⟨-754, 0⟩, 0, 0, 0, ⟨0, 2⟩, 0]
    ∧ (GetScatteredFields exampleEnv examplePenetrable ![0, 0, 1] (-1) [0, 1] 1 [] 1 1).map
        List.ofFn = some [⟨-377, 0⟩, 0, 0, 0, ⟨0, 1⟩, 0] := by
  constructor <;> decide!

/-! ## The entry point: validation and the output matrix -/

theorem PBCGeometry.GetFields_valid {F : Type} [Field F] (env : Env F) (bk : Backend)
    (sched : Nat → List Nat) (PG : PBCGeometry F) (IF : List (IncField F))
    (KN : Option (HVector F)) (Omega : F) (P : List F) (XM : HMatrix F)
    (FMatrix : Option (HMatrix F)) (FuncString : Option String) (nThread : Int)
    (PFFuncs : List (ParsedFieldFunc F))
    (hrec : PBCGeometry.GetFields.newPFFuncs env (PBCGeometry.GetFields.Funcs env FuncString)
      = some PFFuncs)
    (hNC : XM.NC = 3) (hNR : XM.NR ≠ 0) :
    PBCGeometry.GetFields env bk sched PG IF KN Omega P (some XM) FMatrix FuncString nThread
      = some (PBCGeometry.GetFields.outcome FMatrix
          (PBCGeometry.GetFields.selectFMatrix FMatrix XM.NR PFFuncs.length)
          (PBCGeometry.GetFields.runWorkers env
            (PBCGeometry.GetFields.ReferenceTD bk (PBCGeometry.GetFields.nThread env nThread) PG
              XM KN (RWGGeometry.UpdateIncFields env IF Omega) Omega P PFFuncs)
            (sched (PBCGeometry.GetFields.nTask bk (PBCGeometry.GetFields.nThread env nThread)))
            (PBCGeometry.GetFields.selectFMatrix FMatrix XM.NR PFFuncs.length).2.1)) := by
  unfold PBCGeometry.GetFields
  simp only [hrec]
  have hshape : ¬ (XM.NC ≠ 3 ∨ XM.NR = 0) := by
    rintro (h | h)
    · exact h hNC
    · exact hNR h
  simp only [if_neg hshape]
  rfl

/-- C7: when every token of the function string is recognised, a call with an
absent (null) point matrix has no defined outcome: the shape test holds for it
and the arguments of the `ErrExit` call dereference the null pointer, so the
fatal error of the claim is not reached.  A call with a point matrix that is
present ends in the fatal `ErrExit` on the shape if and only if the matrix has a
column count other than 3 or has 0 rows, and then no output matrix has been
allocated and the caller-supplied one is unchanged. -/
theorem C7_shape_validation {F : Type} [Field F] (env : Env F) (bk : Backend)
    (sched : Nat → List Nat) (PG : PBCGeometry F) (IF : List (IncField F))
    (KN : Option (HVector F)) (Omega : F) (P : List F)
    (FMatrix : Option (HMatrix F)) (FuncString : Option String) (nThread : Int)
    (PFFuncs : List (ParsedFieldFunc F))
    (hrec : PBCGeometry.GetFields.newPFFuncs env (PBCGeometry.GetFields.Funcs env FuncString)
      = some PFFuncs) :
    PBCGeometry.GetFields env bk sched PG IF KN Omega P none FMatrix FuncString nThread = none
    ∧ ∀ XM : HMatrix F,
        ∃ o, PBCGeometry.GetFields env bk sched PG IF KN Omega P (some XM) FMatrix FuncString
            nThread = some o
          ∧ (o.result = .error .wrongSizeXMatrix ↔ (XM.NC ≠ 3 ∨ XM.NR = 0))
          ∧ o.result ≠ .error .unknownFunction
          ∧ (o.result = .error .wrongSizeXMatrix →
              o.allocated = none ∧ o.supplied = FMatrix ∧ o.warned = false) := by
  unfold PBCGeometry.GetFields
  simp only [hrec]
  refine ⟨trivial, ?_⟩
  intro XM
  by_cases hshape : XM.NC ≠ 3 ∨ XM.NR = 0
  · simp [hshape]
  · simp only [if_neg hshape, PBCGeometry.GetFields.outcome]
    refine ⟨_, rfl, ?_⟩
    split <;> simp_all

theorem exampleFuncs_default :
    PBCGeometry.GetFields.Funcs exampleEnv none = ["Ex", "Ey", "Ez", "Hx", "Hy", "Hz"] := by
  decide!

theorem exampleFuncs_parsed :
    PBCGeometry.GetFields.newPFFuncs exampleEnv (PBCGeometry.GetFields.Funcs exampleEnv none)
      = some examplePFFuncs := by
  rw [exampleFuncs_default]
  rfl

/-- The failing input of C7: the default function string and a null point
matrix, with a caller-supplied output matrix. -/
theorem C7_shape_validation_witness :
    PBCGeometry.GetFields.newPFFuncs exampleEnv (PBCGeometry.GetFields.Funcs exampleEnv none)
      = some examplePFFuncs
    ∧ (PBCGeometry.GetFields exampleEnv .serial List.range exampleGeometry []
          (some [0, 1, 0]) 1 [] none (some (exampleFMatrix 3 6)) none 1 = none
      ∧ ∀ XM : HMatrix CRat,
          ∃ o, PBCGeometry.GetFields exampleEnv .serial List.range exampleGeometry []
              (some [0, 1, 0]) 1 [] (some XM) (some (exampleFMatrix 3 6)) none 1 = some o
            ∧ (o.result = .error .wrongSizeXMatrix ↔ (XM.NC ≠ 3 ∨ XM.NR = 0))
            ∧ o.result ≠ .error .unknownFunction
            ∧ (o.result = .error .wrongSizeXMatrix →
                o.allocated = none ∧ o.supplied = some (exampleFMatrix 3 6)
                  ∧ o.warned = false)) :=
  ⟨exampleFuncs_parsed,
    C7_shape_validation exampleEnv .serial List.range exampleGeometry [] (some [0, 1, 0]) 1 []
      (some (exampleFMatrix 3 6)) none 1 examplePFFuncs exampleFuncs_parsed⟩

theorem PBCGeometry.GetFields.newPFFuncs_length {F : Type} (env : Env F) (Funcs : List String) :
    ∀ PFFuncs, PBCGeometry.GetFields.newPFFuncs env Funcs = some PFFuncs →
      PFFuncs.length = Funcs.length := by
  induction Funcs with
  | nil =>
    intro PFFuncs h
    simp only [PBCGeometry.GetFields.newPFFuncs, Option.some.injEq] at h
    subst h
    rfl
  | cons a l ih =>
    intro PFFuncs h
    rw [PBCGeometry.GetFields.newPFFuncs] at h
    cases hf : env.newParsedFieldFunc a with
    | none => simp [hf] at h
    | some b =>
      cases hl : PBCGeometry.GetFields.newPFFuncs env l with
      | none => simp [hf, hl] at h
      | some bs =>
        simp only [hf, hl, Option.some.injEq] at h
        subst h
        simp [ih bs hl]

theorem GetFields_Thread.rowBody_dims {F : Type} [Field F] (env : Env F) (TD : ThreadData F)
    (FM M : HMatrix F) (nr : Nat) (h : GetFields_Thread.rowBody env TD FM nr = some M) :
    M.NR = FM.NR ∧ M.NC = FM.NC := by
  rw [GetFields_Thread.rowBody_eq] at h
  cases hf : GetFields_Thread.fieldAt env TD.PG TD.KN TD.IF TD.Omega TD.P
      (GetFields_Thread.point TD.XMatrix nr) with
  | none => simp [hf] at h
  | some v =>
    simp only [hf, Option.map_some', Option.some.injEq] at h
    subst h
    exact GetFields_Thread.writeRow_NR _ _ _ _ _ _ _ _

theorem foldlM_option_invariant {α β : Type} (f : β → α → Option β) (Inv : β → Prop)
    (hstep : ∀ b a b', f b a = some b' → Inv b → Inv b') (l : List α) :
    ∀ b b', l.foldlM f b = some b' → Inv b → Inv b' := by
  induction l with
  | nil => intro b b' h hb; simp at h; subst h; exact hb
  | cons a l ih =>
    intro b b' h hb
    rw [List.foldlM_cons] at h
    cases hf : f b a with
    | none => simp [hf] at h
    | some b1 =>
      simp only [hf, Option.some_bind, Option.bind_eq_bind] at h
      exact ih b1 b' h (hstep b a b1 hf hb)

theorem PBCGeometry.GetFields.runWorkers_dims {F : Type} [Field F] (env : Env F)
    (TD : ThreadData F) (order : List Nat) (FM M : HMatrix F)
    (h : PBCGeometry.GetFields.runWorkers env TD order FM = some M) :
    M.NR = FM.NR ∧ M.NC = FM.NC := by
  have h1 : PBCGeometry.GetFields.runWorkers env TD order FM
      = (order.flatMap (fun t => GetFields_Thread.processedRows TD.nTask t TD.XMatrix.NR)).foldlM
          (GetFields_Thread.rowBody env TD) FM :=
    foldlM_option_flatMap (GetFields_Thread.rowBody env TD)
      (fun t => GetFields_Thread.processedRows TD.nTask t TD.XMatrix.NR) order FM
  rw [h1] at h
  exact foldlM_option_invariant (GetFields_Thread.rowBody env TD)
    (fun B => B.NR = FM.NR ∧ B.NC = FM.NC)
    (fun b a b' hb hinv => by
      have := GetFields_Thread.rowBody_dims env TD b b' a hb
      exact ⟨this.1.trans hinv.1, this.2.trans hinv.2⟩)
    _ FM M h ⟨rfl, rfl⟩

/-- C10: on a call that returns, the returned matrix has as many rows as the
point matrix and as many columns as there are functions; it is the
caller-supplied matrix if and only if the caller supplied a matrix of exactly
these dimensions; and a caller-supplied matrix of other dimensions is replaced
by a newly allocated one, its own contents being as they were. -/
theorem C10_output_matrix {F : Type} [Field F] (env : Env F) (bk : Backend)
    (sched : Nat → List Nat) (PG : PBCGeometry F) (IF : List (IncField F))
    (KN : Option (HVector F)) (Omega : F) (P : List F) (XM : HMatrix F)
    (FMatrix : Option (HMatrix F)) (FuncString : Option String) (nThread : Int)
    (ref : FMatrixRef)
    (hok : (PBCGeometry.GetFields env bk sched PG IF KN Omega P (some XM) FMatrix FuncString
      nThread).map (fun o => o.result) = some (.ok ref)) :
    ∃ o, PBCGeometry.GetFields env bk sched PG IF KN Omega P (some XM) FMatrix FuncString
        nThread = some o
      ∧ o.result = .ok ref
      ∧ (∃ M, o.returned = some M
          ∧ M.NR = XM.NR ∧ M.NC = (PBCGeometry.GetFields.Funcs env FuncString).length)
      ∧ (ref = .supplied ↔ ∃ FM, FMatrix = some FM ∧ FM.NR = XM.NR
          ∧ FM.NC = (PBCGeometry.GetFields.Funcs env FuncString).length)
      ∧ (∀ FM, FMatrix = some FM →
          ¬ (FM.NR = XM.NR ∧ FM.NC = (PBCGeometry.GetFields.Funcs env FuncString).length) →
          ref = .allocated
          ∧ o.supplied = some FM
          ∧ ∃ M, o.allocated = some M) := by
  cases hP : PBCGeometry.GetFields.newPFFuncs env (PBCGeometry.GetFields.Funcs env FuncString) with
  | none => simp [PBCGeometry.GetFields, hP] at hok
  | some PFFuncs =>
    have hlen := PBCGeometry.GetFields.newPFFuncs_length env _ PFFuncs hP
    rw [← hlen]
    by_cases hshape : XM.NC ≠ 3 ∨ XM.NR = 0
    · simp [PBCGeometry.GetFields, hP, hshape] at hok
    · have hNC : XM.NC = 3 := by
        by_contra h; exact hshape (Or.inl h)
      have hNR : XM.NR ≠ 0 := fun h => hshape (Or.inr h)
      rw [PBCGeometry.GetFields_valid env bk sched PG IF KN Omega P XM FMatrix FuncString nThread
        PFFuncs hP hNC hNR] at hok ⊢
      simp only [Option.map_some', Option.some.injEq] at hok
      refine ⟨_, rfl, hok, ?_⟩
      generalize PBCGeometry.GetFields.ReferenceTD bk (PBCGeometry.GetFields.nThread env nThread)
        PG XM KN (RWGGeometry.UpdateIncFields env IF Omega) Omega P PFFuncs = TD at hok ⊢
      generalize sched (PBCGeometry.GetFields.nTask bk (PBCGeometry.GetFields.nThread env nThread))
        = order at hok ⊢
      cases hrun : PBCGeometry.GetFields.runWorkers env TD order
          (PBCGeometry.GetFields.selectFMatrix FMatrix XM.NR PFFuncs.length).2.1 with
      | none =>
        rw [hrun] at hok
        cases hsel : (PBCGeometry.GetFields.selectFMatrix FMatrix XM.NR PFFuncs.length).1 <;>
          simp [PBCGeometry.GetFields.outcome, hsel] at hok
      | some M =>
        have hdims := PBCGeometry.GetFields.runWorkers_dims env TD _ _ M hrun
        rw [hrun] at hok
        cases FMatrix with
        | none =>
          simp only [PBCGeometry.GetFields.selectFMatrix, HMatrix.new,
            PBCGeometry.GetFields.outcome] at hok hdims ⊢
          simp only [Except.ok.injEq] at hok
          subst hok
          simp [GetFieldsOutcome.returned, hdims]
        | some FM =>
          by_cases hd : FM.NR ≠ XM.NR ∨ FM.NC ≠ PFFuncs.length
          · simp only [PBCGeometry.GetFields.selectFMatrix, if_pos hd, HMatrix.new,
              PBCGeometry.GetFields.outcome] at hok hdims ⊢
            simp only [Except.ok.injEq] at hok
            subst hok
            have hd' : ¬ (FM.NR = XM.NR ∧ FM.NC = PFFuncs.length) := by
              intro h; rcases hd with h1 | h1
              · exact h1 h.1
              · exact h1 h.2
            simp [GetFieldsOutcome.returned, hdims, hd']
          · simp only [PBCGeometry.GetFields.selectFMatrix, if_neg hd,
              PBCGeometry.GetFields.outcome] at hok hdims ⊢
            simp only [Except.ok.injEq] at hok
            subst hok
            have hd' : FM.NR = XM.NR ∧ FM.NC = PFFuncs.length := by
              constructor
              · by_contra h; exact hd (Or.inl h)
              · by_contra h; exact hd (Or.inr h)
            simp [GetFieldsOutcome.returned, hdims, hd'.1, hd'.2]

theorem C10_output_matrix_witness :
    (PBCGeometry.GetFields exampleEnv .serial List.range exampleGeometry [] (some [0, 1, 0]) 1 []
        (some exampleXMatrix) (some (exampleFMatrix 2 2)) none 1).map (fun o => o.result)
      = some (.ok .allocated)
    ∧ ∃ o, PBCGeometry.GetFields exampleEnv .serial List.range exampleGeometry []
          (some [0, 1, 0]) 1 [] (some exampleXMatrix) (some (exampleFMatrix 2 2)) none 1 = some o
      ∧ o.result = .ok .allocated
      ∧ (∃ M, o.returned = some M
          ∧ M.NR = exampleXMatrix.NR
          ∧ M.NC = (PBCGeometry.GetFields.Funcs exampleEnv none).length)
      ∧ (FMatrixRef.allocated = .supplied ↔ ∃ FM, some (exampleFMatrix 2 2) = some FM
          ∧ FM.NR = exampleXMatrix.NR
          ∧ FM.NC = (PBCGeometry.GetFields.Funcs exampleEnv none).length)
      ∧ (∀ FM, some (exampleFMatrix 2 2) = some FM →
          ¬ (FM.NR = exampleXMatrix.NR
            ∧ FM.NC = (PBCGeometry.GetFields.Funcs exampleEnv none).length) →
          FMatrixRef.allocated = .allocated
          ∧ o.supplied = some FM
          ∧ ∃ M, o.allocated = some M) :=
  ⟨by decide!,
    C10_output_matrix exampleEnv .serial List.range exampleGeometry [] (some [0, 1, 0]) 1 []
      exampleXMatrix (some (exampleFMatrix 2 2)) none 1 .allocated (by decide!)⟩

/-! ## What the workers leave in the output matrix -/

theorem GetFields_Thread.rows_none {F : Type} [Field F] (env : Env F) (TD : ThreadData F)
    (l : List Nat) :
    ∀ FM, l.foldlM (GetFields_Thread.rowBody env TD) FM = none →
      ∃ r ∈ l, GetFields_Thread.fieldAt env TD.PG TD.KN TD.IF TD.Omega TD.P
        (GetFields_Thread.point TD.XMatrix r) = none := by
  induction l with
  | nil => intro FM h; simp at h
  | cons a l ih =>
    intro FM h
    rw [List.foldlM_cons, GetFields_Thread.rowBody_eq] at h
    cases hf : GetFields_Thread.fieldAt env TD.PG TD.KN TD.IF TD.Omega TD.P
        (GetFields_Thread.point TD.XMatrix a) with
    | none => exact ⟨a, List.mem_cons_self a l, hf⟩
    | some v =>
      simp only [hf, Option.map_some', Option.some_bind, Option.bind_eq_bind] at h
      obtain ⟨r, hr, hnone⟩ := ih _ h
      exact ⟨r, List.mem_cons_of_mem a hr, hnone⟩

theorem GetFields_Thread.rows_some {F : Type} [Field F] (env : Env F) (TD : ThreadData F)
    (l : List Nat) :
    ∀ FM M, l.foldlM (GetFields_Thread.rowBody env TD) FM = some M →
      (∀ r ∈ l, ∃ v, GetFields_Thread.fieldAt env TD.PG TD.KN TD.IF TD.Omega TD.P
        (GetFields_Thread.point TD.XMatrix r) = some v)
      ∧ ∀ r c, M.entry r c
          = if r ∈ l then
              (match GetFields_Thread.fieldAt env TD.PG TD.KN TD.IF TD.Omega TD.P
                  (GetFields_Thread.point TD.XMatrix r), TD.PFFuncs[c]? with
                | some v, some f =>
                  f.Eval (GetFields_Thread.point TD.XMatrix r) (fun _ => 0) v.1 v.2.1 v.2.2
                | _, _ => FM.entry r c)
            else FM.entry r c := by
  induction l with
  | nil =>
    intro FM M h
    simp only [List.foldlM_nil, Option.pure_def, Option.some.injEq] at h
    subst h
    simp
  | cons a l ih =>
    intro FM M h
    rw [List.foldlM_cons, GetFields_Thread.rowBody_eq] at h
    cases hf : GetFields_Thread.fieldAt env TD.PG TD.KN TD.IF TD.Omega TD.P
        (GetFields_Thread.point TD.XMatrix a) with
    | none => simp [hf] at h
    | some va =>
      simp only [hf, Option.map_some', Option.some_bind, Option.bind_eq_bind] at h
      obtain ⟨hall, hentry⟩ := ih _ M h
      constructor
      · intro r hr
        rcases List.mem_cons.mp hr with h1 | h1
        · subst h1; exact ⟨va, hf⟩
        · exact hall r h1
      · intro r c
        rw [hentry r c, GetFields_Thread.writeRow_entry]
        simp only [Nat.zero_le, and_true, Nat.sub_zero, List.mem_cons]
        by_cases hra : r = a
        · subst hra
          simp only [true_or, if_true, hf]
          by_cases hrl : r ∈ l
          · simp only [hrl, if_true]
            cases TD.PFFuncs[c]? <;> rfl
          · simp only [hrl, if_false]
            cases TD.PFFuncs[c]? <;> rfl
        · simp only [hra, false_or, if_false]

/-! ## The cells each worker writes -/

theorem GetFields_Thread.mem_writes (nTask t NR NumFuncs r c : Nat) :
    (r, c) ∈ GetFields_Thread.writes nTask t NR NumFuncs
      ↔ r ∈ GetFields_Thread.processedRows nTask t NR ∧ c < NumFuncs := by
  simp only [GetFields_Thread.writes, List.mem_flatMap, List.mem_map, List.mem_range,
    Prod.mk.injEq]
  constructor
  · rintro ⟨nr, hnr, nf, hnf, h1, h2⟩
    subst h1 h2
    exact ⟨hnr, hnf⟩
  · rintro ⟨hr, hc⟩
    exact ⟨r, hr, c, hc, rfl, rfl⟩

/-- What one worker leaves in the output matrix, cell by cell: the cells of its
trace `GetFields_Thread.writes` hold the value of the field function of their
column at the point of their row, every other cell is as it was. -/
theorem GetFields_Thread.entry_of_writes {F : Type} [Field F] (env : Env F)
    (TD : ThreadData F) (FM M : HMatrix F) (h : GetFields_Thread env TD FM = some M)
    (r c : Nat) :
    ((r, c) ∈ GetFields_Thread.writes TD.nTask TD.nt TD.XMatrix.NR TD.NumFuncs →
      ∃ v f, GetFields_Thread.fieldAt env TD.PG TD.KN TD.IF TD.Omega TD.P
            (GetFields_Thread.point TD.XMatrix r) = some v
        ∧ TD.PFFuncs[c]? = some f
        ∧ M.entry r c
          = f.Eval (GetFields_Thread.point TD.XMatrix r) (fun _ => 0) v.1 v.2.1 v.2.2)
    ∧ ((r, c) ∉ GetFields_Thread.writes TD.nTask TD.nt TD.XMatrix.NR TD.NumFuncs →
      M.entry r c = FM.entry r c) := by
  obtain ⟨hall, hentry⟩ := GetFields_Thread.rows_some env TD _ FM M h
  have he := hentry r c
  rw [GetFields_Thread.mem_writes]
  constructor
  · rintro ⟨hr, hc⟩
    obtain ⟨v, hv⟩ := hall r hr
    have hf : TD.PFFuncs[c]? = some (TD.PFFuncs.get ⟨c, hc⟩) := List.getElem?_eq_getElem hc
    refine ⟨v, TD.PFFuncs.get ⟨c, hc⟩, hv, hf, ?_⟩
    rw [he, if_pos hr, hv, hf]
  · intro hn
    by_cases hr : r ∈ GetFields_Thread.processedRows TD.nTask TD.nt TD.XMatrix.NR
    · have hc : ¬ c < TD.PFFuncs.length := fun hc => hn ⟨hr, hc⟩
      rw [he, if_pos hr, List.getElem?_eq_none (Nat.le_of_not_lt hc)]
      cases GetFields_Thread.fieldAt env TD.PG TD.KN TD.IF TD.Omega TD.P
        (GetFields_Thread.point TD.XMatrix r) <;> rfl
    · rw [he, if_neg hr]

/-- C3: for `nTask ≥ 1` and a row `nr < NR`, exactly one worker `t < nTask` does
not skip row `nr`; every cell `(nr, nf)` with `nf < NumFuncs` occurs exactly
once among the cells written by the workers `0..nTask-1` together, and no cell
occurs twice among them; and the cells a worker writes are those of its trace:
the matrix worker `t` leaves holds, in each cell of the trace of `t`, the value of
the field function of its column at the point of its row, and is unchanged in
every other cell. -/
theorem C3_rows_disjoint_covering {F : Type} [Field F] (env : Env F) (TD : ThreadData F)
    (nr : Nat) (hTask : 1 ≤ TD.nTask) (hnr : nr < TD.XMatrix.NR) :
    (∃! t, t < TD.nTask ∧ nr ∈ GetFields_Thread.processedRows TD.nTask t TD.XMatrix.NR)
    ∧ (∀ nf, nf < TD.NumFuncs →
        ((List.range TD.nTask).flatMap
          (fun t => GetFields_Thread.writes TD.nTask t TD.XMatrix.NR TD.NumFuncs)).count
            (nr, nf) = 1)
    ∧ ((List.range TD.nTask).flatMap
        (fun t => GetFields_Thread.writes TD.nTask t TD.XMatrix.NR TD.NumFuncs)).Nodup
    ∧ (∀ (t : Nat) (FM M : HMatrix F),
        GetFields_Thread env { TD with nt := t } FM = some M →
        ∀ r c,
          ((r, c) ∈ GetFields_Thread.writes TD.nTask t TD.XMatrix.NR TD.NumFuncs →
            ∃ v f, GetFields_Thread.fieldAt env TD.PG TD.KN TD.IF TD.Omega TD.P
                  (GetFields_Thread.point TD.XMatrix r) = some v
              ∧ TD.PFFuncs[c]? = some f
              ∧ M.entry r c
                = f.Eval (GetFields_Thread.point TD.XMatrix r) (fun _ => 0) v.1 v.2.1 v.2.2)
          ∧ ((r, c) ∉ GetFields_Thread.writes TD.nTask t TD.XMatrix.NR TD.NumFuncs →
            M.entry r c = FM.entry r c)) := by
  refine ⟨?_, ?_, GetFields_Thread.writes_nodup TD.nTask TD.XMatrix.NR TD.NumFuncs hTask, ?_⟩
  · refine ⟨(nr + 1) % TD.nTask, ⟨Nat.mod_lt _ (by omega), ?_⟩, ?_⟩
    · rw [GetFields_Thread.mem_processedRows TD.nTask _ TD.XMatrix.NR nr hTask]
      exact ⟨hnr, rfl⟩
    · rintro t ⟨_, ht⟩
      rw [GetFields_Thread.mem_processedRows TD.nTask _ TD.XMatrix.NR nr hTask] at ht
      exact ht.2.symm
  · intro nf hnf
    apply count_eq_one_of_nodup_mem
      (GetFields_Thread.writes_nodup TD.nTask TD.XMatrix.NR TD.NumFuncs hTask)
    simp only [List.mem_flatMap, List.mem_range]
    refine ⟨(nr + 1) % TD.nTask, Nat.mod_lt _ (by omega), ?_⟩
    rw [GetFields_Thread.mem_writes,
      GetFields_Thread.mem_processedRows TD.nTask _ TD.XMatrix.NR nr hTask]
    exact ⟨⟨hnr, rfl⟩, hnf⟩
  · intro t FM M h r c
    exact GetFields_Thread.entry_of_writes env { TD with nt := t } FM M h r c

theorem C3_rows_disjoint_covering_witness :
    1 ≤ (exampleTD 2).nTask ∧ 1 < (exampleTD 2).XMatrix.NR ∧
    ((∃! t, t < (exampleTD 2).nTask
        ∧ 1 ∈ GetFields_Thread.processedRows (exampleTD 2).nTask t (exampleTD 2).XMatrix.NR)
      ∧ (∀ nf, nf < (exampleTD 2).NumFuncs →
          ((List.range (exampleTD 2).nTask).flatMap
            (fun t => GetFields_Thread.writes (exampleTD 2).nTask t (exampleTD 2).XMatrix.NR
              (exampleTD 2).NumFuncs)).count (1, nf) = 1)
      ∧ ((List.range (exampleTD 2).nTask).flatMap
          (fun t => GetFields_Thread.writes (exampleTD 2).nTask t (exampleTD 2).XMatrix.NR
            (exampleTD 2).NumFuncs)).Nodup
      ∧ (∀ (t : Nat) (FM M : HMatrix CRat),
          GetFields_Thread exampleEnv { exampleTD 2 with nt := t } FM = some M →
          ∀ r c,
            ((r, c) ∈ GetFields_Thread.writes (exampleTD 2).nTask t (exampleTD 2).XMatrix.NR
                (exampleTD 2).NumFuncs →
              ∃ v f, GetFields_Thread.fieldAt exampleEnv (exampleTD 2).PG (exampleTD 2).KN
                    (exampleTD 2).IF (exampleTD 2).Omega (exampleTD 2).P
                    (GetFields_Thread.point (exampleTD 2).XMatrix r) = some v
                ∧ (exampleTD 2).PFFuncs[c]? = some f
                ∧ M.entry r c
                  = f.Eval (GetFields_Thread.point (exampleTD 2).XMatrix r) (fun _ => 0) v.1
                      v.2.1 v.2.2)
            ∧ ((r, c) ∉ GetFields_Thread.writes (exampleTD 2).nTask t
                (exampleTD 2).XMatrix.NR (exampleTD 2).NumFuncs →
              M.entry r c = FM.entry r c))) :=
  ⟨by decide, by decide,
    C3_rows_disjoint_covering exampleEnv (exampleTD 2) 1 (by decide) (by decide)⟩

/-- The traces of the two workers on the three-row example, and the matrix worker
`0` leaves: it writes row `1` and leaves rows `0` and `2` as they were. -/
theorem GetFields_Thread.writes_example :
    GetFields_Thread.writes 2 0 3 6 = [(1, 0), (1, 1), (1, 2), (1, 3), (1, 4), (1, 5)]
    ∧ GetFields_Thread.writes 2 1 3 6
        = [(0, 0), (0, 1), (0, 2), (0, 3), (0, 4), (0, 5),
            (2, 0), (2, 1), (2, 2), (2, 3), (2, 4), (2, 5)]
    ∧ (GetFields_Thread exampleEnv (exampleTD 2) (HMatrix.new 3 6)).map
        (fun M => (List.range 3).map (fun r => (List.range 6).map (M.entry r)))
      = some [[0, 0, 0, 0, 0, 0], [⟨-754, 0⟩, 0, 0, 0, ⟨0, 2⟩, 0], [0, 0, 0, 0, 0, 0]] := by
  refine ⟨by decide, by decide, by decide!⟩

/-! ## Absent coefficients and the default functions -/

theorem wrapInt32_eq (z : Int) (h0 : 0 ≤ z) (h1 : z < 2 ^ 31) : wrapInt32 z = z := by
  unfold wrapInt32
  norm_num at h1 ⊢
  omega

theorem PBCGeometry.GetFields.nTask_pos {F : Type} (env : Env F) (bk : Backend) (nThread : Int)
    (h : 0 < nThread ∨ 0 < env.GetNumThreads)
    (hrange : ((PBCGeometry.GetFields.nThread env nThread : Nat) : Int) * 100 < 2 ^ 31) :
    1 ≤ PBCGeometry.GetFields.nTask bk (PBCGeometry.GetFields.nThread env nThread) := by
  have h1 : 1 ≤ PBCGeometry.GetFields.nThread env nThread := by
    unfold PBCGeometry.GetFields.nThread
    by_cases hn : nThread ≤ 0
    · rw [if_pos hn]
      rcases h with h | h
      · omega
      · exact h
    · rw [if_neg hn]
      omega
  cases bk with
  | pthread => exact h1
  | openmp =>
    simp only [PBCGeometry.GetFields.nTask]
    rw [wrapInt32_eq _ (by omega) hrange]
    omega
  | serial => exact Nat.le_refl 1

theorem PBCGeometry.GetFields.run_eq_rows {F : Type} [Field F] (env : Env F) (bk : Backend)
    (sched : Nat → List Nat) (PG : PBCGeometry F) (IF : List (IncField F))
    (KN : Option (HVector F)) (Omega : F) (P : List F) (XM : HMatrix F)
    (PFFuncs : List (ParsedFieldFunc F)) (nThread : Int) (FM : HMatrix F)
    (hTask : 1 ≤ PBCGeometry.GetFields.nTask bk (PBCGeometry.GetFields.nThread env nThread))
    (hsched : ∀ n, (sched n).Perm (List.range n)) :
    PBCGeometry.GetFields.runWorkers env
        (PBCGeometry.GetFields.ReferenceTD bk (PBCGeometry.GetFields.nThread env nThread) PG
          XM KN IF Omega P PFFuncs)
        (sched (PBCGeometry.GetFields.nTask bk (PBCGeometry.GetFields.nThread env nThread))) FM
      = (List.range XM.NR).foldlM
          (GetFields_Thread.rowBody env
            (PBCGeometry.GetFields.ReferenceTD bk (PBCGeometry.GetFields.nThread env nThread) PG
              XM KN IF Omega P PFFuncs)) FM :=
  PBCGeometry.GetFields.runWorkers_eq_rows env _ _ FM hTask (hsched _)

theorem GetFields_Thread.fieldAt_zero {F : Type} [Field F] (env : Env F) (PG : PBCGeometry F)
    (Omega : F) (P : List F) (X : Fin 3 → F) :
    GetFields_Thread.fieldAt env PG none [] Omega P X
      = some (fun _ => 0, (PG.G.ExteriorMP.GetEpsMu Omega).1, (PG.G.ExteriorMP.GetEpsMu Omega).2) := by
  simp [GetFields_Thread.fieldAt, GetFields_Thread.ObjectIndex, GetFields_Thread.getEpsMu,
    GetFields_Thread.addIncFields]

theorem PBCGeometry.GetFields.outcome_returned {F : Type} [Field F]
    (FMatrix : Option (HMatrix F)) (NR NumFuncs : Nat) (M : HMatrix F) :
    (PBCGeometry.GetFields.outcome FMatrix
      (PBCGeometry.GetFields.selectFMatrix FMatrix NR NumFuncs) (some M)).returned = some M := by
  cases FMatrix with
  | none => rfl
  | some FM =>
    by_cases hd : FM.NR ≠ NR ∨ FM.NC ≠ NumFuncs
    · simp [PBCGeometry.GetFields.selectFMatrix, hd, PBCGeometry.GetFields.outcome,
        GetFieldsOutcome.returned]
    · simp [PBCGeometry.GetFields.selectFMatrix, hd, PBCGeometry.GetFields.outcome,
        GetFieldsOutcome.returned]

/-- C8, as stated, fails: with an absent coefficient vector and an empty list of
incident fields, the field function `Eps` gives the cell `(0, 0)` the value
`1`, not `0`. -/
theorem C8_counterexample :
    ((PBCGeometry.GetFields exampleEnv .serial List.range exampleGeometry [] none 1 []
        (some exampleXMatrix) none (some "Eps") 1).bind GetFieldsOutcome.returned).map
      (fun M => M.entry 0 0) = some 1
    ∧ (1 : CRat) ≠ 0 := by
  constructor <;> decide!

/-- C8 (amended): with an absent coefficient vector and an empty list of
incident fields, for every valid point batch and every thread count for which
the back-end starts at least one worker (`nTask >= 1`), the call returns, and
every cell `(r, c)` of the returned matrix is the value of field function `c` at
point `r` on the zero field (zero `dA`, the exterior `Eps` and `Mu`); it is
exactly `0` for every function that vanishes on the zero field. -/
theorem C8_zero_input {F : Type} [Field F] (env : Env F) (bk : Backend)
    (sched : Nat → List Nat) (PG : PBCGeometry F) (Omega : F) (P : List F) (XM : HMatrix F)
    (FMatrix : Option (HMatrix F)) (FuncString : Option String) (nThread : Int)
    (PFFuncs : List (ParsedFieldFunc F))
    (hrec : PBCGeometry.GetFields.newPFFuncs env (PBCGeometry.GetFields.Funcs env FuncString)
      = some PFFuncs)
    (hNC : XM.NC = 3) (hNR : XM.NR ≠ 0)
    (hTask : 1 ≤ PBCGeometry.GetFields.nTask bk (PBCGeometry.GetFields.nThread env nThread))
    (hsched : ∀ n, (sched n).Perm (List.range n)) :
    ∃ o M, PBCGeometry.GetFields env bk sched PG [] none Omega P (some XM) FMatrix FuncString
          nThread = some o
      ∧ o.returned = some M
      ∧ ∀ r, r < XM.NR → ∀ c (hc : c < PFFuncs.length),
          M.entry r c = (PFFuncs.get ⟨c, hc⟩).Eval (GetFields_Thread.point XM r) (fun _ => 0)
              (fun _ => 0) (PG.G.ExteriorMP.GetEpsMu Omega).1 (PG.G.ExteriorMP.GetEpsMu Omega).2
          ∧ ((∀ X dA Eps Mu, (PFFuncs.get ⟨c, hc⟩).Eval X dA (fun _ => 0) Eps Mu = 0) →
              M.entry r c = 0) := by
  rw [PBCGeometry.GetFields_valid env bk sched PG [] none Omega P XM FMatrix FuncString nThread
    PFFuncs hrec hNC hNR,
    PBCGeometry.GetFields.run_eq_rows env bk sched PG _ none Omega P XM PFFuncs nThread _
      hTask hsched]
  have hIF : RWGGeometry.UpdateIncFields env ([] : List (IncField F)) Omega = [] := rfl
  rw [hIF]
  cases hrun : (List.range XM.NR).foldlM
      (GetFields_Thread.rowBody env
        (PBCGeometry.GetFields.ReferenceTD bk (PBCGeometry.GetFields.nThread env nThread) PG
          XM none [] Omega P PFFuncs))
      (PBCGeometry.GetFields.selectFMatrix FMatrix XM.NR PFFuncs.length).2.1 with
  | none =>
    obtain ⟨r, _, hnone⟩ := GetFields_Thread.rows_none env _ _ _ hrun
    simp only [PBCGeometry.GetFields.ReferenceTD, GetFields_Thread.fieldAt_zero] at hnone
    exact absurd hnone (by simp)
  | some M =>
    refine ⟨_, M, rfl, PBCGeometry.GetFields.outcome_returned FMatrix XM.NR PFFuncs.length M, ?_⟩
    intro r hr c hc
    have hentry := (GetFields_Thread.rows_some env _ _ _ M hrun).2 r c
    simp only [PBCGeometry.GetFields.ReferenceTD, GetFields_Thread.fieldAt_zero,
      List.mem_range, hr, if_true, List.getElem?_eq_getElem hc] at hentry
    have hval : M.entry r c = (PFFuncs.get ⟨c, hc⟩).Eval (GetFields_Thread.point XM r)
        (fun _ => 0) (fun _ => 0) (PG.G.ExteriorMP.GetEpsMu Omega).1
        (PG.G.ExteriorMP.GetEpsMu Omega).2 := hentry
    exact ⟨hval, fun hz => by rw [hval]; exact hz _ _ _ _⟩

theorem C8_zero_input_witness :
    PBCGeometry.GetFields.newPFFuncs exampleEnv (PBCGeometry.GetFields.Funcs exampleEnv none)
      = some examplePFFuncs
    ∧ exampleXMatrix.NC = 3 ∧ exampleXMatrix.NR ≠ 0
    ∧ 1 ≤ PBCGeometry.GetFields.nTask .openmp (PBCGeometry.GetFields.nThread exampleEnv 2)
    ∧ (∀ n, (List.range n).Perm (List.range n))
    ∧ ∃ o M, PBCGeometry.GetFields exampleEnv .openmp List.range exampleGeometry [] none 1 []
          (some exampleXMatrix) none none 2 = some o
      ∧ o.returned = some M
      ∧ ∀ r, r < exampleXMatrix.NR → ∀ c (hc : c < examplePFFuncs.length),
          M.entry r c = (examplePFFuncs.get ⟨c, hc⟩).Eval (GetFields_Thread.point exampleXMatrix r)
              (fun _ => 0) (fun _ => 0) (exampleGeometry.G.ExteriorMP.GetEpsMu 1).1
              (exampleGeometry.G.ExteriorMP.GetEpsMu 1).2
          ∧ ((∀ X dA Eps Mu, (examplePFFuncs.get ⟨c, hc⟩).Eval X dA (fun _ => 0) Eps Mu = 0) →
              M.entry r c = 0) :=
  ⟨exampleFuncs_parsed, rfl, by decide, by decide, fun _ => List.Perm.refl _,
    C8_zero_input exampleEnv .openmp List.range exampleGeometry 1 [] exampleXMatrix none none 2
      examplePFFuncs exampleFuncs_parsed rfl (by decide) (by decide)
      (fun _ => List.Perm.refl _)⟩

theorem GetFields_Thread.point_single {F : Type} [Field F] (X : Fin 3 → F) :
    GetFields_Thread.point (⟨1, 3, fun _ nc => if h : nc < 3 then X ⟨nc, h⟩ else 0⟩ : HMatrix F) 0
      = X := by
  funext i
  fin_cases i <;> simp [GetFields_Thread.point, HMatrix.GetEntryD]

/-- The batch call without a function string against the single-point call, when
both start at least one worker: for a batch of `N ≥ 1` points and six recognised
default functions, the batch call returns an `N x 6` matrix whose row `r` is,
entry for entry, what the single-point call for point `r` leaves in its
six-entry buffer; the only other outcome is that both the batch call and a
single-point call stop at an out-of-range coefficient read. -/
theorem PBCGeometry.GetFields.batch_eq_point {F : Type} [Field F] (env : Env F) (bk : Backend)
    (sched : Nat → List Nat) (PG : PBCGeometry F) (IF : List (IncField F))
    (KN : Option (HVector F)) (Omega : F) (P : List F) (XM : HMatrix F)
    (FMatrix : Option (HMatrix F)) (nThread nThread1 : Int) (EH : Fin 6 → F)
    (PFFuncs : List (ParsedFieldFunc F))
    (hrec : PBCGeometry.GetFields.newPFFuncs env (PBCGeometry.GetFields.Funcs env none)
      = some PFFuncs)
    (hsix : PFFuncs.length = 6)
    (hNC : XM.NC = 3) (hNR : 1 ≤ XM.NR)
    (hTask : 1 ≤ PBCGeometry.GetFields.nTask bk (PBCGeometry.GetFields.nThread env nThread))
    (hTask1 : 1 ≤ PBCGeometry.GetFields.nTask bk (PBCGeometry.GetFields.nThread env nThread1))
    (hsched : ∀ n, (sched n).Perm (List.range n)) :
    (∃ o M, PBCGeometry.GetFields env bk sched PG IF KN Omega P (some XM) FMatrix none
          nThread = some o
        ∧ o.returned = some M
        ∧ M.NR = XM.NR ∧ M.NC = 6
        ∧ ∀ r, r < XM.NR → ∃ p B,
            PBCGeometry.GetFieldsPoint env bk sched PG IF KN Omega P
              (GetFields_Thread.point XM r) EH nThread1 = some p
            ∧ p.result = .ok .supplied
            ∧ p.supplied = some B
            ∧ ∀ c, c < 6 → M.entry r c = B.entry 0 c)
    ∨ (∃ o, PBCGeometry.GetFields env bk sched PG IF KN Omega P (some XM) FMatrix none
          nThread = some o
        ∧ o.result = .error .outOfRangeRead
        ∧ ∃ r, r < XM.NR ∧ ∃ p,
            PBCGeometry.GetFieldsPoint env bk sched PG IF KN Omega P
              (GetFields_Thread.point XM r) EH nThread1 = some p
            ∧ p.result = .error .outOfRangeRead) := by
  have hNR0 : XM.NR ≠ 0 := by omega
  -- the single-point call, for any point
  have hpoint : ∀ X : Fin 3 → F,
      PBCGeometry.GetFieldsPoint env bk sched PG IF KN Omega P X EH nThread1
        = some (PBCGeometry.GetFields.outcome
            (some (⟨1, 6, fun _ nc => if h : nc < 6 then EH ⟨nc, h⟩ else 0⟩ : HMatrix F))
            (.supplied, ⟨1, 6, fun _ nc => if h : nc < 6 then EH ⟨nc, h⟩ else 0⟩, false)
            ((List.range 1).foldlM
              (GetFields_Thread.rowBody env
                (PBCGeometry.GetFields.ReferenceTD bk (PBCGeometry.GetFields.nThread env nThread1)
                  PG ⟨1, 3, fun _ nc => if h : nc < 3 then X ⟨nc, h⟩ else 0⟩ KN
                  (RWGGeometry.UpdateIncFields env IF Omega) Omega P PFFuncs))
              ⟨1, 6, fun _ nc => if h : nc < 6 then EH ⟨nc, h⟩ else 0⟩)) := by
    intro X
    unfold PBCGeometry.GetFieldsPoint
    rw [PBCGeometry.GetFields_valid env bk sched PG IF KN Omega P _ _ none nThread1
      PFFuncs hrec rfl (by simp),
      PBCGeometry.GetFields.run_eq_rows env bk sched PG _ KN Omega P _ PFFuncs nThread1 _
        hTask1 hsched]
    simp [PBCGeometry.GetFields.selectFMatrix, hsix]
  rw [PBCGeometry.GetFields_valid env bk sched PG IF KN Omega P XM FMatrix none nThread
    PFFuncs hrec hNC hNR0,
    PBCGeometry.GetFields.run_eq_rows env bk sched PG _ KN Omega P XM PFFuncs nThread _
      hTask hsched]
  cases hrun : (List.range XM.NR).foldlM
      (GetFields_Thread.rowBody env
        (PBCGeometry.GetFields.ReferenceTD bk (PBCGeometry.GetFields.nThread env nThread) PG
          XM KN (RWGGeometry.UpdateIncFields env IF Omega) Omega P PFFuncs))
      (PBCGeometry.GetFields.selectFMatrix FMatrix XM.NR PFFuncs.length).2.1 with
  | none =>
    right
    obtain ⟨r, hr, hnone⟩ := GetFields_Thread.rows_none env _ _ _ hrun
    simp only [PBCGeometry.GetFields.ReferenceTD] at hnone
    refine ⟨_, rfl, ?_, ?_⟩
    · cases hsel : (PBCGeometry.GetFields.selectFMatrix FMatrix XM.NR PFFuncs.length).1 <;>
        simp [PBCGeometry.GetFields.outcome, hsel]
    · refine ⟨r, List.mem_range.mp hr, ?_⟩
      rw [hpoint]
      have hrow : (List.range 1).foldlM
          (GetFields_Thread.rowBody env
            (PBCGeometry.GetFields.ReferenceTD bk (PBCGeometry.GetFields.nThread env nThread1)
              PG ⟨1, 3, fun _ nc => if h : nc < 3 then GetFields_Thread.point XM r ⟨nc, h⟩ else 0⟩
              KN (RWGGeometry.UpdateIncFields env IF Omega) Omega P PFFuncs))
          (⟨1, 6, fun _ nc => if h : nc < 6 then EH ⟨nc, h⟩ else 0⟩ : HMatrix F) = none := by
        rw [show List.range 1 = [0] from rfl]
        simp only [List.foldlM_cons, List.foldlM_nil,
          GetFields_Thread.rowBody_eq, PBCGeometry.GetFields.ReferenceTD,
          GetFields_Thread.point_single, hnone]
        rfl
      rw [hrow]
      exact ⟨_, rfl, rfl⟩
  | some M =>
    left
    obtain ⟨hall, hentry⟩ := GetFields_Thread.rows_some env _ _ _ M hrun
    have hdims := foldlM_option_invariant
      (GetFields_Thread.rowBody env
        (PBCGeometry.GetFields.ReferenceTD bk (PBCGeometry.GetFields.nThread env nThread) PG
          XM KN (RWGGeometry.UpdateIncFields env IF Omega) Omega P PFFuncs))
      (fun B => B.NR = XM.NR ∧ B.NC = PFFuncs.length)
      (fun b a b' hb hinv => by
        have := GetFields_Thread.rowBody_dims env _ b b' a hb
        exact ⟨this.1.trans hinv.1, this.2.trans hinv.2⟩)
      _ _ M hrun (by
        cases FMatrix with
        | none => exact ⟨rfl, rfl⟩
        | some FM =>
          by_cases hd : FM.NR ≠ XM.NR ∨ FM.NC ≠ PFFuncs.length
          · simp [PBCGeometry.GetFields.selectFMatrix, hd, HMatrix.new]
          · simp only [PBCGeometry.GetFields.selectFMatrix, if_neg hd]
            constructor
            · by_contra h; exact hd (Or.inl h)
            · by_contra h; exact hd (Or.inr h))
    refine ⟨_, M, rfl, PBCGeometry.GetFields.outcome_returned FMatrix XM.NR PFFuncs.length M,
      hdims.1, hdims.2.trans hsix, ?_⟩
    intro r hr
    obtain ⟨v, hv⟩ := hall r (List.mem_range.mpr hr)
    simp only [PBCGeometry.GetFields.ReferenceTD] at hv
    have hrow : (List.range 1).foldlM
        (GetFields_Thread.rowBody env
          (PBCGeometry.GetFields.ReferenceTD bk (PBCGeometry.GetFields.nThread env nThread1)
            PG ⟨1, 3, fun _ nc => if h : nc < 3 then GetFields_Thread.point XM r ⟨nc, h⟩ else 0⟩
            KN (RWGGeometry.UpdateIncFields env IF Omega) Omega P PFFuncs))
        (⟨1, 6, fun _ nc => if h : nc < 6 then EH ⟨nc, h⟩ else 0⟩ : HMatrix F)
        = some (GetFields_Thread.writeRow 0 (GetFields_Thread.point XM r) v.1 v.2.1 v.2.2 0
            PFFuncs ⟨1, 6, fun _ nc => if h : nc < 6 then EH ⟨nc, h⟩ else 0⟩) := by
      rw [show List.range 1 = [0] from rfl]
      simp only [List.foldlM_cons, List.foldlM_nil,
        GetFields_Thread.rowBody_eq, PBCGeometry.GetFields.ReferenceTD,
        GetFields_Thread.point_single, hv]
      rfl
    rw [hpoint, hrow]
    refine ⟨_, GetFields_Thread.writeRow 0 (GetFields_Thread.point XM r) v.1 v.2.1 v.2.2 0
        PFFuncs ⟨1, 6, fun _ nc => if h : nc < 6 then EH ⟨nc, h⟩ else 0⟩, rfl, rfl, rfl, ?_⟩
    intro c hc
    have hcl : c < PFFuncs.length := by omega
    have he := hentry r c
    simp only [PBCGeometry.GetFields.ReferenceTD, List.mem_range, hr, if_true, hv,
      List.getElem?_eq_getElem hcl] at he
    rw [he, GetFields_Thread.writeRow_entry]
    simp [List.getElem?_eq_getElem hcl]

/-- C9: in the OpenMP build the thread count `21474837` takes `nThread*100` out of
the range of `int`, the task count is not positive and no worker is started: the
batch call with no function string returns the newly allocated `3 x 6` matrix
with every cell `0`, while the single-point call for each of the three points
(here with thread count `1`) leaves `E = (-377, 0, 0)`, `H = (0, i, 0)` in its
buffer.  With the thread count `2` the rows of the batch result are those
buffers. -/
theorem C9_default_functions :
    PBCGeometry.GetFields.nTask .openmp (PBCGeometry.GetFields.nThread exampleEnv 21474837) = 0
    ∧ ((PBCGeometry.GetFields exampleEnv .openmp List.range examplePenetrable []
          (some [0, 1]) 1 [] (some exampleXMatrix) none none 21474837).bind
          GetFieldsOutcome.returned).map
        (fun M => (M.NR, M.NC, (List.range 3).map (fun r => (List.range 6).map (M.entry r))))
      = some (3, 6, [[0, 0, 0, 0, 0, 0], [0, 0, 0, 0, 0, 0], [0, 0, 0, 0, 0, 0]])
    ∧ (List.range 3).map (fun r =>
        ((PBCGeometry.GetFieldsPoint exampleEnv .openmp List.range examplePenetrable []
            (some [0, 1]) 1 [] (GetFields_Thread.point exampleXMatrix r) (fun _ => 0) 1).bind
          (fun o => o.supplied)).map (fun B => (List.range 6).map (B.entry 0)))
      = [some [⟨-377, 0⟩, 0, 0, 0, ⟨0, 1⟩, 0], some [⟨-377, 0⟩, 0, 0, 0, ⟨0, 1⟩, 0],
          some [⟨-377, 0⟩, 0, 0, 0, ⟨0, 1⟩, 0]]
    ∧ ((PBCGeometry.GetFields exampleEnv .openmp List.range examplePenetrable []
          (some [0, 1]) 1 [] (some exampleXMatrix) none none 2).bind
          GetFieldsOutcome.returned).map
        (fun M => (M.NR, M.NC, (List.range 3).map (fun r => (List.range 6).map (M.entry r))))
      = some (3, 6, [[⟨-377, 0⟩, 0, 0, 0, ⟨0, 1⟩, 0], [⟨-377, 0⟩, 0, 0, 0, ⟨0, 1⟩, 0],
          [⟨-377, 0⟩, 0, 0, 0, ⟨0, 1⟩, 0]]) := by
  refine ⟨?_, ?_, ?_, ?_⟩ <;> decide!

/-! ## Incident fields -/

theorem GetFields_Thread.addIncFields_eq {F : Type} [Field F] (IFList : List (IncField F))
    (ObjectIndex : Int) (X : Fin 3 → F) :
    ∀ EH : Fin 6 → F, GetFields_Thread.addIncFields IFList ObjectIndex X EH
      = fun j => EH j + ((IFList.filter (fun IF => decide (IF.ObjectIndex = ObjectIndex))).map
          (fun IF => IF.GetFields X j)).sum := by
  induction IFList with
  | nil => intro EH; funext j; simp [GetFields_Thread.addIncFields]
  | cons IF rest ih =>
    intro EH
    have hstep : GetFields_Thread.addIncFields (IF :: rest) ObjectIndex X EH
        = GetFields_Thread.addIncFields rest ObjectIndex X
            (if IF.ObjectIndex = ObjectIndex then SixVecPlusEquals EH 1 (IF.GetFields X)
              else EH) := rfl
    rw [hstep, ih]
    funext j
    by_cases h : IF.ObjectIndex = ObjectIndex
    · simp only [h, if_true, SixVecPlusEquals, List.filter_cons, decide_True, List.map_cons,
        List.sum_cons]
      ring
    · simp only [h, if_false, List.filter_cons, decide_False]
      rfl

/-- C11: for a processed row `nr` with point `X`, the field handed to the field
functions is the scattered field at `X` (zero when there is no coefficient
vector) plus the sum of `GetFields(X)` over exactly the sources of the
incident-field list whose `ObjectIndex` equals the region index of `X`; the other
sources, and an empty list, add nothing. -/
theorem C11_incident_field_selection {F : Type} [Field F] (env : Env F) (TD : ThreadData F)
    (FMatrix : HMatrix F) (nr : Nat) :
    GetFields_Thread.rowBody env TD FMatrix nr
      = match (match TD.KN with
          | some KN => GetScatteredFields env TD.PG (GetFields_Thread.point TD.XMatrix nr)
              (GetFields_Thread.ObjectIndex (GetFields_Thread.point TD.XMatrix nr)) KN TD.Omega
              TD.P (TD.PG.G.ExteriorMP.GetEpsMu TD.Omega).1
              (TD.PG.G.ExteriorMP.GetEpsMu TD.Omega).2
          | none => some (fun _ => 0)) with
        | none => none
        | some EHS =>
          some (GetFields_Thread.writeRow nr (GetFields_Thread.point TD.XMatrix nr)
            (fun j => EHS j
              + ((TD.IF.filter (fun IF => decide (IF.ObjectIndex
                    = GetFields_Thread.ObjectIndex (GetFields_Thread.point TD.XMatrix nr)))).map
                  (fun IF => IF.GetFields (GetFields_Thread.point TD.XMatrix nr) j)).sum)
            (TD.PG.G.ExteriorMP.GetEpsMu TD.Omega).1 (TD.PG.G.ExteriorMP.GetEpsMu TD.Omega).2 0
            TD.PFFuncs FMatrix) := by
  rw [GetFields_Thread.rowBody_eq]
  cases hKN : TD.KN with
  | none =>
    simp [GetFields_Thread.fieldAt, GetFields_Thread.getEpsMu, GetFields_Thread.ObjectIndex,
      GetFields_Thread.addIncFields_eq, hKN]
  | some KN =>
    cases hG : GetScatteredFields env TD.PG (GetFields_Thread.point TD.XMatrix nr)
        (GetFields_Thread.ObjectIndex (GetFields_Thread.point TD.XMatrix nr)) KN TD.Omega
        TD.P (TD.PG.G.ExteriorMP.GetEpsMu TD.Omega).1 (TD.PG.G.ExteriorMP.GetEpsMu TD.Omega).2 with
    | none =>
      have hG' := hG
      simp only [GetFields_Thread.ObjectIndex] at hG'
      simp [GetFields_Thread.fieldAt, GetFields_Thread.getEpsMu, GetFields_Thread.ObjectIndex,
        hKN, hG']
    | some EHS =>
      have hG' := hG
      simp only [GetFields_Thread.ObjectIndex] at hG'
      simp [GetFields_Thread.fieldAt, GetFields_Thread.getEpsMu, GetFields_Thread.ObjectIndex,
        GetFields_Thread.addIncFields_eq, hKN, hG']

/-! ## The integrand and the reduced potentials -/

/-- C12: for every edge `ne` of `O`, with `IP` the quadrature (`TriIntFixed`, 18
real values, order 25) of the integrand over the triangle `(QP, V1, V2)` with
source vertex `QP` and prefactor `Length/(2*PArea)`, and `IM` the one over
`(V1, V2, QM)` with source vertex `QM` and prefactor `Length/(2*MArea)`, the
outputs are `a[mu] = IP[mu] - IM[mu]`, `Curla[mu] = IP[mu+3] - IM[mu+3]` and
`Gradp[mu] = IP[mu+6] - IM[mu+6]` for `mu = 0, 1, 2`. -/
theorem C12_reduced_potentials {F : Type} [Field F] (env : Env F) (O : RWGObject F) (ne : Nat)
    (X : Fin 3 → F) (K : F) (P : List F) (LBV : List (List F)) (mu : Fin 3) :
    (GetReducedPotentials env O ne X K P LBV).a mu
      = env.TriIntFixed
          (fun Y => GRPIntegrand env Y
            ⟨O.Vertices (O.Edges ne).iQP,
              (O.Edges ne).Length / (2 * (O.Panels (O.Edges ne).iPPanel).Area), X, K, P, LBV⟩)
          18 (O.Vertices (O.Edges ne).iQP) (O.Vertices (O.Edges ne).iV1)
          (O.Vertices (O.Edges ne).iV2) 25 ⟨mu.val, by omega⟩
        - env.TriIntFixed
          (fun Y => GRPIntegrand env Y
            ⟨O.Vertices (O.Edges ne).iQM,
              (O.Edges ne).Length / (2 * (O.Panels (O.Edges ne).iMPanel).Area), X, K, P, LBV⟩)
          18 (O.Vertices (O.Edges ne).iV1) (O.Vertices (O.Edges ne).iV2)
          (O.Vertices (O.Edges ne).iQM) 25 ⟨mu.val, by omega⟩
    ∧ (GetReducedPotentials env O ne X K P LBV).Curla mu
      = env.TriIntFixed
          (fun Y => GRPIntegrand env Y
            ⟨O.Vertices (O.Edges ne).iQP,
              (O.Edges ne).Length / (2 * (O.Panels (O.Edges ne).iPPanel).Area), X, K, P, LBV⟩)
          18 (O.Vertices (O.Edges ne).iQP) (O.Vertices (O.Edges ne).iV1)
          (O.Vertices (O.Edges ne).iV2) 25 ⟨mu.val + 3, by omega⟩
        - env.TriIntFixed
          (fun Y => GRPIntegrand env Y
            ⟨O.Vertices (O.Edges ne).iQM,
              (O.Edges ne).Length / (2 * (O.Panels (O.Edges ne).iMPanel).Area), X, K, P, LBV⟩)
          18 (O.Vertices (O.Edges ne).iV1) (O.Vertices (O.Edges ne).iV2)
          (O.Vertices (O.Edges ne).iQM) 25 ⟨mu.val + 3, by omega⟩
    ∧ (GetReducedPotentials env O ne X K P LBV).Gradp mu
      = env.TriIntFixed
          (fun Y => GRPIntegrand env Y
            ⟨O.Vertices (O.Edges ne).iQP,
              (O.Edges ne).Length / (2 * (O.Panels (O.Edges ne).iPPanel).Area), X, K, P, LBV⟩)
          18 (O.Vertices (O.Edges ne).iQP) (O.Vertices (O.Edges ne).iV1)
          (O.Vertices (O.Edges ne).iV2) 25 ⟨mu.val + 6, by omega⟩
        - env.TriIntFixed
          (fun Y => GRPIntegrand env Y
            ⟨O.Vertices (O.Edges ne).iQM,
              (O.Edges ne).Length / (2 * (O.Panels (O.Edges ne).iMPanel).Area), X, K, P, LBV⟩)
          18 (O.Vertices (O.Edges ne).iV1) (O.Vertices (O.Edges ne).iV2)
          (O.Vertices (O.Edges ne).iQM) 25 ⟨mu.val + 6, by omega⟩ :=
  ⟨rfl, rfl, rfl⟩

/-- C13: with `fRWG = p*(X - Q)` and `(Phi, GradPhi)` the kernel result at the
displacement `X - X0`, outputs `0..2` of `GRPIntegrand` are `fRWG[i]*Phi`,
outputs `3..5` are the cross product of `fRWG` and `GradPhi`, outputs `6..8` are
`-2*p*GradPhi[i]`; the kernel is called once, at `X - X0`, and the outputs depend
on the kernel through that one result only. -/
theorem C13_integrand {F : Type} [Field F] (env : Env F) (X : Fin 3 → F)
    (GRPID : GRPIntegrandData F) :
    (∀ i : Fin 3, GRPIntegrand env X GRPID ⟨i.val, by omega⟩
        = GRPID.PreFac * (X i - GRPID.Q i)
          * env.GBarVDEwald (VecSub X GRPID.X0) GRPID.K GRPID.P GRPID.LBV (-1) 0 0)
    ∧ GRPIntegrand env X GRPID 3
        = GRPID.PreFac * (X 1 - GRPID.Q 1)
            * env.GBarVDEwald (VecSub X GRPID.X0) GRPID.K GRPID.P GRPID.LBV (-1) 0 3
          - GRPID.PreFac * (X 2 - GRPID.Q 2)
            * env.GBarVDEwald (VecSub X GRPID.X0) GRPID.K GRPID.P GRPID.LBV (-1) 0 2
    ∧ GRPIntegrand env X GRPID 4
        = GRPID.PreFac * (X 2 - GRPID.Q 2)
            * env.GBarVDEwald (VecSub X GRPID.X0) GRPID.K GRPID.P GRPID.LBV (-1) 0 1
          - GRPID.PreFac * (X 0 - GRPID.Q 0)
            * env.GBarVDEwald (VecSub X GRPID.X0) GRPID.K GRPID.P GRPID.LBV (-1) 0 3
    ∧ GRPIntegrand env X GRPID 5
        = GRPID.PreFac * (X 0 - GRPID.Q 0)
            * env.GBarVDEwald (VecSub X GRPID.X0) GRPID.K GRPID.P GRPID.LBV (-1) 0 2
          - GRPID.PreFac * (X 1 - GRPID.Q 1)
            * env.GBarVDEwald (VecSub X GRPID.X0) GRPID.K GRPID.P GRPID.LBV (-1) 0 1
    ∧ (∀ i : Fin 3, GRPIntegrand env X GRPID ⟨i.val + 6, by omega⟩
        = -2 * GRPID.PreFac
          * env.GBarVDEwald (VecSub X GRPID.X0) GRPID.K GRPID.P GRPID.LBV (-1) 0
              ⟨i.val + 1, by omega⟩)
    ∧ (GRPIntegrand.kernelCalls X GRPID).length = 1
    ∧ (∀ c ∈ GRPIntegrand.kernelCalls X GRPID, c.R = VecSub X GRPID.X0 ∧ VecSub X GRPID.X0
        = fun i => X i - GRPID.X0 i)
    ∧ (∀ env1 : Env F,
        env1.GBarVDEwald (VecSub X GRPID.X0) GRPID.K GRPID.P GRPID.LBV (-1) 0
          = env.GBarVDEwald (VecSub X GRPID.X0) GRPID.K GRPID.P GRPID.LBV (-1) 0 →
        GRPIntegrand env1 X GRPID = GRPIntegrand env X GRPID) := by
  refine ⟨?_, ?_, ?_, ?_, ?_, rfl, ?_, ?_⟩
  · intro i
    have e : GRPIntegrand env X GRPID ⟨i.val, by omega⟩
        = (X i - GRPID.Q i) * GRPID.PreFac
          * env.GBarVDEwald (VecSub X GRPID.X0) GRPID.K GRPID.P GRPID.LBV (-1) 0 0 := by
      fin_cases i <;> rfl
    rw [e]; ring
  · have e : GRPIntegrand env X GRPID 3
        = (X 1 - GRPID.Q 1) * GRPID.PreFac
            * env.GBarVDEwald (VecSub X GRPID.X0) GRPID.K GRPID.P GRPID.LBV (-1) 0 3
          - (X 2 - GRPID.Q 2) * GRPID.PreFac
            * env.GBarVDEwald (VecSub X GRPID.X0) GRPID.K GRPID.P GRPID.LBV (-1) 0 2 := rfl
    rw [e]; ring
  · have e : GRPIntegrand env X GRPID 4
        = (X 2 - GRPID.Q 2) * GRPID.PreFac
            * env.GBarVDEwald (VecSub X GRPID.X0) GRPID.K GRPID.P GRPID.LBV (-1) 0 1
          - (X 0 - GRPID.Q 0) * GRPID.PreFac
            * env.GBarVDEwald (VecSub X GRPID.X0) GRPID.K GRPID.P GRPID.LBV (-1) 0 3 := rfl
    rw [e]; ring
  · have e : GRPIntegrand env X GRPID 5
        = (X 0 - GRPID.Q 0) * GRPID.PreFac
            * env.GBarVDEwald (VecSub X GRPID.X0) GRPID.K GRPID.P GRPID.LBV (-1) 0 2
          - (X 1 - GRPID.Q 1) * GRPID.PreFac
            * env.GBarVDEwald (VecSub X GRPID.X0) GRPID.K GRPID.P GRPID.LBV (-1) 0 1 := rfl
    rw [e]; ring
  · intro i
    fin_cases i <;> rfl
  · intro c hc
    simp only [GRPIntegrand.kernelCalls, List.mem_singleton] at hc
    rw [hc]
    exact ⟨rfl, rfl⟩
  · intro env1 h
    unfold GRPIntegrand
    simp only [h]

/-! ## Surfaces that do not contribute, and the sign of those that do -/

theorem foldlM_option_congr {α β : Type} (f g : β → α → Option β) (l : List α)
    (h : ∀ b, ∀ a ∈ l, f b a = g b a) : ∀ b, l.foldlM f b = l.foldlM g b := by
  induction l with
  | nil => intro b; rfl
  | cons a l ih =>
    intro b
    rw [List.foldlM_cons, List.foldlM_cons, h b a (List.mem_cons_self a l)]
    cases g b a with
    | none => rfl
    | some b1 => exact ih (fun b a1 ha1 => h b a1 (List.mem_cons_of_mem a ha1)) b1

theorem GetScatteredFields.readCoefficients_congr {F : Type} [Field F] (env : Env F)
    (O : RWGObject F) (KN KN1 : HVector F) (Sign : F) (Offset ne : Nat) (NAlpha : F)
    (hne : ne < O.NumEdges)
    (hagree : ∀ i, Offset ≤ i → i < Offset + surfaceDoF env O → KN[i]? = KN1[i]?) :
    GetScatteredFields.readCoefficients env O.MP.Type_ KN Sign Offset ne NAlpha
      = GetScatteredFields.readCoefficients env O.MP.Type_ KN1 Sign Offset ne NAlpha := by
  unfold GetScatteredFields.readCoefficients HVector.GetEntry
  unfold surfaceDoF at hagree
  by_cases hT : O.MP.Type_ = env.MP_PEC
  · simp only [if_pos hT] at hagree ⊢
    rw [hagree (Offset + ne) (by omega) (by omega)]
  · simp only [if_neg hT] at hagree ⊢
    rw [hagree (Offset + 2 * ne + 0) (by omega) (by omega),
      hagree (Offset + 2 * ne + 1) (by omega) (by omega)]

theorem GetScatteredFields.objectBody_congr {F : Type} [Field F] (env : Env F)
    (PG : PBCGeometry F) (X : Fin 3 → F) (ObjectIndex : Int) (KN KN1 : HVector F) (Omega : F)
    (P : List F) (Eps Mu : F) (s : GSFState F) (O : RWGObject F)
    (hagree : (ObjectIndex = O.Index ∨ ObjectIndex = O.ContainingObjectIndex) →
      ∀ i, PG.G.BFIndexOffset O.Index ≤ i →
        i < PG.G.BFIndexOffset O.Index + surfaceDoF env O → KN[i]? = KN1[i]?) :
    GetScatteredFields.objectBody env PG X ObjectIndex KN Omega P Eps Mu s O
      = GetScatteredFields.objectBody env PG X ObjectIndex KN1 Omega P Eps Mu s O := by
  have hedge : (ObjectIndex = O.Index ∨ ObjectIndex = O.ContainingObjectIndex) →
      ∀ (Sign : F) (s : GSFState F), ∀ ne ∈ List.range O.NumEdges,
        GetScatteredFields.edgeBody env PG X KN Omega P Eps Mu O Sign
            (PG.G.BFIndexOffset O.Index) s ne
          = GetScatteredFields.edgeBody env PG X KN1 Omega P Eps Mu O Sign
            (PG.G.BFIndexOffset O.Index) s ne := by
    intro hc Sign s ne hne
    unfold GetScatteredFields.edgeBody
    rw [GetScatteredFields.readCoefficients_congr env O KN KN1 Sign _ ne s.NAlpha
      (List.mem_range.mp hne) (hagree hc)]
  unfold GetScatteredFields.objectBody
  by_cases h1 : ObjectIndex = O.Index
  · simp only [if_pos h1]
    exact foldlM_option_congr _ _ _ (hedge (Or.inl h1) (-1)) s
  · by_cases h2 : ObjectIndex = O.ContainingObjectIndex
    · simp only [if_neg h1, if_pos h2]
      exact foldlM_option_congr _ _ _ (hedge (Or.inr h2) 1) s
    · simp only [if_neg h1, if_neg h2]

theorem GetScatteredFields.objectLoop_skip {F : Type} [Field F] (env : Env F)
    (PG : PBCGeometry F) (X : Fin 3 → F) (ObjectIndex : Int) (KN : HVector F) (Omega : F)
    (P : List F) (Eps Mu : F) (Os : List (RWGObject F)) :
    (∀ O ∈ Os, ObjectIndex ≠ O.Index ∧ ObjectIndex ≠ O.ContainingObjectIndex) →
    ∀ s : GSFState F,
      Os.foldlM (GetScatteredFields.objectBody env PG X ObjectIndex KN Omega P Eps Mu) s
        = some s := by
  induction Os with
  | nil => intro _ s; rfl
  | cons O Os ih =>
    intro h s
    have hO := h O (List.mem_cons_self O Os)
    have hstep : GetScatteredFields.objectBody env PG X ObjectIndex KN Omega P Eps Mu s O
        = some s := by
      unfold GetScatteredFields.objectBody
      simp only [if_neg hO.1, if_neg hO.2]
    rw [List.foldlM_cons, hstep]
    exact ih (fun O1 h1 => h O1 (List.mem_cons_of_mem O h1)) s

/-- C14: let `S` be a surface whose own index and whose containing-object index
(`-1` if none) both differ from the region index, its block of coefficients
overlapping the block of no contributing surface.  If two coefficient vectors
differ only at entries of the block of `S`, `GetScatteredFields` returns the
same for both; and if no surface of the geometry matches the region index, the
output is the zero 6-vector. -/
theorem C14_skipped_surfaces {F : Type} [Field F] (env : Env F) (PG : PBCGeometry F)
    (X : Fin 3 → F) (ObjectIndex : Int) (KN KN1 : HVector F) (Omega : F) (P : List F)
    (Eps Mu : F) (S : RWGObject F)
    (_hS : ObjectIndex ≠ S.Index ∧ ObjectIndex ≠ S.ContainingObjectIndex)
    (halter : ∀ i, KN[i]? ≠ KN1[i]? →
      PG.G.BFIndexOffset S.Index ≤ i ∧ i < PG.G.BFIndexOffset S.Index + surfaceDoF env S)
    (hlayout : ∀ O ∈ PG.G.Objects,
      (ObjectIndex = O.Index ∨ ObjectIndex = O.ContainingObjectIndex) →
      PG.G.BFIndexOffset O.Index + surfaceDoF env O ≤ PG.G.BFIndexOffset S.Index
        ∨ PG.G.BFIndexOffset S.Index + surfaceDoF env S ≤ PG.G.BFIndexOffset O.Index) :
    GetScatteredFields env PG X ObjectIndex KN Omega P Eps Mu
      = GetScatteredFields env PG X ObjectIndex KN1 Omega P Eps Mu
    ∧ ((∀ O ∈ PG.G.Objects, ObjectIndex ≠ O.Index ∧ ObjectIndex ≠ O.ContainingObjectIndex) →
        GetScatteredFields env PG X ObjectIndex KN Omega P Eps Mu = some (fun _ => 0)) := by
  constructor
  · unfold GetScatteredFields
    rw [foldlM_option_congr
      (GetScatteredFields.objectBody env PG X ObjectIndex KN Omega P Eps Mu)
      (GetScatteredFields.objectBody env PG X ObjectIndex KN1 Omega P Eps Mu) PG.G.Objects]
    intro s O hO
    apply GetScatteredFields.objectBody_congr
    intro hc i hlo hhi
    by_contra hne
    have hblock := halter i hne
    rcases hlayout O hO hc with h | h <;> omega
  · intro hnone
    unfold GetScatteredFields
    rw [GetScatteredFields.objectLoop_skip env PG X ObjectIndex KN Omega P Eps Mu PG.G.Objects
      hnone]

theorem C14_skipped_surfaces_witness :
    ((0 : Int) ≠ (exampleObject 1 1 5).Index
      ∧ (0 : Int) ≠ (exampleObject 1 1 5).ContainingObjectIndex)
    ∧ (∀ i, ([0, 1, 0] : HVector CRat)[i]? ≠ ([0, 1, 7] : HVector CRat)[i]? →
        exampleGeometry.G.BFIndexOffset (exampleObject 1 1 5).Index ≤ i
          ∧ i < exampleGeometry.G.BFIndexOffset (exampleObject 1 1 5).Index
              + surfaceDoF exampleEnv (exampleObject 1 1 5))
    ∧ (∀ O ∈ exampleGeometry.G.Objects,
        ((0 : Int) = O.Index ∨ (0 : Int) = O.ContainingObjectIndex) →
        exampleGeometry.G.BFIndexOffset O.Index + surfaceDoF exampleEnv O
            ≤ exampleGeometry.G.BFIndexOffset (exampleObject 1 1 5).Index
          ∨ exampleGeometry.G.BFIndexOffset (exampleObject 1 1 5).Index
              + surfaceDoF exampleEnv (exampleObject 1 1 5)
            ≤ exampleGeometry.G.BFIndexOffset O.Index)
    ∧ (GetScatteredFields exampleEnv exampleGeometry ![0, 0, 1] 0 [0, 1, 0] 1 [] 1 1
        = GetScatteredFields exampleEnv exampleGeometry ![0, 0, 1] 0 [0, 1, 7] 1 [] 1 1
      ∧ ((∀ O ∈ exampleGeometry.G.Objects,
            (0 : Int) ≠ O.Index ∧ (0 : Int) ≠ O.ContainingObjectIndex) →
          GetScatteredFields exampleEnv exampleGeometry ![0, 0, 1] 0 [0, 1, 0] 1 [] 1 1
            = some (fun _ => 0))) :=
  have hS : (0 : Int) ≠ (exampleObject 1 1 5).Index
      ∧ (0 : Int) ≠ (exampleObject 1 1 5).ContainingObjectIndex := by decide
  have halter : ∀ i, ([0, 1, 0] : HVector CRat)[i]? ≠ ([0, 1, 7] : HVector CRat)[i]? →
      exampleGeometry.G.BFIndexOffset (exampleObject 1 1 5).Index ≤ i
        ∧ i < exampleGeometry.G.BFIndexOffset (exampleObject 1 1 5).Index
            + surfaceDoF exampleEnv (exampleObject 1 1 5) := by
    intro i h
    match i, h with
    | 0, h => exact absurd rfl h
    | 1, h => exact absurd rfl h
    | 2, _ => decide
    | n + 3, h => exact absurd rfl h
  have hlayout : ∀ O ∈ exampleGeometry.G.Objects,
      ((0 : Int) = O.Index ∨ (0 : Int) = O.ContainingObjectIndex) →
      exampleGeometry.G.BFIndexOffset O.Index + surfaceDoF exampleEnv O
          ≤ exampleGeometry.G.BFIndexOffset (exampleObject 1 1 5).Index
        ∨ exampleGeometry.G.BFIndexOffset (exampleObject 1 1 5).Index
            + surfaceDoF exampleEnv (exampleObject 1 1 5)
          ≤ exampleGeometry.G.BFIndexOffset O.Index := by
    intro O hO hc
    simp only [exampleGeometry, List.mem_cons, List.mem_singleton, List.not_mem_nil,
      or_false] at hO
    rcases hO with h | h
    · subst h; decide
    · subst h; exact absurd hc (by decide)
  ⟨hS, halter, hlayout,
    C14_skipped_surfaces exampleEnv exampleGeometry ![0, 0, 1] 0 [0, 1, 0] [0, 1, 7] 1 [] 1 1
      (exampleObject 1 1 5) hS halter hlayout⟩

theorem edgeTerm_neg {F : Type} [Field F] (env : Env F) (iwe iwu K N : F)
    (RP : ReducedPotentials F) (j : Fin 6) :
    edgeTerm env iwe iwu (-K) (-N) RP j = -edgeTerm env iwe iwu K N RP j := by
  unfold edgeTerm
  split <;> ring

theorem foldlM_option_rel {α β : Type} (R : β → β → Prop) (f g : β → α → Option β)
    (l : List α) (hstep : ∀ s t x, R s t → Option.Rel R (f s x) (g t x)) :
    ∀ s t, R s t → Option.Rel R (l.foldlM f s) (l.foldlM g t) := by
  induction l with
  | nil => intro s t h; exact Option.Rel.some h
  | cons x l ih =>
    intro s t h
    rw [List.foldlM_cons, List.foldlM_cons]
    have h1 := hstep s t x h
    generalize f s x = a at h1
    generalize g t x = b at h1
    cases h1 with
    | none => exact Option.Rel.none
    | some h2 => exact ih _ _ h2

theorem GetScatteredFields.edgeBody_neg {F : Type} [Field F] (env : Env F)
    (PG : PBCGeometry F) (X : Fin 3 → F) (KN : HVector F) (Omega : F) (P : List F) (Eps Mu : F)
    (O : RWGObject F) (Offset : Nat) (s t : GSFState F) (ne : Nat) (h : s = GSFState.neg t) :
    Option.Rel (fun s t => s = GSFState.neg t)
      (GetScatteredFields.edgeBody env PG X KN Omega P Eps Mu O (-1) Offset s ne)
      (GetScatteredFields.edgeBody env PG X KN Omega P Eps Mu O 1 Offset t ne) := by
  subst h
  unfold GetScatteredFields.edgeBody GetScatteredFields.readCoefficients
  by_cases hT : O.MP.Type_ = env.MP_PEC
  · simp only [if_pos hT]
    cases KN.GetEntry (Offset + ne) with
    | none => exact Option.Rel.none
    | some k =>
      apply Option.Rel.some
      simp only [GSFState.neg, GetScatteredFields.accumulate_eq, GSFState.mk.injEq]
      refine ⟨?_, by ring, trivial⟩
      funext j
      rw [show (-1 : F) * k = -(1 * k) by ring, edgeTerm_neg]
      ring
  · simp only [if_neg hT]
    cases KN.GetEntry (Offset + 2 * ne + 0) with
    | none => exact Option.Rel.none
    | some k =>
      cases KN.GetEntry (Offset + 2 * ne + 1) with
      | none => exact Option.Rel.none
      | some n =>
        apply Option.Rel.some
        simp only [GSFState.neg, GetScatteredFields.accumulate_eq, GSFState.mk.injEq]
        refine ⟨?_, by ring, by ring⟩
        funext j
        rw [show (-1 : F) * k = -(1 * k) by ring, show (-1 : F) * n = -(1 * n) by ring,
          edgeTerm_neg]
        ring

/-- C15: for a geometry whose only surface `O` has no containing object (and an
index other than the exterior index `-1`), `GetScatteredFields` with region
index `O->Index` returns, entry for entry, the negation of what it returns with
region index `-1`; it fails on an out-of-range read exactly when that call
does. -/
theorem C15_sign_antisymmetry {F : Type} [Field F] (env : Env F) (PG : PBCGeometry F)
    (X : Fin 3 → F) (KN : HVector F) (Omega : F) (P : List F) (Eps Mu : F) (O : RWGObject F)
    (hsingle : PG.G.Objects = [O]) (hnone : O.ContainingObject = none)
    (hidx : O.Index ≠ -1) :
    GetScatteredFields env PG X O.Index KN Omega P Eps Mu
      = (GetScatteredFields env PG X (-1) KN Omega P Eps Mu).map (fun EHS => fun j => -EHS j) := by
  have hcont : O.ContainingObjectIndex = -1 := by
    simp [RWGObject.ContainingObjectIndex, hnone]
  have hidx1 : ¬ ((-1 : Int) = O.Index) := fun h => hidx h.symm
  have h0 : (⟨fun _ => 0, 0, 0⟩ : GSFState F) = GSFState.neg ⟨fun _ => 0, 0, 0⟩ := by
    simp [GSFState.neg]
  have hrel := foldlM_option_rel (fun s t : GSFState F => s = GSFState.neg t)
    (GetScatteredFields.edgeBody env PG X KN Omega P Eps Mu O (-1) (PG.G.BFIndexOffset O.Index))
    (GetScatteredFields.edgeBody env PG X KN Omega P Eps Mu O 1 (PG.G.BFIndexOffset O.Index))
    (List.range O.NumEdges)
    (fun s t ne h => GetScatteredFields.edgeBody_neg env PG X KN Omega P Eps Mu O _ s t ne h)
    ⟨fun _ => 0, 0, 0⟩ ⟨fun _ => 0, 0, 0⟩ h0
  have heq : (List.range O.NumEdges).foldlM
        (GetScatteredFields.edgeBody env PG X KN Omega P Eps Mu O (-1)
          (PG.G.BFIndexOffset O.Index)) ⟨fun _ => 0, 0, 0⟩
      = ((List.range O.NumEdges).foldlM
        (GetScatteredFields.edgeBody env PG X KN Omega P Eps Mu O 1
          (PG.G.BFIndexOffset O.Index)) ⟨fun _ => 0, 0, 0⟩).map GSFState.neg := by
    generalize (List.range O.NumEdges).foldlM
      (GetScatteredFields.edgeBody env PG X KN Omega P Eps Mu O (-1)
        (PG.G.BFIndexOffset O.Index)) (⟨fun _ => 0, 0, 0⟩ : GSFState F) = a at hrel
    generalize (List.range O.NumEdges).foldlM
      (GetScatteredFields.edgeBody env PG X KN Omega P Eps Mu O 1
        (PG.G.BFIndexOffset O.Index)) (⟨fun _ => 0, 0, 0⟩ : GSFState F) = b at hrel
    cases hrel with
    | none => rfl
    | some h => rw [h]; rfl
  unfold GetScatteredFields
  simp only [hsingle, List.foldlM_cons, List.foldlM_nil, GetScatteredFields.objectBody,
    if_true, if_neg hidx1, hcont, heq]
  cases (List.range O.NumEdges).foldlM
      (GetScatteredFields.edgeBody env PG X KN Omega P Eps Mu O 1
        (PG.G.BFIndexOffset O.Index)) (⟨fun _ => 0, 0, 0⟩ : GSFState F) with
  | none => rfl
  | some b => rfl

theorem C15_sign_antisymmetry_witness :
    examplePenetrable.G.Objects = [exampleObject 0 2 0]
    ∧ (exampleObject 0 2 0).ContainingObject = none
    ∧ (exampleObject 0 2 0).Index ≠ -1
    ∧ GetScatteredFields exampleEnv examplePenetrable ![0, 0, 1] (exampleObject 0 2 0).Index
        [0, 1] 1 [] 1 1
      = (GetScatteredFields exampleEnv examplePenetrable ![0, 0, 1] (-1) [0, 1] 1 [] 1 1).map
          (fun EHS => fun j => -EHS j) :=
  ⟨rfl, rfl, by decide,
    C15_sign_antisymmetry exampleEnv examplePenetrable ![0, 0, 1] [0, 1] 1 [] 1 1
      (exampleObject 0 2 0) rfl rfl (by decide)⟩

theorem GetScatteredFields.objectBody_exterior {F : Type} [Field F] (env : Env F)
    (PG : PBCGeometry F) (X : Fin 3 → F) (KN : HVector F) (Omega : F) (P : List F)
    (Eps Mu : F) (s : GSFState F) (O : RWGObject F)
    (hO : 0 ≤ O.Index) (hc : ∀ c, O.ContainingObject = some c → 0 ≤ c) :
    GetScatteredFields.objectBody env PG X (-1) KN Omega P Eps Mu s O
      = GetScatteredFields.exteriorBody env PG X KN Omega P Eps Mu s O := by
  have h1 : ¬ ((-1 : Int) = O.Index) := by omega
  unfold GetScatteredFields.objectBody GetScatteredFields.exteriorBody
    RWGObject.ContainingObjectIndex
  cases hco : O.ContainingObject with
  | none => simp only [if_neg h1, if_true]
  | some c =>
    have h2 : ¬ ((-1 : Int) = c) := by
      have := hc c hco
      omega
    simp only [if_neg h1, if_neg h2]

theorem GetFields_Thread.fieldAt_exterior {F : Type} [Field F] (env : Env F)
    (PG : PBCGeometry F) (KN : Option (HVector F)) (IFList : List (IncField F)) (Omega : F)
    (P : List F) (X : Fin 3 → F)
    (hidx : ∀ O ∈ PG.G.Objects, 0 ≤ O.Index ∧ ∀ c, O.ContainingObject = some c → 0 ≤ c) :
    GetFields_Thread.fieldAt env PG KN IFList Omega P X
      = (match KN with
          | some KN =>
            (PG.G.Objects.foldlM
              (GetScatteredFields.exteriorBody env PG X KN Omega P
                (PG.G.ExteriorMP.GetEpsMu Omega).1 (PG.G.ExteriorMP.GetEpsMu Omega).2)
              (⟨fun _ => 0, 0, 0⟩ : GSFState F)).map (fun s : GSFState F => s.EHS)
          | none => some (fun _ => 0)).map
        (fun EHS => (GetFields_Thread.addIncFields IFList (-1) X EHS,
          (PG.G.ExteriorMP.GetEpsMu Omega).1, (PG.G.ExteriorMP.GetEpsMu Omega).2)) := by
  have hmed : GetFields_Thread.getEpsMu PG.G (GetFields_Thread.ObjectIndex X) Omega
      = some ((PG.G.ExteriorMP.GetEpsMu Omega).1, (PG.G.ExteriorMP.GetEpsMu Omega).2) := by
    simp [GetFields_Thread.getEpsMu, GetFields_Thread.ObjectIndex]
  unfold GetFields_Thread.fieldAt
  simp only [hmed]
  cases KN with
  | none => rfl
  | some KN =>
    simp only [GetScatteredFields, GetFields_Thread.ObjectIndex]
    rw [foldlM_option_congr _
      (GetScatteredFields.exteriorBody env PG X KN Omega P
        (PG.G.ExteriorMP.GetEpsMu Omega).1 (PG.G.ExteriorMP.GetEpsMu Omega).2) _
      (fun s O hO => GetScatteredFields.objectBody_exterior env PG X KN Omega P _ _ s O
        (hidx O hO).1 (hidx O hO).2)]
    cases PG.G.Objects.foldlM
      (GetScatteredFields.exteriorBody env PG X KN Omega P
        (PG.G.ExteriorMP.GetEpsMu Omega).1 (PG.G.ExteriorMP.GetEpsMu Omega).2)
      (⟨fun _ => 0, 0, 0⟩ : GSFState F) with
    | none => rfl
    | some s => rfl

/-- C16: when the surfaces and their containers have indices `>= 0`, then for
every row `nr` the worker processes, with point `X`: the region index is `-1`;
`Eps` and `Mu` are those of the exterior medium; the scattered field handed on is
the one accumulated by the object loop in which every surface with no containing
object runs its edge loop with sign `+1` and every nested surface is skipped
(the incident fields of region `-1` are added to it); the call of
`GetScatteredFields` the worker makes treats every surface of the geometry this
way, and for no surface the test that selects the sign `-1` holds. -/
theorem C16_region_stub {F : Type} [Field F] (env : Env F) (TD : ThreadData F)
    (FMatrix : HMatrix F) (nr : Nat)
    (hidx : ∀ O ∈ TD.PG.G.Objects, 0 ≤ O.Index ∧ ∀ c, O.ContainingObject = some c → 0 ≤ c) :
    GetFields_Thread.ObjectIndex (GetFields_Thread.point TD.XMatrix nr) = -1
    ∧ GetFields_Thread.rowBody env TD FMatrix nr
        = (match TD.KN with
            | some KN =>
              (TD.PG.G.Objects.foldlM
                (GetScatteredFields.exteriorBody env TD.PG (GetFields_Thread.point TD.XMatrix nr)
                  KN TD.Omega TD.P (TD.PG.G.ExteriorMP.GetEpsMu TD.Omega).1
                  (TD.PG.G.ExteriorMP.GetEpsMu TD.Omega).2)
                (⟨fun _ => 0, 0, 0⟩ : GSFState F)).map (fun s : GSFState F => s.EHS)
            | none => some (fun _ => 0)).map
          (fun EHS => GetFields_Thread.writeRow nr (GetFields_Thread.point TD.XMatrix nr)
            (GetFields_Thread.addIncFields TD.IF (-1) (GetFields_Thread.point TD.XMatrix nr) EHS)
            (TD.PG.G.ExteriorMP.GetEpsMu TD.Omega).1 (TD.PG.G.ExteriorMP.GetEpsMu TD.Omega).2 0
            TD.PFFuncs FMatrix)
    ∧ (∀ O ∈ TD.PG.G.Objects, ∀ (KN : HVector F) (Eps Mu : F) (s : GSFState F),
        GetScatteredFields.objectBody env TD.PG (GetFields_Thread.point TD.XMatrix nr)
            (GetFields_Thread.ObjectIndex (GetFields_Thread.point TD.XMatrix nr)) KN TD.Omega
            TD.P Eps Mu s O
          = GetScatteredFields.exteriorBody env TD.PG (GetFields_Thread.point TD.XMatrix nr)
            KN TD.Omega TD.P Eps Mu s O)
    ∧ (∀ O ∈ TD.PG.G.Objects,
        GetFields_Thread.ObjectIndex (GetFields_Thread.point TD.XMatrix nr) ≠ O.Index) := by
  refine ⟨rfl, ?_, ?_, ?_⟩
  · rw [GetFields_Thread.rowBody_eq,
      GetFields_Thread.fieldAt_exterior env TD.PG TD.KN TD.IF TD.Omega TD.P _ hidx]
    cases (match TD.KN with
      | some KN =>
        (TD.PG.G.Objects.foldlM
          (GetScatteredFields.exteriorBody env TD.PG (GetFields_Thread.point TD.XMatrix nr)
            KN TD.Omega TD.P (TD.PG.G.ExteriorMP.GetEpsMu TD.Omega).1
            (TD.PG.G.ExteriorMP.GetEpsMu TD.Omega).2)
          (⟨fun _ => 0, 0, 0⟩ : GSFState F)).map (fun s : GSFState F => s.EHS)
      | none => some (fun _ => 0)) with
    | none => rfl
    | some EHS => rfl
  · intro O hO KN Eps Mu s
    exact GetScatteredFields.objectBody_exterior env TD.PG _ KN TD.Omega TD.P Eps Mu s O
      (hidx O hO).1 (hidx O hO).2
  · intro O hO h
    have := (hidx O hO).1
    simp only [GetFields_Thread.ObjectIndex] at h
    omega

/-- On `exampleNestedGeometry` with the coefficients `(0, 1, 0, 1)` the worker
writes, for the point of row `0`, the fields of the outer surface alone: the
nested surface, whose coefficients are not zero, adds nothing. -/
theorem GetFields_Thread.rowBody_nested_example :
    (GetFields_Thread.rowBody exampleEnv exampleNestedTD (HMatrix.new 3 6) 0).map
        (fun M => (List.range 6).map (M.entry 0))
      = some [⟨-377, 0⟩, 0, 0, 0, ⟨0, 1⟩, 0]
    ∧ (GetFields_Thread.rowBody exampleEnv
          { exampleNestedTD with KN := some [0, 1, 0, 0] } (HMatrix.new 3 6) 0).map
        (fun M => (List.range 6).map (M.entry 0))
      = some [⟨-377, 0⟩, 0, 0, 0, ⟨0, 1⟩, 0] := by
  constructor <;> decide!

theorem C16_region_stub_witness :
    (∀ O ∈ exampleNestedTD.PG.G.Objects,
      0 ≤ O.Index ∧ ∀ c, O.ContainingObject = some c → 0 ≤ c)
    ∧ (GetFields_Thread.ObjectIndex (GetFields_Thread.point exampleNestedTD.XMatrix 0) = -1
      ∧ GetFields_Thread.rowBody exampleEnv exampleNestedTD (HMatrix.new 3 6) 0
          = (match exampleNestedTD.KN with
              | some KN =>
                (exampleNestedTD.PG.G.Objects.foldlM
                  (GetScatteredFields.exteriorBody exampleEnv exampleNestedTD.PG
                    (GetFields_Thread.point exampleNestedTD.XMatrix 0)
                    KN exampleNestedTD.Omega exampleNestedTD.P
                    (exampleNestedTD.PG.G.ExteriorMP.GetEpsMu exampleNestedTD.Omega).1
                    (exampleNestedTD.PG.G.ExteriorMP.GetEpsMu exampleNestedTD.Omega).2)
                  (⟨fun _ => 0, 0, 0⟩ : GSFState CRat)).map (fun s : GSFState CRat => s.EHS)
              | none => some (fun _ => 0)).map
            (fun EHS => GetFields_Thread.writeRow 0
              (GetFields_Thread.point exampleNestedTD.XMatrix 0)
              (GetFields_Thread.addIncFields exampleNestedTD.IF (-1)
                (GetFields_Thread.point exampleNestedTD.XMatrix 0) EHS)
              (exampleNestedTD.PG.G.ExteriorMP.GetEpsMu exampleNestedTD.Omega).1
              (exampleNestedTD.PG.G.ExteriorMP.GetEpsMu exampleNestedTD.Omega).2 0
              exampleNestedTD.PFFuncs (HMatrix.new 3 6))
      ∧ (∀ O ∈ exampleNestedTD.PG.G.Objects, ∀ (KN : HVector CRat) (Eps Mu : CRat)
          (s : GSFState CRat),
          GetScatteredFields.objectBody exampleEnv exampleNestedTD.PG
              (GetFields_Thread.point exampleNestedTD.XMatrix 0)
              (GetFields_Thread.ObjectIndex (GetFields_Thread.point exampleNestedTD.XMatrix 0)) KN
              exampleNestedTD.Omega exampleNestedTD.P Eps Mu s O
            = GetScatteredFields.exteriorBody exampleEnv exampleNestedTD.PG
              (GetFields_Thread.point exampleNestedTD.XMatrix 0)
              KN exampleNestedTD.Omega exampleNestedTD.P Eps Mu s O)
      ∧ (∀ O ∈ exampleNestedTD.PG.G.Objects,
          GetFields_Thread.ObjectIndex (GetFields_Thread.point exampleNestedTD.XMatrix 0)
            ≠ O.Index)) :=
  have hidx : ∀ O ∈ exampleNestedTD.PG.G.Objects,
      0 ≤ O.Index ∧ ∀ c, O.ContainingObject = some c → 0 ≤ c := by
    intro O hO
    simp only [exampleNestedTD, exampleNestedGeometry, List.mem_cons, List.mem_singleton,
      List.not_mem_nil, or_false] at hO
    rcases hO with h | h
    · subst h
      exact ⟨by decide, fun c hc => Option.noConfusion hc⟩
    · subst h
      refine ⟨by decide, fun c hc => ?_⟩
      have e : c = 0 := (Option.some.inj hc).symm
      omega
  ⟨hidx, C16_region_stub exampleEnv exampleNestedTD (HMatrix.new 3 6) 0 hidx⟩

/-! ## The coefficient reads -/

/-- The reads on the two-surface example for the region index `-1`: both
coefficients of the penetrable surface, then the coefficient of the PEC one. -/
theorem GetScatteredFields.reads_example :
    GetScatteredFields.reads exampleEnv exampleGeometry (-1)
      = [⟨0, 0, 0, 0⟩, ⟨0, 0, 1, 1⟩, ⟨1, 0, 0, 2⟩] := by
  decide

/-- C18: for lattice dimension `1` the matrix `LBasis` is allocated with one row
and three columns and the second call, `SetEntry(1,0,...)`, addresses row `1`,
which is not below the row count; for lattice dimension `2` the four calls are in
bounds.  Whenever the matrix is set up, every call has `nr < 2` and `nc < 3`, and
all calls are in bounds exactly when the lattice dimension is at least `2`. -/
theorem C18_lbasis_row_out_of_bounds {F : Type} (LBasis : Nat → Nat → F) :
    ((CreateSLDData.LBasis 1 LBasis).map
        (fun s => (s.NR, s.NC, s.calls.map (fun c => (c.nr, c.nc))))
      = some (1, 3, [(0, 0), (1, 0)]))
    ∧ (¬ ∃ s, CreateSLDData.LBasis 1 LBasis = some s
        ∧ ∀ c ∈ s.calls, SetEntryCall.inBounds s.NR s.NC c)
    ∧ ((CreateSLDData.LBasis 2 LBasis).map
        (fun s => (s.NR, s.NC, s.calls.map (fun c => (c.nr, c.nc))))
      = some (2, 3, [(0, 0), (1, 0), (0, 1), (1, 1)]))
    ∧ (∀ LDim : Int,
        (∃ s, CreateSLDData.LBasis LDim LBasis = some s
          ∧ ∀ c ∈ s.calls, SetEntryCall.inBounds s.NR s.NC c) ↔ 2 ≤ LDim)
    ∧ (∀ (LDim : Int) (s : LBasisSetup F), CreateSLDData.LBasis LDim LBasis = some s →
        s.NR = LDim ∧ s.NC = 3 ∧ ∀ c ∈ s.calls, 0 ≤ c.nr ∧ c.nr < 2 ∧ 0 ≤ c.nc ∧ c.nc < 3) := by
  have hgen : ∀ LDim : Int,
      (∃ s, CreateSLDData.LBasis LDim LBasis = some s
        ∧ ∀ c ∈ s.calls, SetEntryCall.inBounds s.NR s.NC c) ↔ 2 ≤ LDim := by
    intro LDim
    unfold CreateSLDData.LBasis SetEntryCall.inBounds
    by_cases h0 : LDim > 0
    · by_cases h1 : LDim > 1
      · simp only [if_pos h0, if_pos h1, Option.some.injEq, exists_eq_left']
        simp
        omega
      · simp only [if_pos h0, if_neg h1, Option.some.injEq, exists_eq_left']
        simp
        omega
    · simp only [if_neg h0]
      simp
      omega
  refine ⟨rfl, ?_, rfl, hgen, ?_⟩
  · rw [hgen 1]
    decide
  · intro LDim s hs
    unfold CreateSLDData.LBasis at hs
    by_cases h0 : LDim > 0
    · by_cases h1 : LDim > 1
      · simp only [if_pos h0, if_pos h1, Option.some.injEq] at hs
        subst hs
        simp
      · simp only [if_pos h0, if_neg h1, Option.some.injEq] at hs
        subst hs
        simp
    · simp only [if_neg h0] at hs
      exact Option.noConfusion hs

/-! ## The column legend of `WriteFilePreamble` -/

/-- C19: in a by-k file (`FileType` other than `FILETYPE_LDOS`) the legend
announces a column twice: for lattice dimension `1` column `4` both for `Omega`
and for `kx`, for lattice dimension `2` column `6` both for `ky` and for the
electric LDOS, so the announced columns are not pairwise distinct.  In an LDOS
file the announced columns are pairwise distinct. -/
theorem C19_legend_columns_collide (FILETYPE_LDOS : Int) :
    WriteFilePreamble.columns FILETYPE_LDOS (FILETYPE_LDOS + 1) 1
        = [1, 2, 3, 4, 4, 5, 6] ++ (List.range 24).map (fun i => (i : Int) + 8)
    ∧ WriteFilePreamble.linesOf FILETYPE_LDOS (FILETYPE_LDOS + 1) 1 4 = ["x y z Omega", "kx"]
    ∧ ¬ (WriteFilePreamble.columns FILETYPE_LDOS (FILETYPE_LDOS + 1) 1).Nodup
    ∧ WriteFilePreamble.columns FILETYPE_LDOS (FILETYPE_LDOS + 1) 2
        = [1, 2, 3, 4, 5, 6, 6, 7] ++ (List.range 24).map (fun i => (i : Int) + 9)
    ∧ WriteFilePreamble.linesOf FILETYPE_LDOS (FILETYPE_LDOS + 1) 2 6
        = ["kx ky", "electric LDOS"]
    ∧ ¬ (WriteFilePreamble.columns FILETYPE_LDOS (FILETYPE_LDOS + 1) 2).Nodup
    ∧ (∀ LDim : Int,
        WriteFilePreamble.columns FILETYPE_LDOS FILETYPE_LDOS LDim
          = [1, 2, 3, 4, 5, 6, 7, 8] ++ (List.range 18).map (fun i => 2 * (i : Int) + 9))
    ∧ (∀ LDim : Int, (WriteFilePreamble.columns FILETYPE_LDOS FILETYPE_LDOS LDim).Nodup) := by
  have hne : ¬ FILETYPE_LDOS + 1 = FILETYPE_LDOS := by omega
  have hbyk : ∀ LDim : Int, WriteFilePreamble FILETYPE_LDOS (FILETYPE_LDOS + 1) LDim
      = WriteFilePreamble 0 1 LDim := by
    intro LDim
    simp only [WriteFilePreamble, if_neg hne]
    rfl
  have hldos : ∀ LDim : Int, WriteFilePreamble FILETYPE_LDOS FILETYPE_LDOS LDim
      = WriteFilePreamble 0 0 0 := by
    intro LDim
    simp only [WriteFilePreamble, if_pos]
  have hcols : ∀ LDim : Int, WriteFilePreamble.columns FILETYPE_LDOS FILETYPE_LDOS LDim
      = [1, 2, 3, 4, 5, 6, 7, 8] ++ (List.range 18).map (fun i => 2 * (i : Int) + 9) := by
    intro LDim
    unfold WriteFilePreamble.columns
    rw [hldos]
    decide
  unfold WriteFilePreamble.linesOf
  refine ⟨?_, ?_, ?_, ?_, ?_, ?_, hcols, ?_⟩
  · unfold WriteFilePreamble.columns; rw [hbyk]; decide
  · rw [hbyk]; decide
  · unfold WriteFilePreamble.columns; rw [hbyk]; decide
  · unfold WriteFilePreamble.columns; rw [hbyk]; decide
  · rw [hbyk]; decide
  · unfold WriteFilePreamble.columns; rw [hbyk]; decide
  · intro LDim; rw [hcols]; decide

end scuff
